import Mathlib

/-!
Verification development for the keystone-gate-runtime core of the
CONTROL-PANEL repository: canonicalization (RFC 8785 / JCS restricted to
integers), the commit gate (`commit_action`), the content-addressed artifact
store, the trace index / resolver, and the replay engines (invariant,
forensic, constrained).

Modelling conventions:
- JSON values are the inductive `Json`; JavaScript numbers are classified by
  `JsNum` (integer, negative zero, NaN, infinities, non-integral finite
  values as exact fractions), which is what the serializer's
  `Number.isFinite` / `Number.isInteger` / `Number.isSafeInteger` /
  `Object.is(v, -0)` tests observe.
- SHA-256 (an external capability from node:crypto) is a parameter
  `sha : String → String`; nothing below depends on its definition.
- The compiled per-kind Ajv schema validators (the schema JSON files are not
  part of the source tree) are a parameter
  `validators : String → Json → Option (List AjvError)` where `none` means
  the envelope validated; the structural prechecks of `validateEnvelope`
  are translated from the source.
- Recursive functions over `Json` take a fuel argument so that they are
  structurally recursive and evaluable by the kernel; `sizeOf` always
  provides enough fuel.
-/

namespace Keystone

instance {ε α : Type} [DecidableEq ε] [DecidableEq α] : DecidableEq (Except ε α) :=
  fun a b =>
    match a, b with
    | .ok x, .ok y =>
      if h : x = y then .isTrue (by rw [h]) else .isFalse (by intro hh; cases hh; exact h rfl)
    | .error x, .error y =>
      if h : x = y then .isTrue (by rw [h]) else .isFalse (by intro hh; cases hh; exact h rfl)
    | .ok _, .error _ => .isFalse (by intro hh; cases hh)
    | .error _, .ok _ => .isFalse (by intro hh; cases hh)

/-- Lexicographic comparison of natural-number lists (`true` means the first
list sorts no later than the second). -/
def lexLeNat : List Nat → List Nat → Bool
  | [], _ => true
  | _ :: _, [] => false
  | a :: as, b :: bs => if a < b then true else if b < a then false else lexLeNat as bs

/-- String comparison used to model `Array.prototype.sort()` on strings and
`String.prototype.localeCompare` as they are applied in the source: both are
applied only to ASCII strings (schema-constrained keys and lowercase hex
hashes), for which JavaScript's UTF-16 code-unit order and the code-point
order implemented here coincide (the source notes this restriction). -/
def strLeB (s t : String) : Bool :=
  lexLeNat (s.toList.map Char.toNat) (t.toList.map Char.toNat)

/-- Stable insertion of `x` into a list: `x` is placed before the first
element `y` with `le x y`.  Models the placement a stable sort gives an
element relative to an already-sorted suffix. -/
def jsInsert (le : α → α → Bool) (x : α) : List α → List α
  | [] => [x]
  | y :: ys => if le x y then x :: y :: ys else y :: jsInsert le x ys

/-- Stable sort with a boolean comparator; models `Array.prototype.sort`
(specified stable) where `le a b` stands for `comparefn(a, b) <= 0`. -/
def jsSort (le : α → α → Bool) : List α → List α
  | [] => []
  | x :: xs => jsInsert le x (jsSort le xs)

/-- Classification of a JavaScript number as observed by the canonical
serializer: an exact integer, negative zero, NaN, the two infinities, or a
finite non-integral value carried as an exact fraction `num / den` (every
finite double is a dyadic rational, so this loses nothing). -/
inductive JsNum where
  | int (n : Int)
  | negZero
  | nan
  | inf
  | negInf
  | frac (num : Int) (den : Nat)
deriving DecidableEq

/-- `Number.isFinite`. -/
def JsNum.isFiniteB : JsNum → Bool
  | .nan | .inf | .negInf => false
  | _ => true

/-- The integer value of a number when `Number.isInteger` holds. -/
def JsNum.intValue? : JsNum → Option Int
  | .int n => some n
  | .negZero => some 0
  | .frac n d => if d ≠ 0 && n % (d : Int) == 0 then some (n / (d : Int)) else none
  | _ => none

/-- `Number.isInteger`. -/
def JsNum.isIntegerB (v : JsNum) : Bool := v.intValue?.isSome

/-- `Number.MAX_SAFE_INTEGER` = 2^53 - 1. -/
def maxSafeInteger : Nat := 9007199254740991

/-- `Number.isSafeInteger`. -/
def JsNum.isSafeIntegerB (v : JsNum) : Bool :=
  match v.intValue? with
  | some n => n.natAbs ≤ maxSafeInteger
  | none => false

/-- `Object.is(v, -0)`. -/
def JsNum.isNegZero : JsNum → Bool
  | .negZero => true
  | _ => false

/-- Numerator of a finite number's exact value (integers and -0 have
denominator 1). -/
def JsNum.ratNum : JsNum → Int
  | .int n => n
  | .negZero => 0
  | .frac n _ => n
  | _ => 0

/-- Denominator of a finite number's exact value. -/
def JsNum.ratDen : JsNum → Nat
  | .frac _ d => d
  | _ => 1

/-- JavaScript strict equality `===` on numbers: `NaN` is unequal to
everything (itself included), `-0 === 0`, and finite values compare by
numeric value. -/
def jsNumEqB : JsNum → JsNum → Bool
  | .nan, _ => false
  | _, .nan => false
  | .inf, .inf => true
  | .inf, _ => false
  | _, .inf => false
  | .negInf, .negInf => true
  | .negInf, _ => false
  | _, .negInf => false
  | a, b => a.ratNum * (b.ratDen : Int) == b.ratNum * (a.ratDen : Int)

/-- Whether the JavaScript subtraction `a - b` is `<= 0`; this is what the
sort comparators in the source observe.  Any NaN operand (including
`inf - inf`) makes the subtraction NaN, and NaN compares `false`. -/
def jsSubLeZero : JsNum → JsNum → Bool
  | .nan, _ => false
  | _, .nan => false
  | .inf, _ => false
  | .negInf, .negInf => false
  | .negInf, _ => true
  | _, .inf => true
  | _, .negInf => false
  | a, b => a.ratNum * (b.ratDen : Int) ≤ b.ratNum * (a.ratDen : Int)

/-- The JSON data model, extended with `undef` for JavaScript's `undefined`
(which the canonical serializer rejects and `JSON.stringify` elides).
Objects are insertion-ordered member lists; lookups use JavaScript property
semantics (a later binding of the same name shadows an earlier one). -/
inductive Json where
  | null
  | bool (b : Bool)
  | str (s : String)
  | num (v : JsNum)
  | arr (elems : List Json)
  | obj (members : List (String × Json))
  | undef

mutual

/-- Structural equality test on JSON values. -/
def Json.beq : Json → Json → Bool
  | .null, .null => true
  | .bool a, .bool b => a == b
  | .str a, .str b => a == b
  | .num a, .num b => a == b
  | .arr a, .arr b => Json.beqList a b
  | .obj a, .obj b => Json.beqMembers a b
  | .undef, .undef => true
  | _, _ => false

/-- Elementwise equality of JSON arrays. -/
def Json.beqList : List Json → List Json → Bool
  | [], [] => true
  | a :: as, b :: bs => Json.beq a b && Json.beqList as bs
  | _, _ => false

/-- Elementwise equality of object member lists. -/
def Json.beqMembers : List (String × Json) → List (String × Json) → Bool
  | [], [] => true
  | (k, v) :: as, (k', v') :: bs => k == k' && Json.beq v v' && Json.beqMembers as bs
  | _, _ => false

end

mutual

theorem Json.beq_refl : ∀ a : Json, Json.beq a a = true
  | .null => rfl
  | .bool a => by simp [Json.beq]
  | .str a => by simp [Json.beq]
  | .num a => by simp [Json.beq]
  | .arr a => by simp [Json.beq, Json.beqList_refl a]
  | .obj a => by simp [Json.beq, Json.beqMembers_refl a]
  | .undef => rfl

theorem Json.beqList_refl : ∀ as : List Json, Json.beqList as as = true
  | [] => rfl
  | a :: as => by simp [Json.beqList, Json.beq_refl a, Json.beqList_refl as]

theorem Json.beqMembers_refl : ∀ as : List (String × Json), Json.beqMembers as as = true
  | [] => rfl
  | (k, v) :: as => by simp [Json.beqMembers, Json.beq_refl v, Json.beqMembers_refl as]

end

mutual

theorem Json.beq_sound : ∀ a b : Json, Json.beq a b = true → a = b
  | .null, b => by cases b <;> simp [Json.beq]
  | .bool a, b => by cases b <;> simp [Json.beq]
  | .str a, b => by cases b <;> simp [Json.beq]
  | .num a, b => by cases b <;> simp [Json.beq]
  | .arr a, b => by
    cases b <;> simp [Json.beq]
    exact fun h => Json.beqList_sound a _ h
  | .obj a, b => by
    cases b <;> simp [Json.beq]
    exact fun h => Json.beqMembers_sound a _ h
  | .undef, b => by cases b <;> simp [Json.beq]

theorem Json.beqList_sound : ∀ as bs : List Json, Json.beqList as bs = true → as = bs
  | [], bs => by cases bs <;> simp [Json.beqList]
  | a :: as, bs => by
    cases bs with
    | nil => simp [Json.beqList]
    | cons b bs =>
      simp only [Json.beqList, Bool.and_eq_true, List.cons.injEq]
      exact fun ⟨h1, h2⟩ => ⟨Json.beq_sound a b h1, Json.beqList_sound as bs h2⟩

theorem Json.beqMembers_sound :
    ∀ as bs : List (String × Json), Json.beqMembers as bs = true → as = bs
  | [], bs => by cases bs <;> simp [Json.beqMembers]
  | (k, v) :: as, bs => by
    cases bs with
    | nil => simp [Json.beqMembers]
    | cons b bs =>
      simp only [Json.beqMembers, Bool.and_eq_true, List.cons.injEq]
      exact fun ⟨⟨h0, h1⟩, h2⟩ =>
        ⟨Prod.ext (by simpa using h0) (Json.beq_sound v b.2 h1),
         Json.beqMembers_sound as bs h2⟩

end

instance : DecidableEq Json := fun a b =>
  decidable_of_iff (Json.beq a b = true)
    ⟨Json.beq_sound a b, by rintro rfl; exact Json.beq_refl a⟩

mutual

/-- Size of a JSON value, used as recursion fuel. -/
def Json.size : Json → Nat
  | .null | .bool _ | .str _ | .num _ | .undef => 1
  | .arr xs => 1 + Json.sizeList xs
  | .obj ms => 1 + Json.sizeMembers ms

/-- Total size of the values of a JSON array. -/
def Json.sizeList : List Json → Nat
  | [] => 0
  | x :: xs => Json.size x + Json.sizeList xs

/-- Total size of the values of an object member list. -/
def Json.sizeMembers : List (String × Json) → Nat
  | [] => 0
  | (_, v) :: ms => Json.size v + Json.sizeMembers ms

end

/-- Property lookup on a member list: the value of the last binding of `k`
(JavaScript objects keep the last write). -/
def jsGetLast (members : List (String × Json)) (k : String) : Option Json :=
  match members with
  | [] => none
  | (k', v) :: rest =>
    match jsGetLast rest k with
    | some w => some w
    | none => if k' = k then some v else none

/-- `Object.keys`: each distinct key once, in first-occurrence order. -/
def jsKeys : List (String × Json) → List String
  | [] => []
  | (k, _) :: rest => k :: (jsKeys rest).filter (fun k2 => k2 ≠ k)

/-- Optional property access `j?.k`: `none` when `j` is not an object or
lacks the property. -/
def Json.get? (j : Json) (k : String) : Option Json :=
  match j with
  | .obj ms => jsGetLast ms k
  | _ => none

/-- `j?.k` as a JavaScript value: missing properties read as `undefined`. -/
def Json.getU (j : Json) (k : String) : Json :=
  Option.getD (j.get? k) Json.undef

/-- Hexadecimal digit (lowercase), for control-character escapes. -/
def hexDigit (n : Nat) : Char :=
  if n < 10 then Char.ofNat (48 + n) else Char.ofNat (87 + n)

/-- Four-digit lowercase hexadecimal, for `\uXXXX` escapes. -/
def hex4 (n : Nat) : String :=
  String.mk [hexDigit (n / 4096 % 16), hexDigit (n / 256 % 16),
             hexDigit (n / 16 % 16), hexDigit (n % 16)]

/-- Escape one character per `JSON.stringify` string serialization. -/
def escapeChar (c : Char) : String :=
  if c = '"' then "\\\""
  else if c = '\\' then "\\\\"
  else if c = '\x08' then "\\b"
  else if c = '\t' then "\\t"
  else if c = '\n' then "\\n"
  else if c = '\x0c' then "\\f"
  else if c = '\r' then "\\r"
  else if c.toNat < 0x20 then "\\u" ++ hex4 c.toNat
  else String.singleton c

/-- `JSON.stringify` applied to a string: quoted, minimally escaped. -/
def jsonQuote (s : String) : String :=
  "\"" ++ String.join (s.toList.map escapeChar) ++ "\""

/-- The number arm of the JCS serializer, translated from `jcsSerialize`:
non-finite, non-integer, and unsafe integers are rejected; `-0` serializes
as `0`; otherwise `String(v)` of the integer. -/
def jcsNum (v : JsNum) : Except String String :=
  if v.isFiniteB = false then
    .error "Non-finite numbers are forbidden in canonical JSON"
  else if v.isIntegerB = false then
    .error "Non-integer numbers are forbidden in canonical JSON"
  else if v.isSafeIntegerB = false then
    .error "Unsafe integers are forbidden in canonical JSON"
  else if v.isNegZero then .ok "0"
  else .ok (toString (v.intValue?.getD 0))

/-- One sorted-key serialization step of an object member: look up the
(last) binding of `k`; a missing or `undefined` value is forbidden. -/
def jcsMemberVal (ms : List (String × Json)) (k : String) : Except String Json :=
  match jsGetLast ms k with
  | none => .error "Undefined is forbidden in canonical JSON"
  | some v =>
    if v = .undef then .error "Undefined is forbidden in canonical JSON"
    else .ok v

/-- `jcsSerialize` with explicit fuel (the fuel only bounds the recursion
depth; `sizeOf` of the value always suffices, see `jcsSerializeF_fuel`).
Objects are serialized by walking the keys in sorted order, exactly as the
source does. -/
def jcsSerializeF : Nat → Json → Except String String
  | 0, _ => .error "out of fuel"
  | _ + 1, .null => .ok "null"
  | _ + 1, .bool b => .ok (if b then "true" else "false")
  | _ + 1, .str s => .ok (jsonQuote s)
  | _ + 1, .num v => jcsNum v
  | _ + 1, .undef => .error "Undefined is forbidden in canonical JSON"
  | fuel + 1, .arr xs =>
    match (xs.mapM (jcsSerializeF fuel) : Except String (List String)) with
    | .error e => .error e
    | .ok parts => .ok ("[" ++ String.intercalate "," parts ++ "]")
  | fuel + 1, .obj ms =>
    match ((jsSort strLeB (jsKeys ms)).mapM (fun k =>
      match jcsMemberVal ms k with
      | .error e => .error e
      | .ok v =>
        match jcsSerializeF fuel v with
        | .error e => .error e
        | .ok s => .ok (jsonQuote k ++ ":" ++ s)) : Except String (List String)) with
    | .error e => .error e
    | .ok parts => .ok ("\x7b" ++ String.intercalate "," parts ++ "\x7d")

/-- RFC 8785 / JCS canonical serialization (`canonicalizeEnvelope` in
`flowversion-envelope.js`): fails on non-integer numbers, unsafe integers,
and `undefined`. -/
def canonicalizeEnvelope (value : Json) : Except String String :=
  jcsSerializeF value.size value

/-- `hashEnvelope`: SHA-256 (the parameter `sha`) over the canonical JSON. -/
def hashEnvelope (sha : String → String) (envelope : Json) : Except String String :=
  (canonicalizeEnvelope envelope).map sha

/-- `JSON.stringify` of a number: NaN and the infinities print as `null`,
`-0` as `0`, integers in decimal.  Non-integral finite values are printed
from their exact fraction (finite doubles are dyadic, so the expansion
terminates); JavaScript prints the shortest round-tripping decimal, which
agrees on the integral values that actually occur in envelopes. -/
def stringifyNum (v : JsNum) : String :=
  match v with
  | .nan | .inf | .negInf => "null"
  | .negZero => "0"
  | .int n => toString n
  | .frac n d =>
    if d = 0 then "null"
    else if n % (d : Int) == 0 then toString (n / (d : Int))
    else
      let sign := if n < 0 then "-" else ""
      let a := n.natAbs
      sign ++ toString (a / d) ++ "." ++ fracDigits 1100 (a % d) d
where
  /-- Decimal digits of `r / d` with `0 < r < d`, up to `fuel` digits. -/
  fracDigits : Nat → Nat → Nat → String
    | 0, _, _ => ""
    | _ + 1, 0, _ => ""
    | fuel + 1, r, d =>
      String.singleton (hexDigit (r * 10 / d % 10)) ++ fracDigits fuel (r * 10 % d) d

/-- `JSON.stringify` with fuel: `undefined` has no serialization (`none`) at
top level, is elided inside objects, and prints as `null` inside arrays;
object members appear in insertion order. -/
def stringifyPlainF : Nat → Json → Option String
  | 0, _ => none
  | _ + 1, .null => some "null"
  | _ + 1, .bool b => some (if b then "true" else "false")
  | _ + 1, .str s => some (jsonQuote s)
  | _ + 1, .num v => some (stringifyNum v)
  | _ + 1, .undef => none
  | fuel + 1, .arr xs =>
    some ("[" ++ String.intercalate ","
      (xs.map (fun x => (stringifyPlainF fuel x).getD "null")) ++ "]")
  | fuel + 1, .obj ms =>
    let parts := (jsKeys ms).filterMap (fun k =>
      match jsGetLast ms k with
      | none => none
      | some v => (stringifyPlainF fuel v).map (fun s => jsonQuote k ++ ":" ++ s))
    some ("\x7b" ++ String.intercalate "," parts ++ "\x7d")

/-- `stableJson` in the constrained replay engine: plain `JSON.stringify`
(insertion order, no sorting).  Only ever applied to objects and arrays. -/
def stableJson (j : Json) : String := (stringifyPlainF j.size j).getD "null"

/-! ## Schema validation (`validateEnvelope` in flowversion-envelope.js)

The compiled Ajv validators come from schema JSON files that are not part
of the source tree; they are the parameter `validators` below.  `none`
means the envelope validated against the schema selected by its
`record_type`; `some errs` is the Ajv error list. -/

/-- The shape of an Ajv validation error, as far as
`classifySchemaErrorKind` inspects it. -/
structure AjvError where
  keyword : String
  instancePath : String
  missingProperty : Option String
deriving DecidableEq

/-- The per-kind schema validation capability (compiled Ajv validators). -/
abbrev Validators := String → Json → Option (List AjvError)

/-- Record types supported by the locked Phase 1 schema pack. -/
def RECORD_TYPES : List String :=
  ["auth_context", "policy_decision", "model_call", "tool_call"]

/-- Result of `validateEnvelope`. -/
inductive ValidateResult where
  | ok (record_type : String)
  | err (record_type : Option String) (errors : List AjvError)
deriving DecidableEq

/-- `validateEnvelope`: structural prechecks (object shape, `record_type`
present, string-typed, and in the closed set), then the per-kind schema
validator. -/
def validateEnvelope (validators : Validators) (envelope : Json) : ValidateResult :=
  match envelope with
  | .obj _ =>
    match envelope.get? "record_type" with
    | some (.str recordType) =>
      if RECORD_TYPES.contains recordType then
        match validators recordType envelope with
        | none => .ok recordType
        | some errs => .err (some recordType) errs
      else .err (some recordType) [⟨"enum", "/record_type", none⟩]
    | _ => .err none [⟨"required", "", some "record_type"⟩]
  | _ => .err none [⟨"type", "", none⟩]

/-- Deterministic schema error-kind extractor
(`classifySchemaErrorKind` in error-classification.js). -/
def classifySchemaErrorKind (ajvErrors : List AjvError) : String :=
  match ajvErrors with
  | [] => "schema_violation.unknown"
  | e :: _ =>
    if e.keyword = "required" then
      match e.missingProperty with
      | some missing =>
        if missing = "trace_id" ∧ (e.instancePath = "/trace" ∨ e.instancePath.endsWith "/trace")
        then "schema_violation.trace_context.missing_trace_id"
        else "schema_violation.required." ++ missing
      | none => "schema_violation.required"
    else if e.keyword = "additionalProperties" then "schema_violation.additional_properties"
    else if e.keyword = "type" then "schema_violation.type"
    else if e.keyword = "pattern" then "schema_violation.pattern"
    else if e.keyword = "enum" then "schema_violation.enum"
    else "schema_violation." ++ (if e.keyword = "" then "unknown" else e.keyword)

/-! ## Failure taxonomy (error-classification.js) -/

def ACCEPT : String := "ACCEPT"
def SCHEMA_REJECT : String := "SCHEMA_REJECT"
def HASH_MISMATCH : String := "HASH_MISMATCH"
def MISSING_PREREQ : String := "MISSING_PREREQ"
def TRACE_VIOLATION : String := "TRACE_VIOLATION"
def UNAUTHORIZED_EXECUTION : String := "UNAUTHORIZED_EXECUTION"
def RECORD_TYPE_FORBIDDEN : String := "RECORD_TYPE_FORBIDDEN"

/-- Failures that must not be persisted as ledger artifacts. -/
def NON_PERSISTENT_FAILURES : List String := [SCHEMA_REJECT]

/-- Failures that must be persisted as rejected-attempt ledger artifacts. -/
def PERSIST_REJECTED_ATTEMPT : List String :=
  [HASH_MISMATCH, MISSING_PREREQ, TRACE_VIOLATION, UNAUTHORIZED_EXECUTION]

def missingPrereqKind (prereq : String) : String :=
  if prereq = "auth_context" then "missing_prereq.auth_context"
  else "missing_prereq.policy_decision"

def traceViolationKind : String := "trace_violation.trace_id_mismatch"

def unauthorizedKind : String := "unauthorized.policy_denied"

def hashMismatchKind : String := "hash_mismatch.envelope_hash"

def recordTypeForbiddenKind : String := "record_type_forbidden"

/-! ## Artifact store (cpo-kernel.js) -/

/-- JavaScript `Map.get` on a string-keyed insertion-ordered map. -/
def mapGet {α : Type} (m : List (String × α)) (k : String) : Option α :=
  (m.find? (fun p => p.1 = k)).map (fun p => p.2)

/-- JavaScript `Map.set`: overwrite in place when the key exists, else
append. -/
def mapSet {α : Type} (m : List (String × α)) (k : String) (v : α) : List (String × α) :=
  if (m.find? (fun p => p.1 = k)).isSome then
    m.map (fun p => if p.1 = k then (k, v) else p)
  else m ++ [(k, v)]

/-- An accepted ledger artifact. -/
structure StoredArtifact where
  envelope_hash : String
  record_type : String
  envelope : Json
  canonical_json : String
deriving DecidableEq

/-- A rejected-attempt ledger artifact. -/
structure StoredRejectedAttempt where
  envelope_hash : String
  record_type : String
  envelope : Json
  canonical_json : String
  classification : String
  error_kind : String
deriving DecidableEq

/-- A replay-result artifact (the `other_artifacts` namespace attached by
`persistReplayResult` in replay-result-artifact.js). -/
structure ReplayResultArtifact where
  artifact_sha256 : String
  canonical_json : String
  artifact : Json
deriving DecidableEq

/-- The content-addressed store: accepted artifacts, rejected attempts, and
the replay-result namespace. -/
structure ArtifactStore where
  accepted : List (String × StoredArtifact)
  rejected_attempts : List (String × StoredRejectedAttempt)
  other_artifacts : List (String × ReplayResultArtifact)
deriving DecidableEq

/-- The empty store (`new ArtifactStore()`). -/
def ArtifactStore.empty : ArtifactStore := ⟨[], [], []⟩

def ArtifactStore.getAccepted (store : ArtifactStore) (envelopeHash : String) :
    Option StoredArtifact :=
  mapGet store.accepted envelopeHash

def ArtifactStore.putAccepted (store : ArtifactStore) (artifact : StoredArtifact) :
    ArtifactStore :=
  { store with accepted := mapSet store.accepted artifact.envelope_hash artifact }

def ArtifactStore.putRejectedAttempt (store : ArtifactStore)
    (attempt : StoredRejectedAttempt) : ArtifactStore :=
  { store with
    rejected_attempts := mapSet store.rejected_attempts attempt.envelope_hash attempt }

/-- `store.getAccepted(h)` where `h` is a JavaScript value read off an
envelope: a lookup with a non-string key misses (the map is string-keyed). -/
def getAcceptedByJson (store : ArtifactStore) (h : Option Json) : Option StoredArtifact :=
  match h with
  | some (.str s) => store.getAccepted s
  | _ => none

/-! ## The commit gate (`commit_action` in cpo-kernel.js) -/

/-- The outcome returned by `commit_action`. -/
inductive CommitResult where
  | accepted (envelope_hash canonical_json : String)
  | rejected (classification error_kind : String)
      (computed_envelope_hash canonical_json : Option String)
deriving DecidableEq

/-- The classification carried by a commit outcome. -/
def CommitResult.classification : CommitResult → String
  | .accepted _ _ => ACCEPT
  | .rejected c _ _ _ => c

/-- The error kind of a rejection (`none` on acceptance). -/
def CommitResult.errorKind : CommitResult → Option String
  | .accepted _ _ => none
  | .rejected _ k _ _ => some k

/-- Resolved prerequisites. -/
structure Prereqs where
  auth_context : Option StoredArtifact
  policy_decision : Option StoredArtifact
deriving DecidableEq

/-- Result of prerequisite resolution. -/
inductive PrereqResult where
  | ok (prereqs : Prereqs)
  | fail (classification error_kind : String)
deriving DecidableEq

/-- `_resolvePrereqs`: per-kind lookup of the referenced accepted artifacts. -/
def _resolvePrereqs (store : ArtifactStore) (record_type : String) (envelope : Json) :
    PrereqResult :=
  if record_type = "auth_context" then .ok ⟨none, none⟩
  else if record_type = "policy_decision" then
    match getAcceptedByJson store (envelope.get? "auth_context_envelope_sha256") with
    | none => .fail MISSING_PREREQ (missingPrereqKind "auth_context")
    | some auth => .ok ⟨some auth, none⟩
  else if record_type = "model_call" ∨ record_type = "tool_call" then
    match getAcceptedByJson store (envelope.get? "auth_context_envelope_sha256") with
    | none => .fail MISSING_PREREQ (missingPrereqKind "auth_context")
    | some auth =>
      match getAcceptedByJson store (envelope.get? "policy_decision_envelope_sha256") with
      | none => .fail MISSING_PREREQ (missingPrereqKind "policy_decision")
      | some pd => .ok ⟨some auth, some pd⟩
  else .fail RECORD_TYPE_FORBIDDEN recordTypeForbiddenKind

/-- `envelope?.trace?.trace_id` as a JavaScript value. -/
def traceIdOfJson (envelope : Json) : Option Json :=
  (envelope.get? "trace").bind (fun t => t.get? "trace_id")

/-- `_enforceTraceContinuity`: the record's `trace_id` must be a string and
equal every resolved prerequisite's `trace_id`.  Returns the failure, if
any. -/
def _enforceTraceContinuity (record_type : String) (envelope : Json) (prereqs : Prereqs) :
    Option (String × String) :=
  if record_type = "auth_context" then none
  else
    match traceIdOfJson envelope with
    | some (.str traceId) =>
      if record_type = "policy_decision" then
        match prereqs.auth_context with
        | some auth =>
          if traceIdOfJson auth.envelope = some (.str traceId) then none
          else some (TRACE_VIOLATION, traceViolationKind)
        | none => some (TRACE_VIOLATION, traceViolationKind)
      else if record_type = "model_call" ∨ record_type = "tool_call" then
        match prereqs.auth_context, prereqs.policy_decision with
        | some auth, some pd =>
          if traceIdOfJson auth.envelope = some (.str traceId) ∧
             traceIdOfJson pd.envelope = some (.str traceId) then none
          else some (TRACE_VIOLATION, traceViolationKind)
        | _, _ => some (TRACE_VIOLATION, traceViolationKind)
      else none
    | _ => some (TRACE_VIOLATION, traceViolationKind)

/-- `_enforceAuthorization`: model/tool evidence requires the resolved
policy decision's `decision.result` to be `"allow"`. -/
def _enforceAuthorization (record_type : String) (prereqs : Prereqs) :
    Option (String × String) :=
  if record_type ≠ "model_call" ∧ record_type ≠ "tool_call" then none
  else
    match prereqs.policy_decision with
    | some pd =>
      if ((pd.envelope.get? "decision").bind (fun d => d.get? "result")) = some (.str "allow")
      then none
      else some (UNAUTHORIZED_EXECUTION, unauthorizedKind)
    | none => some (UNAUTHORIZED_EXECUTION, unauthorizedKind)

/-- `_persistRejectedAttemptIfRequired`: persist a rejected attempt keyed by
the computed envelope hash, unless the classification is non-persistent. -/
def _persistRejectedAttemptIfRequired (store : ArtifactStore)
    (classification error_kind record_type : String) (envelope : Json)
    (canonical_json envelope_hash : String) : ArtifactStore :=
  if NON_PERSISTENT_FAILURES.contains classification then store
  else if PERSIST_REJECTED_ATTEMPT.contains classification then
    store.putRejectedAttempt
      ⟨envelope_hash, record_type, envelope, canonical_json, classification, error_kind⟩
  else store

/-- `commit_action(record_type, declared_envelope_hash, envelope)`: the
fixed-sequence commit gate.  A canonicalization exception propagates as
`Except.error` (the JavaScript exception escaping `commit_action`). -/
def commit_action (validators : Validators) (sha : String → String)
    (store : ArtifactStore) (record_type declared_envelope_hash : String)
    (envelope : Json) : Except String (CommitResult × ArtifactStore) :=
  -- 0) Closed-world record type check.
  if RECORD_TYPES.contains record_type = false then
    .ok (.rejected RECORD_TYPE_FORBIDDEN recordTypeForbiddenKind none none, store)
  else
    -- 1) Schema validation.
    match validateEnvelope validators envelope with
    | .err _ errors =>
      .ok (.rejected SCHEMA_REJECT (classifySchemaErrorKind errors) none none, store)
    | .ok _ =>
      -- Fail-closed: the boundary-declared record_type must match the payload.
      if envelope.get? "record_type" ≠ some (.str record_type) then
        .ok (.rejected SCHEMA_REJECT "schema_violation.record_type_mismatch" none none,
          store)
      else
        -- 2) Canonicalization (an exception propagates out of the gate).
        match canonicalizeEnvelope envelope with
        | .error e => .error e
        | .ok canonical_json =>
          -- 3) Hash computation.
          match hashEnvelope sha envelope with
          | .error e => .error e
          | .ok computed_envelope_hash =>
            -- 4) Hash comparison.
            if declared_envelope_hash ≠ computed_envelope_hash then
              .ok (.rejected HASH_MISMATCH hashMismatchKind
                (some computed_envelope_hash) (some canonical_json),
                _persistRejectedAttemptIfRequired store HASH_MISMATCH hashMismatchKind
                  record_type envelope canonical_json computed_envelope_hash)
            else
              -- 5) Prerequisite resolution.
              match _resolvePrereqs store record_type envelope with
              | .fail classification error_kind =>
                .ok (.rejected classification error_kind
                  (some computed_envelope_hash) (some canonical_json),
                  _persistRejectedAttemptIfRequired store classification error_kind
                    record_type envelope canonical_json computed_envelope_hash)
              | .ok prereqs =>
                -- 6) Trace continuity enforcement.
                match _enforceTraceContinuity record_type envelope prereqs with
                | some (classification, error_kind) =>
                  .ok (.rejected classification error_kind
                    (some computed_envelope_hash) (some canonical_json),
                    _persistRejectedAttemptIfRequired store classification error_kind
                      record_type envelope canonical_json computed_envelope_hash)
                | none =>
                  -- 7) Authorization check.
                  match _enforceAuthorization record_type prereqs with
                  | some (classification, error_kind) =>
                    .ok (.rejected classification error_kind
                      (some computed_envelope_hash) (some canonical_json),
                      _persistRejectedAttemptIfRequired store classification error_kind
                        record_type envelope canonical_json computed_envelope_hash)
                  | none =>
                    -- 8) Persist accepted artifact.
                    .ok (.accepted computed_envelope_hash canonical_json,
                      store.putAccepted
                        ⟨computed_envelope_hash, record_type, envelope, canonical_json⟩)

/-- A single call to the commit gate. -/
structure CommitCall where
  record_type : String
  declared_envelope_hash : String
  envelope : Json
deriving DecidableEq

/-- Run a sequence of `commit_action` calls against a store. -/
def runCommits (validators : Validators) (sha : String → String) :
    ArtifactStore → List CommitCall → Except String ArtifactStore
  | store, [] => .ok store
  | store, c :: cs =>
    match commit_action validators sha store c.record_type c.declared_envelope_hash
      c.envelope with
    | .error e => .error e
    | .ok (_, store') => runCommits validators sha store' cs

/-! ## Trace index and resolver (replay-index.js) -/

/-- A ledger artifact as viewed by the replay index. -/
structure LedgerEnvelopeArtifact where
  envelope_hash : String
  record_type : String
  envelope : Json
  canonical_json : String
  ledger_status : String
  classification : Option String
  error_kind : Option String
deriving DecidableEq

def toLedgerAccepted (h : String) (a : StoredArtifact) : LedgerEnvelopeArtifact :=
  ⟨h, a.record_type, a.envelope, a.canonical_json, "accepted", none, none⟩

def toLedgerRejected (h : String) (a : StoredRejectedAttempt) : LedgerEnvelopeArtifact :=
  ⟨h, a.record_type, a.envelope, a.canonical_json, "rejected_attempt",
   some a.classification, some a.error_kind⟩

/-- The bucket of `buildTraceIndex` for one trace id: accepted entries (in
map insertion order) then, optionally, rejected-attempt entries; artifacts
whose `trace.trace_id` is not a non-empty string are skipped, so the lookup
of an empty trace id finds nothing. -/
def buildTraceBucket (store : ArtifactStore) (include_rejected_attempts : Bool)
    (trace_id : String) : List LedgerEnvelopeArtifact :=
  if trace_id = "" then []
  else
    ((store.accepted.map (fun p => toLedgerAccepted p.1 p.2)) ++
      (if include_rejected_attempts then
        store.rejected_attempts.map (fun p => toLedgerRejected p.1 p.2)
      else [])).filter
      (fun art => traceIdOfJson art.envelope = some (.str trace_id))

/-- `recordRank`: AuthContext(0) < PolicyDecision(1) < Evidence(2); unknown
kinds rank 9. -/
def recordRank (rt : String) : Nat :=
  if rt = "auth_context" then 0
  else if rt = "policy_decision" then 1
  else if rt = "model_call" ∨ rt = "tool_call" then 2
  else 9

/-- `timeKey`: `ts_ms` for auth/policy records, `started_at_ms` for
evidence; non-numbers read as 0. -/
def timeKey (artifact : LedgerEnvelopeArtifact) : JsNum :=
  if artifact.record_type = "auth_context" ∨ artifact.record_type = "policy_decision" then
    match artifact.envelope.get? "ts_ms" with
    | some (.num v) => v
    | _ => .int 0
  else if artifact.record_type = "model_call" ∨ artifact.record_type = "tool_call" then
    match artifact.envelope.get? "started_at_ms" with
    | some (.num v) => v
    | _ => .int 0
  else .int 0

/-- The chain ordering comparator of `resolveTraceChain`, as a `<=` test:
record rank, then time key (compared as the JavaScript subtraction used by
the comparator), then envelope hash. -/
def chainLe (a b : LedgerEnvelopeArtifact) : Bool :=
  let ra := recordRank a.record_type
  let rb := recordRank b.record_type
  if ra ≠ rb then decide (ra < rb)
  else
    let ta := timeKey a
    let tb := timeKey b
    if jsNumEqB ta tb = false then jsSubLeZero ta tb
    else strLeB a.envelope_hash b.envelope_hash

/-- The resolved chain view of a trace. -/
structure ResolvedTraceChain where
  trace_id : String
  ordered : List LedgerEnvelopeArtifact
  auth_context : List LedgerEnvelopeArtifact
  policy_decision : List LedgerEnvelopeArtifact
  evidence : List LedgerEnvelopeArtifact
deriving DecidableEq

/-- `resolveTraceChain`: deterministic per-trace view; `none` when the
trace has no artifacts. -/
def resolveTraceChain (store : ArtifactStore) (trace_id : String)
    (include_rejected_attempts : Bool) : Option ResolvedTraceChain :=
  let items := buildTraceBucket store include_rejected_attempts trace_id
  if items = [] then none
  else
    let ordered := jsSort chainLe items
    some
      { trace_id := trace_id
        ordered := ordered
        auth_context := ordered.filter (fun x => x.record_type = "auth_context")
        policy_decision := ordered.filter (fun x => x.record_type = "policy_decision")
        evidence := ordered.filter
          (fun x => x.record_type = "model_call" ∨ x.record_type = "tool_call") }

/-! ## Replay result artifacts (replay-result-artifact.js) -/

def REPLAY_CHAIN_NOT_FOUND : String := "REPLAY_CHAIN_NOT_FOUND"
def REPLAY_POLICY_PATH_MISMATCH : String := "REPLAY_POLICY_PATH_MISMATCH"
def REPLAY_VARIANCE_VIOLATION : String := "REPLAY_VARIANCE_VIOLATION"

/-- The replay result record emitted by the engines.  `generated_at` is the
ISO-8601 string `isoTime(clock)` of the injected clock;
`reference_trace_id` is only set by constrained replay, `failure_class`
only on failure (both absent from the serialized object otherwise). -/
structure ReplayRecord where
  replay_type : String
  target_trace_id : String
  input_envelope_hashes : List String
  result : String
  generated_at : String
  reference_trace_id : Option String
  failure_class : Option String
deriving DecidableEq

/-- The replay record as the JSON object the engines build (members in
insertion order; optional members only when set). -/
def ReplayRecord.toJson (r : ReplayRecord) : Json :=
  .obj
    ([("replay_type", .str r.replay_type),
      ("target_trace_id", .str r.target_trace_id),
      ("input_envelope_hashes", .arr (r.input_envelope_hashes.map .str)),
      ("result", .str r.result),
      ("generated_at", .str r.generated_at)] ++
     (match r.reference_trace_id with
      | some t => [("reference_trace_id", Json.str t)]
      | none => []) ++
     (match r.failure_class with
      | some c => [("failure_class", Json.str c)]
      | none => []))

/-- The `isoTime` of the default clock `new Date(0)`. -/
def epochIso : String := "1970-01-01T00:00:00.000Z"

/-- `persistReplayResult`: canonicalize and hash the result record and store
it in the replay-result namespace keyed by its hash. -/
def persistReplayResult (sha : String → String) (store : ArtifactStore)
    (result : ReplayRecord) : Except String (String × ArtifactStore) :=
  match canonicalizeEnvelope result.toJson with
  | .error e => .error e
  | .ok canonical_json =>
    match hashEnvelope sha result.toJson with
    | .error e => .error e
    | .ok h =>
      .ok (h, { store with
        other_artifacts :=
          mapSet store.other_artifacts h ⟨h, canonical_json, result.toJson⟩ })

/-- The `finalize` helper shared by the replay engines: persist the result
record when requested. -/
def finalizeReplay (sha : String → String) (store : ArtifactStore)
    (record : ReplayRecord) (persist : Bool) :
    Except String (ReplayRecord × ArtifactStore) :=
  if persist then
    match persistReplayResult sha store record with
    | .error e => .error e
    | .ok (_, store') => .ok (record, store')
  else .ok (record, store)

/-! ## Invariant replay engine (invariant-replay.js) -/

/-- `requireAccepted`: accepted-namespace lookup by an envelope field. -/
def requireAccepted (store : ArtifactStore) (hash : Option Json) : Option StoredArtifact :=
  getAcceptedByJson store hash

/-- `schemaAndHashCheck`: schema re-validation and hash integrity for one
artifact; returns the failure class, if any. -/
def schemaAndHashCheck (validators : Validators) (sha : String → String)
    (envelope : Json) (expectedHash : String) : Except String (Option String) :=
  match validateEnvelope validators envelope with
  | .err _ _ => .ok (some SCHEMA_REJECT)
  | .ok _ =>
    match hashEnvelope sha envelope with
    | .error e => .error e
    | .ok h => if h ≠ expectedHash then .ok (some HASH_MISMATCH) else .ok none

/-- First failure of `schemaAndHashCheck` over a chain. -/
def invariantScan (validators : Validators) (sha : String → String) :
    List LedgerEnvelopeArtifact → Except String (Option String)
  | [] => .ok none
  | art :: rest =>
    match schemaAndHashCheck validators sha art.envelope art.envelope_hash with
    | .error e => .error e
    | .ok (some fc) => .ok (some fc)
    | .ok none => invariantScan validators sha rest

/-- The per-record prerequisite / trace-continuity / authorization check of
the replay engines (the same block appears in invariant-replay.js and
forensic-replay.js); returns the failure class, if any. -/
def invariantChainCheck (store : ArtifactStore) (art : LedgerEnvelopeArtifact) :
    Option String :=
  let rt := art.record_type
  let env := art.envelope
  if rt = "auth_context" then none
  else if rt = "policy_decision" then
    match requireAccepted store (env.get? "auth_context_envelope_sha256") with
    | none => some MISSING_PREREQ
    | some auth =>
      if traceIdOfJson auth.envelope ≠ traceIdOfJson env then some TRACE_VIOLATION
      else none
  else if rt = "model_call" ∨ rt = "tool_call" then
    match requireAccepted store (env.get? "auth_context_envelope_sha256") with
    | none => some MISSING_PREREQ
    | some auth =>
      match requireAccepted store (env.get? "policy_decision_envelope_sha256") with
      | none => some MISSING_PREREQ
      | some pd =>
        let tid := traceIdOfJson env
        if traceIdOfJson auth.envelope ≠ tid ∨ traceIdOfJson pd.envelope ≠ tid then
          some TRACE_VIOLATION
        else if ((pd.envelope.get? "decision").bind (fun d => d.get? "result")) ≠
            some (.str "allow") then
          some UNAUTHORIZED_EXECUTION
        else none
  else none

/-- First failure of `invariantChainCheck` over a chain. -/
def invariantChainScan (store : ArtifactStore) :
    List LedgerEnvelopeArtifact → Option String
  | [] => none
  | art :: rest =>
    match invariantChainCheck store art with
    | some fc => some fc
    | none => invariantChainScan store rest

/-- `invariantReplay(store, trace_id, opts)`: verify the trace's chain
without execution and emit a result record. -/
def invariantReplay (validators : Validators) (sha : String → String)
    (store : ArtifactStore) (trace_id : String)
    (include_rejected_attempts : Bool) (generated_at : String) (persist : Bool) :
    Except String (ReplayRecord × ArtifactStore) :=
  match resolveTraceChain store trace_id include_rejected_attempts with
  | none =>
    finalizeReplay sha store
      ⟨"invariant", trace_id, [], "fail", generated_at, none, some REPLAY_CHAIN_NOT_FOUND⟩
      persist
  | some chain =>
    let hashes := chain.ordered.map (fun x => x.envelope_hash)
    match invariantScan validators sha chain.ordered with
    | .error e => .error e
    | .ok (some fc) =>
      finalizeReplay sha store
        ⟨"invariant", trace_id, hashes, "fail", generated_at, none, some fc⟩ persist
    | .ok none =>
      match invariantChainScan store chain.ordered with
      | some fc =>
        finalizeReplay sha store
          ⟨"invariant", trace_id, hashes, "fail", generated_at, none, some fc⟩ persist
      | none =>
        finalizeReplay sha store
          ⟨"invariant", trace_id, hashes, "pass", generated_at, none, none⟩ persist

/-! ## Forensic replay engine (forensic-replay.js, local-recompute
strategy) -/

/-- First failure of the forensic per-artifact block: schema re-validation,
canonical-byte equality against the stored bytes, and hash integrity. -/
def forensicScan (validators : Validators) (sha : String → String) :
    List LedgerEnvelopeArtifact → Except String (Option String)
  | [] => .ok none
  | art :: rest =>
    match validateEnvelope validators art.envelope with
    | .err _ _ => .ok (some SCHEMA_REJECT)
    | .ok _ =>
      match canonicalizeEnvelope art.envelope with
      | .error e => .error e
      | .ok canonical =>
        if canonical ≠ art.canonical_json then .ok (some HASH_MISMATCH)
        else
          match hashEnvelope sha art.envelope with
          | .error e => .error e
          | .ok h =>
            if h ≠ art.envelope_hash then .ok (some HASH_MISMATCH)
            else forensicScan validators sha rest

/-- `forensicReplay(store, trace_id, opts)`: bit-exact re-verification over
the trace's chain. -/
def forensicReplay (validators : Validators) (sha : String → String)
    (store : ArtifactStore) (trace_id : String)
    (include_rejected_attempts : Bool) (generated_at : String) (persist : Bool) :
    Except String (ReplayRecord × ArtifactStore) :=
  match resolveTraceChain store trace_id include_rejected_attempts with
  | none =>
    finalizeReplay sha store
      ⟨"forensic", trace_id, [], "fail", generated_at, none, some REPLAY_CHAIN_NOT_FOUND⟩
      persist
  | some chain =>
    let hashes := chain.ordered.map (fun x => x.envelope_hash)
    match forensicScan validators sha chain.ordered with
    | .error e => .error e
    | .ok (some fc) =>
      finalizeReplay sha store
        ⟨"forensic", trace_id, hashes, "fail", generated_at, none, some fc⟩ persist
    | .ok none =>
      match invariantChainScan store chain.ordered with
      | some fc =>
        finalizeReplay sha store
          ⟨"forensic", trace_id, hashes, "fail", generated_at, none, some fc⟩ persist
      | none =>
        finalizeReplay sha store
          ⟨"forensic", trace_id, hashes, "pass", generated_at, none, none⟩ persist

/-! ## Constrained replay engine (constrained.js) -/

/-- `keysSorted`: sorted own keys of an object-typed value, else `[]`
(arrays expose their index strings, `null` is falsy). -/
def keysSorted (j : Json) : List String :=
  match j with
  | .obj ms => jsSort strLeB (jsKeys ms)
  | .arr xs => jsSort strLeB ((List.range xs.length).map (fun i => toString i))
  | _ => []

/-- `j?.k1?.k2` as a JavaScript value. -/
def Json.getU2 (j : Json) (k1 k2 : String) : Json :=
  Option.getD ((j.get? k1).bind (fun x => x.get? k2)) Json.undef

/-- `policySignature`: the projection of a policy decision compared by
constrained replay. -/
def policySignature (pdEnv : Json) : Json :=
  .obj
    [("policy_id", pdEnv.getU2 "policy" "policy_id"),
     ("policy_version", pdEnv.getU2 "policy" "policy_version"),
     ("policy_sha256", pdEnv.getU2 "policy" "policy_sha256"),
     ("action", pdEnv.getU2 "request" "action"),
     ("resource", pdEnv.getU2 "request" "resource"),
     ("result", pdEnv.getU2 "decision" "result"),
     ("reason_codes", .arr ((keysSorted (pdEnv.getU2 "decision" "reason_codes")).map .str)),
     ("obligations", .arr ((keysSorted (pdEnv.getU2 "decision" "obligations")).map .str))]

/-- `evidenceIdentity`: the identity string of an evidence record (kind,
model/tool identifiers, request reference, and the signature of its
referenced policy decision); `none` for non-evidence records. -/
def evidenceIdentity (store : ArtifactStore) (env : Json) : Option String :=
  match env.get? "record_type" with
  | some (.str rt) =>
    if rt ≠ "model_call" ∧ rt ≠ "tool_call" then none
    else
      let pd := getAcceptedByJson store (env.get? "policy_decision_envelope_sha256")
      let pdSig := match pd with
        | some pd => policySignature pd.envelope
        | none => Json.null
      if rt = "model_call" then
        some (stableJson (.obj
          [("rt", .str rt),
           ("model", .obj [("provider", env.getU2 "model" "provider"),
                           ("model", env.getU2 "model" "model")]),
           ("request", env.getU "request"),
           ("policy", pdSig)]))
      else
        some (stableJson (.obj
          [("rt", .str rt),
           ("tool", .obj [("adapter_id", env.getU2 "tool" "adapter_id"),
                          ("tool_name", env.getU2 "tool" "tool_name")]),
           ("request", env.getU "request"),
           ("policy", pdSig)]))
  | _ => none

/-- JavaScript truthiness test (for the falsy guard in `blobrefEquals`). -/
def jsFalsy : Json → Bool
  | .undef | .null => true
  | .bool b => !b
  | .str s => s = ""
  | .num v =>
    match v with
    | .int n => n = 0
    | .negZero => true
    | .nan => true
    | .frac n _ => n = 0
    | _ => false
  | .arr _ => false
  | .obj _ => false

/-- Strict equality `===` on the field values compared by `blobrefEquals`
(strings and numbers in practice; for objects structural equality stands in
for reference equality, which only widens the `true` case consistently with
the surrounding field comparison). -/
def jsStrictEq (a b : Json) : Bool :=
  match a, b with
  | .num x, .num y => jsNumEqB x y
  | _, _ => a = b

/-- `blobrefEquals`: content-addressed reference equality by
`sha256` / `size_bytes` / `content_type`. -/
def blobrefEquals (a b : Json) : Bool :=
  if a = b then true
  else if jsFalsy a ∨ jsFalsy b then false
  else
    jsStrictEq (a.getU "sha256") (b.getU "sha256") &&
    jsStrictEq (a.getU "size_bytes") (b.getU "size_bytes") &&
    jsStrictEq (a.getU "content_type") (b.getU "content_type")

/-- The evidence-identity map of one trace: identity string to artifact,
later artifacts with the same identity overwriting earlier ones. -/
def buildEvidenceMap (store : ArtifactStore) (arts : List LedgerEnvelopeArtifact) :
    List (String × LedgerEnvelopeArtifact) :=
  arts.foldl
    (fun m art =>
      match evidenceIdentity store art.envelope with
      | some id => if id ≠ "" then mapSet m id art else m
      | none => m) []

/-- One allowed-difference diagnostics entry. -/
def allowedDiffEntry (rt baseHash candHash : String) : Json :=
  .obj
    [("record_type", .str rt),
     ("baseline_envelope_hash", .str baseHash),
     ("candidate_envelope_hash", .str candHash),
     ("allowed_because", .str (rt ++ ".response BlobRef allowed to vary"))]

/-- The variance-enforcement loop over the matched identity list: returns
the failure (if any) and the allowed-difference entries pushed before it. -/
def varianceScan (replay_policy : Json)
    (baseById candById : List (String × LedgerEnvelopeArtifact)) :
    List String → Option String × List Json
  | [] => (none, [])
  | id :: rest =>
    match mapGet baseById id with
    | none => varianceScan replay_policy baseById candById rest
    | some b =>
      match mapGet candById id with
      | none => varianceScan replay_policy baseById candById rest
      | some c =>
        let rt := b.record_type
        let bResp := b.envelope.getU "response"
        let cResp := c.envelope.getU "response"
        if blobrefEquals bResp cResp then
          varianceScan replay_policy baseById candById rest
        else
          let allow :=
            if rt = "model_call" then
              ((replay_policy.get? "allow_variance").bind (fun x => x.get? "model_call")
                |>.bind (fun x => x.get? "allow_response_blobref")) = some (.bool true)
            else
              ((replay_policy.get? "allow_variance").bind (fun x => x.get? "tool_call")
                |>.bind (fun x => x.get? "allow_response_blobref")) = some (.bool true)
          if allow then
            match varianceScan replay_policy baseById candById rest with
            | (f, ds) => (f, allowedDiffEntry rt b.envelope_hash c.envelope_hash :: ds)
          else (some REPLAY_VARIANCE_VIOLATION, [])

/-- Constrained replay diagnostics. -/
structure ConstrainedDiagnostics where
  allowed_hash_differences : List Json
  baseline_policy_path : Option (List Json)
  candidate_policy_path : Option (List Json)
deriving DecidableEq

/-- Finish a constrained replay run: persist the record when requested and
pair it with the diagnostics. -/
def finalizeConstrained (sha : String → String) (store : ArtifactStore)
    (record : ReplayRecord) (diag : ConstrainedDiagnostics) (persist : Bool) :
    Except String (ReplayRecord × ConstrainedDiagnostics × ArtifactStore) :=
  match finalizeReplay sha store record persist with
  | .error e => .error e
  | .ok (record, store') => .ok (record, diag, store')

/-- `constrainedReplay(store, args)`: compare a baseline and a candidate
trace under an explicit variance policy (given as the JSON value
`replay_policy`, read as `replay_policy?.allow_variance?...`). -/
def constrainedReplay (validators : Validators) (sha : String → String)
    (store : ArtifactStore) (baseline_trace_id candidate_trace_id : String)
    (replay_policy : Json) (generated_at : String) (persist : Bool) :
    Except String (ReplayRecord × ConstrainedDiagnostics × ArtifactStore) :=
  match resolveTraceChain store baseline_trace_id false,
        resolveTraceChain store candidate_trace_id false with
  | some baseline, some candidate =>
    let hashes := baseline.ordered.map (fun x => x.envelope_hash) ++
      candidate.ordered.map (fun x => x.envelope_hash)
    let mkRecord := fun (result : String) (fc : Option String) =>
      (⟨"constrained", candidate_trace_id, hashes, result, generated_at,
        some baseline_trace_id, fc⟩ : ReplayRecord)
    -- 1) Both traces must satisfy invariant replay.
    match invariantReplay validators sha store baseline_trace_id false epochIso false with
    | .error e => .error e
    | .ok (invBase, _) =>
      match invariantReplay validators sha store candidate_trace_id false epochIso false
        with
      | .error e => .error e
      | .ok (invCand, _) =>
        if invBase.result ≠ "pass" then
          finalizeConstrained sha store (mkRecord "fail" invBase.failure_class)
            ⟨[], none, none⟩ persist
        else if invCand.result ≠ "pass" then
          finalizeConstrained sha store (mkRecord "fail" invCand.failure_class)
            ⟨[], none, none⟩ persist
        else
          -- 2) Policy-path equivalence.
          let basePath := jsSort (fun a b => strLeB (stableJson a) (stableJson b))
            (baseline.policy_decision.map (fun x => policySignature x.envelope))
          let candPath := jsSort (fun a b => strLeB (stableJson a) (stableJson b))
            (candidate.policy_decision.map (fun x => policySignature x.envelope))
          let diag : ConstrainedDiagnostics := ⟨[], some basePath, some candPath⟩
          if basePath.length ≠ candPath.length ∨
             basePath.map stableJson ≠ candPath.map stableJson then
            finalizeConstrained sha store
              (mkRecord "fail" (some REPLAY_POLICY_PATH_MISMATCH)) diag persist
          else
            -- 3) Evidence identity + allowed variance enforcement.
            let baseById := buildEvidenceMap store baseline.evidence
            let candById := buildEvidenceMap store candidate.evidence
            let baseIds := jsSort strLeB (baseById.map (fun p => p.1))
            let candIds := jsSort strLeB (candById.map (fun p => p.1))
            if stableJson (.arr (baseIds.map .str)) ≠
               stableJson (.arr (candIds.map .str)) then
              finalizeConstrained sha store
                (mkRecord "fail" (some REPLAY_POLICY_PATH_MISMATCH)) diag persist
            else
              match varianceScan replay_policy baseById candById baseIds with
              | (some fc, ds) =>
                finalizeConstrained sha store (mkRecord "fail" (some fc))
                  { diag with allowed_hash_differences := ds } persist
              | (none, ds) =>
                finalizeConstrained sha store (mkRecord "pass" none)
                  { diag with allowed_hash_differences := ds } persist
  | _, _ =>
    finalizeConstrained sha store
      ⟨"constrained", candidate_trace_id, [], "fail", generated_at,
       some baseline_trace_id, some REPLAY_CHAIN_NOT_FOUND⟩ ⟨[], none, none⟩ persist

/-! ## Map lemmas -/

theorem mapGet_nil {α : Type} (k : String) : mapGet ([] : List (String × α)) k = none := rfl

theorem mapGet_cons {α : Type} (p : String × α) (m : List (String × α)) (k : String) :
    mapGet (p :: m) k = if p.1 = k then some p.2 else mapGet m k := by
  rcases p with ⟨k', v'⟩
  by_cases h : k' = k <;> simp [mapGet, List.find?_cons, h]

theorem mapGet_map_subst_self {α : Type} (m : List (String × α)) (k : String) (v : α) :
    mapGet (m.map (fun p => if p.1 = k then (k, v) else p)) k =
      if (mapGet m k).isSome then some v else none := by
  induction m with
  | nil => simp [mapGet_nil]
  | cons p m ih =>
    rcases p with ⟨a, b⟩
    by_cases h : a = k
    · simp [mapGet_cons, h]
    · simp only [List.map_cons, if_neg h, mapGet_cons, if_neg h]
      exact ih

theorem mapGet_map_subst_ne {α : Type} (m : List (String × α)) (k k' : String) (v : α)
    (hne : k' ≠ k) :
    mapGet (m.map (fun p => if p.1 = k then (k, v) else p)) k' = mapGet m k' := by
  induction m with
  | nil => simp [mapGet_nil]
  | cons p m ih =>
    rcases p with ⟨a, b⟩
    by_cases h : a = k
    · have h1 : ¬ (k = k') := fun hh => hne hh.symm
      have h2 : ¬ (a = k') := fun hh => hne (by rw [← hh, h])
      simp only [List.map_cons, if_pos h, mapGet_cons, if_neg h1, if_neg h2]
      exact ih
    · by_cases h' : a = k'
      · simp only [List.map_cons, if_neg h, mapGet_cons, if_pos h']
      · simp only [List.map_cons, if_neg h, mapGet_cons, if_neg h']
        exact ih

theorem mapGet_append_single {α : Type} (m : List (String × α)) (k k' : String) (v : α) :
    mapGet (m ++ [(k, v)]) k' =
      match mapGet m k' with
      | some w => some w
      | none => if k = k' then some v else none := by
  induction m with
  | nil => by_cases h : k = k' <;> simp [mapGet_nil, mapGet_cons, h]
  | cons p m ih =>
    by_cases h : p.1 = k'
    · simp [mapGet_cons, h]
    · simpa [mapGet_cons, h] using ih

theorem find?_isSome_eq_mapGet_isSome {α : Type} (m : List (String × α)) (k : String) :
    (m.find? (fun p => p.1 = k)).isSome = (mapGet m k).isSome := by
  unfold mapGet
  cases m.find? (fun p => p.1 = k) <;> simp

theorem mapGet_mapSet_self {α : Type} (m : List (String × α)) (k : String) (v : α) :
    mapGet (mapSet m k v) k = some v := by
  unfold mapSet
  rw [find?_isSome_eq_mapGet_isSome]
  by_cases h : (mapGet m k).isSome
  · rw [if_pos h, mapGet_map_subst_self, if_pos h]
  · rw [if_neg h, mapGet_append_single]
    rcases hm : mapGet m k with _ | w
    · simp
    · rw [hm] at h; simp at h

theorem mapGet_mapSet_of_ne {α : Type} (m : List (String × α)) (k k' : String) (v : α)
    (hne : k' ≠ k) : mapGet (mapSet m k v) k' = mapGet m k' := by
  unfold mapSet
  by_cases h : (m.find? (fun p => p.1 = k)).isSome
  · rw [if_pos h, mapGet_map_subst_ne m k k' v hne]
  · rw [if_neg h, mapGet_append_single]
    rcases hm : mapGet m k' with _ | w
    · have : ¬ (k = k') := fun hh => hne hh.symm
      simp [this]
    · simp


/-! ## Helper lemmas about the gate's sub-steps -/

theorem _resolvePrereqs_fail_cases {store : ArtifactStore} {rt : String} {env : Json}
    {c k : String} (h : _resolvePrereqs store rt env = .fail c k) :
    (c = MISSING_PREREQ ∧
      (k = missingPrereqKind "auth_context" ∨ k = missingPrereqKind "policy_decision")) ∨
    (c = RECORD_TYPE_FORBIDDEN ∧ k = recordTypeForbiddenKind) := by
  unfold _resolvePrereqs at h
  by_cases h1 : rt = "auth_context"
  · rw [if_pos h1] at h; cases h
  · rw [if_neg h1] at h
    by_cases h2 : rt = "policy_decision"
    · rw [if_pos h2] at h
      cases hga : getAcceptedByJson store (env.get? "auth_context_envelope_sha256") with
      | none => rw [hga] at h; injection h with hc hk; exact Or.inl ⟨hc.symm, Or.inl hk.symm⟩
      | some auth => rw [hga] at h; cases h
    · rw [if_neg h2] at h
      by_cases h3 : rt = "model_call" ∨ rt = "tool_call"
      · rw [if_pos h3] at h
        cases hga : getAcceptedByJson store (env.get? "auth_context_envelope_sha256") with
        | none =>
          rw [hga] at h; injection h with hc hk; exact Or.inl ⟨hc.symm, Or.inl hk.symm⟩
        | some auth =>
          rw [hga] at h
          cases hgp : getAcceptedByJson store (env.get? "policy_decision_envelope_sha256")
            with
          | none =>
            rw [hgp] at h; injection h with hc hk; exact Or.inl ⟨hc.symm, Or.inr hk.symm⟩
          | some pd => rw [hgp] at h; cases h
      · rw [if_neg h3] at h; injection h with hc hk; exact Or.inr ⟨hc.symm, hk.symm⟩

theorem _enforceTraceContinuity_fail {rt : String} {env : Json} {p : Prereqs}
    {c k : String} (h : _enforceTraceContinuity rt env p = some (c, k)) :
    c = TRACE_VIOLATION ∧ k = traceViolationKind := by
  unfold _enforceTraceContinuity at h
  split at h
  · cases h
  · split at h
    · split at h
      · split at h
        · split at h
          · cases h
          · injection h with h'; injection h' with hc hk; exact ⟨hc.symm, hk.symm⟩
        · injection h with h'; injection h' with hc hk; exact ⟨hc.symm, hk.symm⟩
      · split at h
        · split at h
          · split at h
            · cases h
            · injection h with h'; injection h' with hc hk; exact ⟨hc.symm, hk.symm⟩
          · injection h with h'; injection h' with hc hk; exact ⟨hc.symm, hk.symm⟩
        · cases h
    · injection h with h'; injection h' with hc hk; exact ⟨hc.symm, hk.symm⟩

theorem _enforceAuthorization_fail {rt : String} {p : Prereqs} {c k : String}
    (h : _enforceAuthorization rt p = some (c, k)) :
    c = UNAUTHORIZED_EXECUTION ∧ k = unauthorizedKind := by
  unfold _enforceAuthorization at h
  split at h
  · cases h
  · split at h
    · split at h
      · cases h
      · injection h with h'; injection h' with hc hk; exact ⟨hc.symm, hk.symm⟩
    · injection h with h'; injection h' with hc hk; exact ⟨hc.symm, hk.symm⟩

theorem persistRejected_of_mem {store : ArtifactStore} {c : String} (k rt : String)
    (env : Json) (canon hsh : String) (hc : c ∈ PERSIST_REJECTED_ATTEMPT) :
    _persistRejectedAttemptIfRequired store c k rt env canon hsh =
      store.putRejectedAttempt ⟨hsh, rt, env, canon, c, k⟩ := by
  simp only [PERSIST_REJECTED_ATTEMPT, List.mem_cons, List.not_mem_nil, or_false] at hc
  unfold _persistRejectedAttemptIfRequired
  rcases hc with rfl | rfl | rfl | rfl <;>
    rw [if_neg (by decide), if_pos (by decide)]

theorem persistRejected_rtf {store : ArtifactStore} (k rt : String) (env : Json)
    (canon hsh : String) :
    _persistRejectedAttemptIfRequired store RECORD_TYPE_FORBIDDEN k rt env canon hsh =
      store := by
  unfold _persistRejectedAttemptIfRequired
  rw [if_neg (by decide), if_neg (by decide)]

/-! ## Claim theorems: the commit gate -/

/-- C1: after a `HASH_MISMATCH`, `MISSING_PREREQ`, `TRACE_VIOLATION`, or
`UNAUTHORIZED_EXECUTION` outcome of `commit_action`, the rejected-attempts
namespace contains an attempt artifact keyed by the computed envelope hash
(not the declared one) carrying that classification and its error kind (and
the accepted namespace is untouched); after a `SCHEMA_REJECT` or
`RECORD_TYPE_FORBIDDEN`, the store is exactly as before the call. -/

theorem commit_rejection_persistence
    (validators : Validators) (sha : String → String) (store : ArtifactStore)
    (record_type declared : String) (envelope : Json)
    (r : CommitResult) (store' : ArtifactStore)
    (h : commit_action validators sha store record_type declared envelope =
      .ok (r, store')) :
    (r.classification ∈ PERSIST_REJECTED_ATTEMPT →
      ∃ computed canonical kind,
        hashEnvelope sha envelope = .ok computed ∧
        canonicalizeEnvelope envelope = .ok canonical ∧
        r.errorKind = some kind ∧
        mapGet store'.rejected_attempts computed =
          some ⟨computed, record_type, envelope, canonical, r.classification, kind⟩ ∧
        store'.accepted = store.accepted) ∧
    ((r.classification = SCHEMA_REJECT ∨ r.classification = RECORD_TYPE_FORBIDDEN) →
      store' = store) := by
  unfold commit_action at h
  split at h
  · -- record type forbidden
    injection h with h'
    injection h' with hr hs
    subst hr hs
    refine ⟨fun hmem => absurd hmem (by decide), fun _ => rfl⟩
  · split at h
    · -- schema reject
      injection h with h'
      injection h' with hr hs
      subst hr hs
      refine ⟨fun hmem => ?_, fun _ => rfl⟩
      simp only [CommitResult.classification] at hmem
      exact absurd hmem (by decide)
    · split at h
      · -- record_type mismatch
        injection h with h'
        injection h' with hr hs
        subst hr hs
        refine ⟨fun hmem => ?_, fun _ => rfl⟩
        simp only [CommitResult.classification] at hmem
        exact absurd hmem (by decide)
      · split at h
        · cases h
        · next canonical_json hcanon =>
          split at h
          · cases h
          · next computed hcomp =>
            split at h
            · -- hash mismatch
              injection h with h'
              injection h' with hr hs
              subst hr hs
              constructor
              · intro _
                refine ⟨computed, canonical_json, hashMismatchKind, hcomp, hcanon, rfl, ?_, ?_⟩
                · rw [persistRejected_of_mem _ _ _ _ _ (by decide)]
                  simp [ArtifactStore.putRejectedAttempt, mapGet_mapSet_self,
                    CommitResult.classification]
                · rw [persistRejected_of_mem _ _ _ _ _ (by decide)]; rfl
              · intro hcls
                rcases hcls with hcls | hcls <;>
                  simp [CommitResult.classification] at hcls <;>
                  exact absurd hcls (by decide)
            · split at h
              · -- prereq failure
                next c k hpre =>
                injection h with h'
                injection h' with hr hs
                subst hr hs
                rcases _resolvePrereqs_fail_cases hpre with ⟨hc, _⟩ | ⟨hc, _⟩
                · subst hc
                  constructor
                  · intro _
                    refine ⟨computed, canonical_json, k, hcomp, hcanon, rfl, ?_, ?_⟩
                    · rw [persistRejected_of_mem _ _ _ _ _ (by decide)]
                      simp [ArtifactStore.putRejectedAttempt, mapGet_mapSet_self,
                        CommitResult.classification]
                    · rw [persistRejected_of_mem _ _ _ _ _ (by decide)]; rfl
                  · intro hcls
                    rcases hcls with hcls | hcls <;>
                      simp [CommitResult.classification] at hcls <;>
                      exact absurd hcls (by decide)
                · subst hc
                  constructor
                  · intro hmem
                    simp [CommitResult.classification] at hmem
                    exact absurd hmem (by decide)
                  · intro _
                    exact persistRejected_rtf _ _ _ _ _
              · split at h
                · -- trace violation
                  next c k htr =>
                  injection h with h'
                  injection h' with hr hs
                  subst hr hs
                  obtain ⟨hc, _⟩ := _enforceTraceContinuity_fail htr
                  subst hc
                  constructor
                  · intro _
                    refine ⟨computed, canonical_json, k, hcomp, hcanon, rfl, ?_, ?_⟩
                    · rw [persistRejected_of_mem _ _ _ _ _ (by decide)]
                      simp [ArtifactStore.putRejectedAttempt, mapGet_mapSet_self,
                        CommitResult.classification]
                    · rw [persistRejected_of_mem _ _ _ _ _ (by decide)]; rfl
                  · intro hcls
                    rcases hcls with hcls | hcls <;>
                      simp [CommitResult.classification] at hcls <;>
                      exact absurd hcls (by decide)
                · split at h
                  · -- unauthorized execution
                    next c k hau =>
                    injection h with h'
                    injection h' with hr hs
                    subst hr hs
                    obtain ⟨hc, _⟩ := _enforceAuthorization_fail hau
                    subst hc
                    constructor
                    · intro _
                      refine ⟨computed, canonical_json, k, hcomp, hcanon, rfl, ?_, ?_⟩
                      · rw [persistRejected_of_mem _ _ _ _ _ (by decide)]
                        simp [ArtifactStore.putRejectedAttempt, mapGet_mapSet_self,
                          CommitResult.classification]
                      · rw [persistRejected_of_mem _ _ _ _ _ (by decide)]; rfl
                    · intro hcls
                      rcases hcls with hcls | hcls <;>
                        simp [CommitResult.classification] at hcls <;>
                        exact absurd hcls (by decide)
                  · -- accepted
                    injection h with h'
                    injection h' with hr hs
                    subst hr hs
                    refine ⟨fun hmem => ?_, fun hcls => ?_⟩
                    · simp [CommitResult.classification] at hmem
                      exact absurd hmem (by decide)
                    · rcases hcls with hcls | hcls <;>
                        simp [CommitResult.classification] at hcls <;>
                        exact absurd hcls (by decide)

/-- C7: when the declared kind is in the closed record-type set, the record
passes schema validation, but the record's own `record_type` differs from
the declared kind, `commit_action` classifies `SCHEMA_REJECT` and persists
nothing (the store is returned unchanged). -/
theorem commit_record_type_mismatch_schema_reject
    (validators : Validators) (sha : String → String) (store : ArtifactStore)
    (record_type declared : String) (envelope : Json)
    (hkind : RECORD_TYPES.contains record_type = true)
    (rt' : String) (hval : validateEnvelope validators envelope = .ok rt')
    (hne : envelope.get? "record_type" ≠ some (.str record_type)) :
    commit_action validators sha store record_type declared envelope =
      .ok (.rejected SCHEMA_REJECT "schema_violation.record_type_mismatch" none none,
        store) := by
  unfold commit_action
  rw [hkind]
  simp only [Bool.true_eq_false, if_false]
  rw [hval]
  simp [hne]

def specFitsInt64 (n : Int) : Prop := -(2 ^ 63) ≤ n ∧ n < 2 ^ 63

def specDoubleExact (n : Int) : Prop := ∃ m : Int, ∃ e : Nat, n = m * 2 ^ e ∧ m.natAbs < 2 ^ 53

def specSafeRange (n : Int) : Prop := specFitsInt64 n ∧ specDoubleExact n

theorem jcs_number_claim_counterexample :
    (JsNum.int 9007199254740992).isFiniteB = true ∧
    (JsNum.int 9007199254740992).intValue? = some 9007199254740992 ∧
    specSafeRange 9007199254740992 ∧
    canonicalizeEnvelope (.num (.int 9007199254740992)) =
      .error "Unsafe integers are forbidden in canonical JSON" := by
  refine ⟨rfl, rfl,
    ⟨⟨by norm_num, by norm_num⟩, ⟨4503599627370496, 1, by norm_num, by norm_num⟩⟩,
    by decide⟩

theorem jcs_number_rule (v : JsNum) :
    ((∃ s, canonicalizeEnvelope (.num v) = .ok s) ↔
      (v.isFiniteB = true ∧ ∃ n : Int, v.intValue? = some n ∧ n.natAbs ≤ 2 ^ 53 - 1)) ∧
    canonicalizeEnvelope (.num .negZero) = .ok "0" := by
  constructor
  · have hrepr : canonicalizeEnvelope (.num v) = jcsNum v := rfl
    rw [hrepr]
    unfold jcsNum
    by_cases hf : v.isFiniteB = false
    · simp [hf]
    · rw [if_neg hf]
      have hf : v.isFiniteB = true := by
        cases hx : v.isFiniteB
        · exact absurd hx hf
        · rfl
      cases hiv : v.intValue? with
      | none =>
        have hi : v.isIntegerB = false := by simp [JsNum.isIntegerB, hiv]
        simp [hi, hiv]
      | some n =>
        have hi : v.isIntegerB = true := by simp [JsNum.isIntegerB, hiv]
        rw [hi]
        simp only [Bool.true_eq_false, if_false]
        by_cases hs : n.natAbs ≤ maxSafeInteger
        · have hsafe : v.isSafeIntegerB = true := by
            unfold JsNum.isSafeIntegerB
            rw [hiv]
            simpa using hs
          rw [hsafe]
          simp only [Bool.true_eq_false, if_false]
          constructor
          · intro _
            exact ⟨hf, n, rfl, by simpa [maxSafeInteger] using hs⟩
          · intro _
            by_cases hz : v.isNegZero <;> simp [hz]
        · have hsafe : v.isSafeIntegerB = false := by
            unfold JsNum.isSafeIntegerB
            rw [hiv]
            simpa using hs
          rw [hsafe]
          simp only [if_true]
          constructor
          · intro ⟨s, hh⟩; cases hh
          · rintro ⟨-, m, hm, hle⟩
            exfalso
            apply hs
            have hnm : n = m := Option.some.inj hm
            rw [hnm]
            simpa [maxSafeInteger] using hle
  · decide

/-! ## Concrete fixtures used by witnesses and counterexamples -/

/-- A schema-validation capability that accepts everything (the gate
behaviors verified against it do not depend on the validator's verdicts). -/
def trivialValidators : Validators := fun _ _ => none

/-- A concrete stand-in for the SHA-256 capability in witnesses. -/
def shaId : String → String := fun s => s

def authEnvW : Json :=
  .obj [("record_type", .str "auth_context"),
        ("trace", .obj [("trace_id", .str "t1")]),
        ("ts_ms", .num (.int 5))]

def authCanonW : String :=
  "\x7b\"record_type\":\"auth_context\",\"trace\":\x7b\"trace_id\":\"t1\"\x7d,\"ts_ms\":5\x7d"

def rejStoreW : ArtifactStore :=
  ⟨[], [(authCanonW,
    ⟨authCanonW, "auth_context", authEnvW, authCanonW, HASH_MISMATCH, hashMismatchKind⟩)],
   []⟩

theorem commit_rejection_persistence_witness :
    ∃ computed canonical kind,
      hashEnvelope shaId authEnvW = .ok computed ∧
      canonicalizeEnvelope authEnvW = .ok canonical ∧
      (CommitResult.rejected HASH_MISMATCH hashMismatchKind (some authCanonW)
        (some authCanonW)).errorKind = some kind ∧
      mapGet rejStoreW.rejected_attempts computed =
        some ⟨computed, "auth_context", authEnvW, canonical,
          (CommitResult.rejected HASH_MISMATCH hashMismatchKind (some authCanonW)
            (some authCanonW)).classification, kind⟩ ∧
      rejStoreW.accepted = ArtifactStore.empty.accepted :=
  (commit_rejection_persistence trivialValidators shaId ArtifactStore.empty
    "auth_context" "wrong" authEnvW
    (.rejected HASH_MISMATCH hashMismatchKind (some authCanonW) (some authCanonW))
    rejStoreW (by decide)).1 (by decide)

theorem commit_record_type_mismatch_schema_reject_witness :
    commit_action trivialValidators shaId ArtifactStore.empty "model_call" "x" authEnvW =
      .ok (.rejected SCHEMA_REJECT "schema_violation.record_type_mismatch" none none,
        ArtifactStore.empty) :=
  commit_record_type_mismatch_schema_reject trivialValidators shaId ArtifactStore.empty
    "model_call" "x" authEnvW (by decide) "auth_context" (by decide) (by decide)


/-! ## Canonicalization metatheory -/

theorem jsInsert_perm (le : α → α → Bool) (x : α) (l : List α) :
    (jsInsert le x l).Perm (x :: l) := by
  induction l with
  | nil => rfl
  | cons y ys ih =>
    unfold jsInsert
    by_cases h : le x y
    · rw [if_pos h]
    · rw [if_neg h]
      exact ((ih.cons y).trans (List.Perm.swap x y ys)).symm.symm

theorem jsSort_perm (le : α → α → Bool) (l : List α) : (jsSort le l).Perm l := by
  induction l with
  | nil => rfl
  | cons x xs ih =>
    unfold jsSort
    exact (jsInsert_perm le x (jsSort le xs)).trans (ih.cons x)

theorem mem_jsSort {le : α → α → Bool} {l : List α} {a : α} :
    a ∈ jsSort le l ↔ a ∈ l :=
  (jsSort_perm le l).mem_iff

theorem jsInsert_pairwise (le : α → α → Bool) (x : α) (l : List α)
    (hl : l.Pairwise (fun a b => le a b = true))
    (htot : ∀ y ∈ l, le x y = true ∨ le y x = true)
    (htrans : ∀ a ∈ l, ∀ b ∈ l, le x a = true → le a b = true → le x b = true) :
    (jsInsert le x l).Pairwise (fun a b => le a b = true) := by
  induction l with
  | nil => simp [jsInsert]
  | cons y ys ih =>
    unfold jsInsert
    by_cases h : le x y
    · rw [if_pos h]
      refine List.Pairwise.cons ?_ hl
      intro z hz
      rw [List.mem_cons] at hz
      rcases hz with rfl | hz
      · exact h
      · exact htrans y (List.mem_cons_self y ys) z (List.mem_cons_of_mem y hz) h
          (List.rel_of_pairwise_cons hl hz)
    · rw [if_neg h]
      have hyx : le y x = true := by
        rcases htot y (List.mem_cons_self y ys) with h' | h'
        · exact absurd h' h
        · exact h'
      refine List.Pairwise.cons ?_ ?_
      · intro z hz
        have hz' : z ∈ x :: ys := (jsInsert_perm le x ys).mem_iff.mp hz
        rw [List.mem_cons] at hz'
        rcases hz' with rfl | hz'
        · exact hyx
        · exact List.rel_of_pairwise_cons hl hz'
      · exact ih (List.Pairwise.sublist (List.sublist_cons_self y ys) hl)
          (fun z hz => htot z (List.mem_cons_of_mem y hz))
          (fun a ha b hb hxa hab => htrans a (List.mem_cons_of_mem y ha)
            b (List.mem_cons_of_mem y hb) hxa hab)

theorem jsSort_pairwise (le : α → α → Bool) (l : List α)
    (htot : ∀ a ∈ l, ∀ b ∈ l, le a b = true ∨ le b a = true)
    (htrans : ∀ a ∈ l, ∀ b ∈ l, ∀ c ∈ l, le a b = true → le b c = true → le a c = true) :
    (jsSort le l).Pairwise (fun a b => le a b = true) := by
  induction l with
  | nil => simp [jsSort]
  | cons x xs ih =>
    unfold jsSort
    have hmem : ∀ z ∈ jsSort le xs, z ∈ x :: xs := fun z hz =>
      List.mem_cons_of_mem x (mem_jsSort.mp hz)
    refine jsInsert_pairwise le x (jsSort le xs) ?_ ?_ ?_
    · exact ih
        (fun a ha b hb => htot a (List.mem_cons_of_mem x ha) b (List.mem_cons_of_mem x hb))
        (fun a ha b hb c hc => htrans a (List.mem_cons_of_mem x ha)
          b (List.mem_cons_of_mem x hb) c (List.mem_cons_of_mem x hc))
    · exact fun y hy => htot x (List.mem_cons_self x xs) y (hmem y hy)
    · intro a ha b hb hxa hab
      exact htrans x (List.mem_cons_self x xs) a (hmem a ha) b (hmem b hb) hxa hab

theorem lexLeNat_total : ∀ a b : List Nat, lexLeNat a b = true ∨ lexLeNat b a = true
  | [], _ => Or.inl rfl
  | _ :: _, [] => Or.inr rfl
  | a :: as, b :: bs => by
    unfold lexLeNat
    rcases Nat.lt_trichotomy a b with h | rfl | h
    · left; rw [if_pos h]
    · simp only [if_neg (lt_irrefl a)]
      exact lexLeNat_total as bs
    · right; rw [if_pos h]

theorem lexLeNat_trans : ∀ a b c : List Nat,
    lexLeNat a b = true → lexLeNat b c = true → lexLeNat a c = true
  | [], _, _, _, _ => rfl
  | _ :: _, [], _, h, _ => by cases h
  | _ :: _, _ :: _, [], _, h => by cases h
  | a :: as, b :: bs, c :: cs, h1, h2 => by
    unfold lexLeNat at h1 h2 ⊢
    rcases Nat.lt_trichotomy a b with hab | rfl | hab
    · rcases Nat.lt_trichotomy b c with hbc | rfl | hbc
      · rw [if_pos (hab.trans hbc)]
      · rw [if_pos hab]
      · rw [if_neg (lt_asymm hbc), if_pos hbc] at h2; cases h2
    · simp only [if_neg (lt_irrefl a)] at h1
      rcases Nat.lt_trichotomy a c with hac | rfl | hac
      · rw [if_pos hac]
      · simp only [if_neg (lt_irrefl a)] at h2 ⊢
        exact lexLeNat_trans as bs cs h1 h2
      · rw [if_neg (lt_asymm hac), if_pos hac] at h2; cases h2
    · rw [if_neg (lt_asymm hab), if_pos hab] at h1; cases h1

theorem lexLeNat_antisymm : ∀ a b : List Nat,
    lexLeNat a b = true → lexLeNat b a = true → a = b
  | [], [], _, _ => rfl
  | [], _ :: _, _, h => by cases h
  | _ :: _, [], h, _ => by cases h
  | a :: as, b :: bs, h1, h2 => by
    unfold lexLeNat at h1 h2
    rcases Nat.lt_trichotomy a b with hab | rfl | hab
    · rw [if_neg (lt_asymm hab), if_pos hab] at h2; cases h2
    · simp only [if_neg (lt_irrefl a)] at h1 h2
      rw [lexLeNat_antisymm as bs h1 h2]
    · rw [if_neg (lt_asymm hab), if_pos hab] at h1; cases h1

theorem strLeB_total (s t : String) : strLeB s t = true ∨ strLeB t s = true :=
  lexLeNat_total _ _

theorem strLeB_trans {s t u : String} (h1 : strLeB s t = true) (h2 : strLeB t u = true) :
    strLeB s u = true :=
  lexLeNat_trans _ _ _ h1 h2

theorem strLeB_antisymm {s t : String} (h1 : strLeB s t = true) (h2 : strLeB t s = true) :
    s = t := by
  have h := lexLeNat_antisymm _ _ h1 h2
  have hchars : s.toList = t.toList := by
    have hinj : Function.Injective Char.toNat := fun a b hab => by
      apply Char.ext
      exact UInt32.ext hab
    exact List.map_injective_iff.mpr hinj h
  exact String.ext hchars

theorem Json.size_pos : ∀ j : Json, 1 ≤ j.size
  | .null | .bool _ | .str _ | .num _ | .undef => le_refl 1
  | .arr _ => by unfold Json.size; omega
  | .obj _ => by unfold Json.size; omega

theorem jsGetLast_mem : ∀ {ms : List (String × Json)} {k : String} {v : Json},
    jsGetLast ms k = some v → (k, v) ∈ ms := by
  intro ms
  induction ms with
  | nil => intro k v h; cases h
  | cons p rest ih =>
    intro k v h
    rcases p with ⟨k', w⟩
    unfold jsGetLast at h
    cases hrest : jsGetLast rest k with
    | some u =>
      rw [hrest] at h
      injection h with h
      subst h
      exact List.mem_cons_of_mem _ (ih hrest)
    | none =>
      rw [hrest] at h
      by_cases hk : k' = k
      · rw [if_pos hk] at h
        injection h with h
        subst h hk
        exact List.mem_cons_self _ _
      · rw [if_neg hk] at h; cases h

theorem size_le_sizeMembers_of_mem : ∀ {ms : List (String × Json)} {k : String} {v : Json},
    (k, v) ∈ ms → v.size ≤ Json.sizeMembers ms := by
  intro ms
  induction ms with
  | nil => intro k v h; cases h
  | cons p rest ih =>
    intro k v h
    rw [List.mem_cons] at h
    rcases h with rfl | h
    · unfold Json.sizeMembers; omega
    · have := ih h
      rcases p with ⟨k', w⟩
      unfold Json.sizeMembers
      omega

theorem size_le_sizeList_of_mem : ∀ {xs : List Json} {x : Json},
    x ∈ xs → x.size ≤ Json.sizeList xs := by
  intro xs
  induction xs with
  | nil => intro x h; cases h
  | cons y ys ih =>
    intro x h
    rw [List.mem_cons] at h
    rcases h with rfl | h
    · unfold Json.sizeList; omega
    · have := ih h
      unfold Json.sizeList
      omega

theorem jsKeys_exists_get : ∀ {ms : List (String × Json)} {k : String},
    k ∈ jsKeys ms → ∃ v, jsGetLast ms k = some v := by
  intro ms
  induction ms with
  | nil => intro k h; cases h
  | cons p rest ih =>
    intro k h
    rcases p with ⟨k', w⟩
    unfold jsKeys at h
    rw [List.mem_cons] at h
    unfold jsGetLast
    rcases h with rfl | h
    · cases hrest : jsGetLast rest k with
      | some u => exact ⟨u, rfl⟩
      | none => exact ⟨w, by rw [if_pos rfl]⟩
    · have hk : k ∈ jsKeys rest := (List.mem_filter.mp h).1
      obtain ⟨v, hv⟩ := ih hk
      rw [hv]
      exact ⟨v, rfl⟩

theorem jsKeys_nodup : ∀ ms : List (String × Json), (jsKeys ms).Nodup := by
  intro ms
  induction ms with
  | nil => exact List.nodup_nil
  | cons p rest ih =>
    unfold jsKeys
    refine List.Nodup.cons ?_ (List.Nodup.filter _ ih)
    intro hmem
    have := (List.mem_filter.mp hmem).2
    simp at this

theorem mem_jsKeys_of_get : ∀ {ms : List (String × Json)} {k : String} {v : Json},
    jsGetLast ms k = some v → k ∈ jsKeys ms := by
  intro ms
  induction ms with
  | nil => intro k v h; cases h
  | cons p rest ih =>
    intro k v h
    rcases p with ⟨k', w⟩
    unfold jsGetLast at h
    unfold jsKeys
    by_cases hk : k' = k
    · subst hk
      exact List.mem_cons_self _ _
    · rw [List.mem_cons]
      right
      rw [List.mem_filter]
      cases hrest : jsGetLast rest k with
      | some u =>
        refine ⟨ih hrest, by simpa using fun hh => hk hh.symm⟩
      | none =>
        rw [hrest, if_neg hk] at h
        cases h

/-- Congruence for `mapM` over the `Except` monad. -/
theorem mapM_congr_except {α : Type} (f g : α → Except String String) :
    ∀ (xs : List α), (∀ x ∈ xs, f x = g x) → xs.mapM f = xs.mapM g := by
  intro xs
  induction xs with
  | nil => intro _; rfl
  | cons x rest ih =>
    intro h
    rw [List.mapM_cons, List.mapM_cons, h x (List.mem_cons_self x rest),
      ih (fun y hy => h y (List.mem_cons_of_mem x hy))]

/-- `mapM` over `Except` succeeds when every element does. -/
theorem mapM_ok_except {α : Type} (f : α → Except String String) :
    ∀ (xs : List α), (∀ x ∈ xs, ∃ y, f x = .ok y) → ∃ ys, xs.mapM f = .ok ys := by
  intro xs
  induction xs with
  | nil => intro _; exact ⟨[], rfl⟩
  | cons x rest ih =>
    intro h
    obtain ⟨y, hy⟩ := h x (List.mem_cons_self x rest)
    obtain ⟨ys, hys⟩ := ih (fun z hz => h z (List.mem_cons_of_mem x hz))
    refine ⟨y :: ys, ?_⟩
    rw [List.mapM_cons, hy, hys]
    rfl

/-- The serializer only reads the fuel down to the value's size: any two
sufficient fuels give the same result. -/
theorem jcsSerializeF_fuel : ∀ (f : Nat) {g : Nat} (j : Json),
    j.size ≤ f → j.size ≤ g → jcsSerializeF f j = jcsSerializeF g j := by
  intro f
  induction f using Nat.strong_induction_on with
  | _ f ihf =>
  intro g j hf hg
  have h1 := Json.size_pos j
  cases f with
  | zero => omega
  | succ f₁ =>
  cases g with
  | zero => omega
  | succ g₁ =>
  cases j with
  | null => rfl
  | bool b => rfl
  | str s => rfl
  | num v => rfl
  | undef => rfl
  | arr xs =>
    unfold jcsSerializeF
    have hx : ∀ x ∈ xs, jcsSerializeF f₁ x = jcsSerializeF g₁ x := by
      intro x hx
      have hsz := size_le_sizeList_of_mem hx
      have hf' : Json.sizeList xs ≤ f₁ := by
        have : (Json.arr xs).size = 1 + Json.sizeList xs := rfl
        omega
      have hg' : Json.sizeList xs ≤ g₁ := by
        have : (Json.arr xs).size = 1 + Json.sizeList xs := rfl
        omega
      exact ihf f₁ (by omega) x (le_trans hsz hf') (le_trans hsz hg')
    rw [mapM_congr_except _ _ xs hx]
  | obj ms =>
    unfold jcsSerializeF
    have hk : ∀ k ∈ jsSort strLeB (jsKeys ms),
        (fun k => match jcsMemberVal ms k with
          | .error e => Except.error e
          | .ok v =>
            match jcsSerializeF f₁ v with
            | .error e => Except.error e
            | .ok s => Except.ok (jsonQuote k ++ ":" ++ s)) k =
        (fun k => match jcsMemberVal ms k with
          | .error e => Except.error e
          | .ok v =>
            match jcsSerializeF g₁ v with
            | .error e => Except.error e
            | .ok s => Except.ok (jsonQuote k ++ ":" ++ s)) k := by
      intro k hkmem
      cases hmv : jcsMemberVal ms k with
      | error e => simp [hmv]
      | ok v =>
        have hvm : jsGetLast ms k = some v := by
          unfold jcsMemberVal at hmv
          cases hgl : jsGetLast ms k with
          | none => rw [hgl] at hmv; cases hmv
          | some w =>
            rw [hgl] at hmv
            dsimp only at hmv
            by_cases hw : w = .undef
            · rw [if_pos hw] at hmv; cases hmv
            · rw [if_neg hw] at hmv
              injection hmv with hmv
              rw [hmv]
        have hsz : v.size ≤ Json.sizeMembers ms :=
          size_le_sizeMembers_of_mem (jsGetLast_mem hvm)
        have hms : (Json.obj ms).size = 1 + Json.sizeMembers ms := rfl
        have : jcsSerializeF f₁ v = jcsSerializeF g₁ v :=
          ihf f₁ (by omega) v (by omega) (by omega)
        simp [hmv, this]
    rw [mapM_congr_except _ _ (jsSort strLeB (jsKeys ms)) hk]

mutual

/-- Values the canonical serializer accepts: no `undefined`, all numbers
finite safe integers. -/
def CleanJson : Json → Bool
  | .null | .bool _ | .str _ => true
  | .num v => v.isFiniteB && v.isIntegerB && v.isSafeIntegerB
  | .undef => false
  | .arr xs => CleanList xs
  | .obj ms => CleanMembers ms

/-- All elements clean. -/
def CleanList : List Json → Bool
  | [] => true
  | x :: xs => CleanJson x && CleanList xs

/-- All member values clean. -/
def CleanMembers : List (String × Json) → Bool
  | [] => true
  | (_, v) :: ms => CleanJson v && CleanMembers ms

end

theorem CleanList_mem : ∀ {xs : List Json}, CleanList xs = true →
    ∀ {x : Json}, x ∈ xs → CleanJson x = true := by
  intro xs
  induction xs with
  | nil => intro _ x h; cases h
  | cons y ys ih =>
    intro h x hx
    unfold CleanList at h
    rw [Bool.and_eq_true] at h
    rw [List.mem_cons] at hx
    rcases hx with rfl | hx
    · exact h.1
    · exact ih h.2 hx

theorem CleanMembers_mem : ∀ {ms : List (String × Json)}, CleanMembers ms = true →
    ∀ {k : String} {v : Json}, (k, v) ∈ ms → CleanJson v = true := by
  intro ms
  induction ms with
  | nil => intro _ k v h; cases h
  | cons p ps ih =>
    intro h k v hv
    rcases p with ⟨k', w⟩
    unfold CleanMembers at h
    rw [Bool.and_eq_true] at h
    rw [List.mem_cons] at hv
    rcases hv with heq | hv
    · cases heq
      exact h.1
    · exact ih h.2 hv

theorem CleanJson_ne_undef {j : Json} (h : CleanJson j = true) : j ≠ .undef := by
  intro hj
  rw [hj] at h
  cases h

/-- A clean value serializes successfully under sufficient fuel. -/
theorem jcsSerializeF_ok_of_clean : ∀ (f : Nat) (j : Json),
    j.size ≤ f → CleanJson j = true → ∃ c, jcsSerializeF f j = .ok c := by
  intro f
  induction f using Nat.strong_induction_on with
  | _ f ihf =>
  intro j hf hclean
  have h1 := Json.size_pos j
  cases f with
  | zero => omega
  | succ f₁ =>
  cases j with
  | null => exact ⟨"null", rfl⟩
  | bool b => exact ⟨_, rfl⟩
  | str s => exact ⟨_, rfl⟩
  | undef => cases hclean
  | num v =>
    unfold CleanJson at hclean
    simp only [Bool.and_eq_true] at hclean
    obtain ⟨⟨hfin, hint⟩, hsafe⟩ := hclean
    show ∃ c, jcsNum v = .ok c
    unfold jcsNum
    rw [hfin, hint, hsafe]
    simp only [Bool.true_eq_false, if_false]
    by_cases hz : v.isNegZero <;> simp [hz]
  | arr xs =>
    unfold CleanJson at hclean
    have hel : ∀ x ∈ xs, ∃ y, jcsSerializeF f₁ x = .ok y := by
      intro x hx
      have hsz := size_le_sizeList_of_mem hx
      have harr : (Json.arr xs).size = 1 + Json.sizeList xs := rfl
      exact ihf f₁ (by omega) x (by omega) (CleanList_mem hclean hx)
    obtain ⟨ys, hys⟩ := mapM_ok_except _ xs hel
    exact ⟨_, by unfold jcsSerializeF; rw [hys]⟩
  | obj ms =>
    unfold CleanJson at hclean
    have hel : ∀ k ∈ jsSort strLeB (jsKeys ms),
        ∃ y, (fun k =>
          match jcsMemberVal ms k with
          | .error e => Except.error e
          | .ok v =>
            match jcsSerializeF f₁ v with
            | .error e => Except.error e
            | .ok s => Except.ok (jsonQuote k ++ ":" ++ s)) k = .ok y := by
      intro k hk
      obtain ⟨v, hv⟩ := jsKeys_exists_get (mem_jsSort.mp hk)
      have hvclean : CleanJson v = true := CleanMembers_mem hclean (jsGetLast_mem hv)
      have hne : v ≠ .undef := CleanJson_ne_undef hvclean
      have hmv : jcsMemberVal ms k = .ok v := by
        unfold jcsMemberVal
        rw [hv]
        dsimp only
        rw [if_neg hne]
      have hsz : v.size ≤ Json.sizeMembers ms :=
        size_le_sizeMembers_of_mem (jsGetLast_mem hv)
      have hobj : (Json.obj ms).size = 1 + Json.sizeMembers ms := rfl
      obtain ⟨s, hs⟩ := ihf f₁ (by omega) v (by omega) hvclean
      exact ⟨jsonQuote k ++ ":" ++ s, by simp [hmv, hs]⟩
    obtain ⟨ys, hys⟩ := mapM_ok_except _ _ hel
    exact ⟨_, by unfold jcsSerializeF; rw [hys]⟩

/-- A clean value canonicalizes successfully. -/
theorem canonicalizeEnvelope_ok_of_clean {j : Json} (h : CleanJson j = true) :
    ∃ c, canonicalizeEnvelope j = .ok c :=
  jcsSerializeF_ok_of_clean j.size j (le_refl _) h

theorem CleanList_map_str : ∀ l : List String, CleanList (l.map .str) = true := by
  intro l
  induction l with
  | nil => rfl
  | cons x xs ih => simp [CleanList, CleanJson, ih]

/-- Replay result records always canonicalize. -/
theorem ReplayRecord.toJson_clean (r : ReplayRecord) : CleanJson r.toJson = true := by
  unfold ReplayRecord.toJson
  cases r.reference_trace_id <;> cases r.failure_class <;>
    simp [CleanJson, CleanMembers, CleanList_map_str]

/-- `persistReplayResult` always succeeds and only extends the
replay-result namespace. -/
theorem persistReplayResult_ok (sha : String → String) (store : ArtifactStore)
    (r : ReplayRecord) :
    ∃ h canonical, persistReplayResult sha store r =
      .ok (h, { store with
        other_artifacts := mapSet store.other_artifacts h ⟨h, canonical, r.toJson⟩ }) := by
  obtain ⟨c, hc⟩ := canonicalizeEnvelope_ok_of_clean r.toJson_clean
  refine ⟨sha c, c, ?_⟩
  unfold persistReplayResult
  rw [hc]
  have : hashEnvelope sha r.toJson = .ok (sha c) := by
    unfold hashEnvelope
    rw [hc]
    rfl
  rw [this]

/-- `finalizeReplay` always succeeds, returns its record unchanged, and
either leaves the store alone or extends only the replay-result namespace. -/
theorem finalizeReplay_frame (sha : String → String) (store : ArtifactStore)
    (record : ReplayRecord) (persist : Bool) :
    ∃ store', finalizeReplay sha store record persist = .ok (record, store') ∧
      store'.accepted = store.accepted ∧
      store'.rejected_attempts = store.rejected_attempts ∧
      ((persist = false ∧ store' = store) ∨
       (persist = true ∧ ∃ h canonical,
         store'.other_artifacts =
           mapSet store.other_artifacts h ⟨h, canonical, record.toJson⟩)) := by
  cases persist with
  | false => exact ⟨store, rfl, rfl, rfl, Or.inl ⟨rfl, rfl⟩⟩
  | true =>
    obtain ⟨h, canonical, hp⟩ := persistReplayResult_ok sha store record
    refine ⟨{ store with other_artifacts := mapSet store.other_artifacts h ⟨h, canonical, record.toJson⟩ }, ?_, rfl, rfl, Or.inr ⟨rfl, h, canonical, rfl⟩⟩
    unfold finalizeReplay
    rw [if_pos rfl, hp]

/-- Equality of JSON values as JSON data, with fuel: same scalar values,
pointwise-equal arrays, and objects with the same key sets mapping to
recursively equal values (insertion order and shadowed duplicate bindings
are irrelevant). -/
def jsonEqDataF : Nat → Json → Json → Bool
  | 0, _, _ => false
  | f + 1, a, b =>
    match a, b with
    | .null, .null => true
    | .bool x, .bool y => x == y
    | .str x, .str y => x == y
    | .num x, .num y => x == y
    | .undef, .undef => true
    | .arr xs, .arr ys =>
      xs.length == ys.length && (xs.zip ys).all (fun p => jsonEqDataF f p.1 p.2)
    | .obj ms, .obj ns =>
      (jsKeys ms).all (fun k => (jsKeys ns).contains k) &&
      (jsKeys ns).all (fun k => (jsKeys ms).contains k) &&
      (jsKeys ms).all (fun k =>
        match jsGetLast ms k, jsGetLast ns k with
        | some v, some w => jsonEqDataF f v w
        | _, _ => false)
    | _, _ => false

/-- Equality as JSON data (the value's own size is always enough fuel). -/
def jsonEqData (a b : Json) : Bool := jsonEqDataF a.size a b

theorem mapM_congr_zip {α : Type} (f g : α → Except String String) :
    ∀ (xs ys : List α), xs.length = ys.length →
      (∀ p ∈ xs.zip ys, f p.1 = g p.2) → xs.mapM f = ys.mapM g := by
  intro xs
  induction xs with
  | nil =>
    intro ys hlen _
    cases ys with
    | nil => rfl
    | cons y ys => cases hlen
  | cons x xs ih =>
    intro ys hlen hp
    cases ys with
    | nil => cases hlen
    | cons y ys =>
      rw [List.mapM_cons, List.mapM_cons]
      rw [hp (x, y) (by simp [List.zip_cons_cons])]
      rw [ih ys (by simpa using hlen)
        (fun p hp' => hp p (by simp [List.zip_cons_cons, hp']))]

theorem sortedKeys_eq {ms ns : List (String × Json)}
    (hsub1 : ∀ k ∈ jsKeys ms, k ∈ jsKeys ns)
    (hsub2 : ∀ k ∈ jsKeys ns, k ∈ jsKeys ms) :
    jsSort strLeB (jsKeys ms) = jsSort strLeB (jsKeys ns) := by
  have hperm : (jsKeys ms).Perm (jsKeys ns) :=
    (List.perm_ext_iff_of_nodup (jsKeys_nodup ms) (jsKeys_nodup ns)).mpr
      (fun k => ⟨hsub1 k, hsub2 k⟩)
  have hperm2 : (jsSort strLeB (jsKeys ms)).Perm (jsSort strLeB (jsKeys ns)) :=
    ((jsSort_perm _ _).trans hperm).trans (jsSort_perm _ _).symm
  refine @List.Perm.eq_of_sorted String (fun a b => strLeB a b = true) _ _ ?_ ?_ ?_ hperm2
  · exact fun a b _ _ h1 h2 => strLeB_antisymm h1 h2
  · exact jsSort_pairwise _ _ (fun a _ b _ => strLeB_total a b)
      (fun a _ b _ c _ => strLeB_trans)
  · exact jsSort_pairwise _ _ (fun a _ b _ => strLeB_total a b)
      (fun a _ b _ c _ => strLeB_trans)

theorem jsonEqDataF_undef_iff : ∀ {f : Nat} {v w : Json}, jsonEqDataF f v w = true →
    (v = .undef ↔ w = .undef) := by
  intro f v w h
  cases f with
  | zero => cases h
  | succ f => cases v <;> cases w <;> simp_all [jsonEqDataF]

/-- Canonical serialization depends only on the value as JSON data. -/
theorem jcsSerializeF_eqData : ∀ (f : Nat) (a b : Json) (fa fb : Nat),
    a.size ≤ f → jsonEqDataF f a b = true → a.size ≤ fa → b.size ≤ fb →
    jcsSerializeF fa a = jcsSerializeF fb b := by
  intro f
  induction f using Nat.strong_induction_on with
  | _ f ihf =>
  intro a b fa fb hf heq hfa hfb
  have hpa := Json.size_pos a
  have hpb := Json.size_pos b
  cases f with
  | zero => cases heq
  | succ f₁ =>
  cases fa with
  | zero => omega
  | succ fa₁ =>
  cases fb with
  | zero => omega
  | succ fb₁ =>
  cases a with
  | null => cases b <;> simp_all [jsonEqDataF] <;> rfl
  | undef => cases b <;> simp_all [jsonEqDataF] <;> rfl
  | bool x =>
    cases b <;> simp only [jsonEqDataF] at heq <;> try cases heq
    next y => rw [show x = y from by simpa using heq]; rfl
  | str x =>
    cases b <;> simp only [jsonEqDataF] at heq <;> try cases heq
    next y => rw [show x = y from by simpa using heq]; rfl
  | num x =>
    cases b <;> simp only [jsonEqDataF] at heq <;> try cases heq
    next y => rw [show x = y from by simpa using heq]; rfl
  | arr xs =>
    cases b <;> simp only [jsonEqDataF] at heq <;> try cases heq
    next ys =>
    rw [Bool.and_eq_true] at heq
    obtain ⟨hlen, hall⟩ := heq
    have hlen' : xs.length = ys.length := by simpa using hlen
    unfold jcsSerializeF
    have hmap : xs.mapM (jcsSerializeF fa₁) = ys.mapM (jcsSerializeF fb₁) := by
      refine mapM_congr_zip _ _ xs ys hlen' ?_
      intro p hp
      obtain ⟨hp1, hp2⟩ := List.of_mem_zip hp
      have hsa : (Json.arr xs).size = 1 + Json.sizeList xs := rfl
      have hsb : (Json.arr ys).size = 1 + Json.sizeList ys := rfl
      have h1 := size_le_sizeList_of_mem hp1
      have h2 := size_le_sizeList_of_mem hp2
      refine ihf f₁ (by omega) p.1 p.2 fa₁ fb₁ (by omega) ?_ (by omega) (by omega)
      have := List.all_eq_true.mp hall p hp
      simpa using this
    rw [hmap]
  | obj ms =>
    cases b <;> simp only [jsonEqDataF] at heq <;> try cases heq
    next ns =>
    rw [Bool.and_eq_true, Bool.and_eq_true] at heq
    obtain ⟨⟨hsub1, hsub2⟩, hvals⟩ := heq
    have hsub1' : ∀ k ∈ jsKeys ms, k ∈ jsKeys ns := by
      intro k hk
      have := List.all_eq_true.mp hsub1 k hk
      simpa using this
    have hsub2' : ∀ k ∈ jsKeys ns, k ∈ jsKeys ms := by
      intro k hk
      have := List.all_eq_true.mp hsub2 k hk
      simpa using this
    have hks := sortedKeys_eq hsub1' hsub2'
    unfold jcsSerializeF
    rw [← hks]
    have hmap : ∀ k ∈ jsSort strLeB (jsKeys ms),
        (fun k =>
          match jcsMemberVal ms k with
          | .error e => Except.error e
          | .ok v =>
            match jcsSerializeF fa₁ v with
            | .error e => Except.error e
            | .ok s => Except.ok (jsonQuote k ++ ":" ++ s)) k =
        (fun k =>
          match jcsMemberVal ns k with
          | .error e => Except.error e
          | .ok v =>
            match jcsSerializeF fb₁ v with
            | .error e => Except.error e
            | .ok s => Except.ok (jsonQuote k ++ ":" ++ s)) k := by
      intro k hk
      have hkm : k ∈ jsKeys ms := mem_jsSort.mp hk
      have hkn : k ∈ jsKeys ns := hsub1' k hkm
      obtain ⟨v, hv⟩ := jsKeys_exists_get hkm
      obtain ⟨w, hw⟩ := jsKeys_exists_get hkn
      have hvw : jsonEqDataF f₁ v w = true := by
        have := List.all_eq_true.mp hvals k hkm
        rw [hv, hw] at this
        simpa using this
      by_cases hvu : v = .undef
      · have hwu : w = .undef := (jsonEqDataF_undef_iff hvw).mp hvu
        have h1 : jcsMemberVal ms k = .error "Undefined is forbidden in canonical JSON" := by
          unfold jcsMemberVal
          rw [hv]
          dsimp only
          rw [if_pos hvu]
        have h2 : jcsMemberVal ns k = .error "Undefined is forbidden in canonical JSON" := by
          unfold jcsMemberVal
          rw [hw]
          dsimp only
          rw [if_pos hwu]
        simp [h1, h2]
      · have hwu : w ≠ .undef := fun hh => hvu ((jsonEqDataF_undef_iff hvw).mpr hh)
        have h1 : jcsMemberVal ms k = .ok v := by
          unfold jcsMemberVal
          rw [hv]
          dsimp only
          rw [if_neg hvu]
        have h2 : jcsMemberVal ns k = .ok w := by
          unfold jcsMemberVal
          rw [hw]
          dsimp only
          rw [if_neg hwu]
        have hsv : v.size ≤ Json.sizeMembers ms :=
          size_le_sizeMembers_of_mem (jsGetLast_mem hv)
        have hsw : w.size ≤ Json.sizeMembers ns :=
          size_le_sizeMembers_of_mem (jsGetLast_mem hw)
        have hsa : (Json.obj ms).size = 1 + Json.sizeMembers ms := rfl
        have hsb : (Json.obj ns).size = 1 + Json.sizeMembers ns := rfl
        have hser := ihf f₁ (by omega) v w fa₁ fb₁ (by omega) hvw (by omega) (by omega)
        simp [h1, h2, hser]
    rw [mapM_congr_except _ _ (jsSort strLeB (jsKeys ms)) hmap]

/-- C5: for any two JSON values that are equal as JSON data — in particular
any two objects with the same key sets mapping to recursively equal values
regardless of insertion order — canonicalization produces identical output
(as a whole, including any failure) and hence identical envelope hashes. -/
theorem canonicalization_order_independent (sha : String → String) (a b : Json)
    (h : jsonEqData a b = true) :
    canonicalizeEnvelope a = canonicalizeEnvelope b ∧
    hashEnvelope sha a = hashEnvelope sha b := by
  have hc : canonicalizeEnvelope a = canonicalizeEnvelope b :=
    jcsSerializeF_eqData a.size a b a.size b.size (le_refl _) h (le_refl _) (le_refl _)
  refine ⟨hc, ?_⟩
  unfold hashEnvelope
  rw [hc]

/-- Producer-A-style object (natural insertion order). -/
def objAW : Json :=
  .obj [("spec_version", .str "1.0.0"),
        ("record_type", .str "auth_context"),
        ("trace", .obj [("trace_id", .str "4bf92f3577b34da6a3ce929d0e0e4736"),
                        ("span_id", .str "00f067aa0ba902b7")]),
        ("grants", .obj [("role:viewer", .bool true), ("scope:read", .bool true)]),
        ("ts_ms", .num (.int 1769817600000))]

/-- The same object as JSON data, with permuted insertion order at every
level (producer B). -/
def objBW : Json :=
  .obj [("ts_ms", .num (.int 1769817600000)),
        ("grants", .obj [("scope:read", .bool true), ("role:viewer", .bool true)]),
        ("record_type", .str "auth_context"),
        ("trace", .obj [("span_id", .str "00f067aa0ba902b7"),
                        ("trace_id", .str "4bf92f3577b34da6a3ce929d0e0e4736")]),
        ("spec_version", .str "1.0.0")]

theorem canonicalization_order_independent_witness :
    jsonEqData objAW objBW = true ∧
    (canonicalizeEnvelope objAW = canonicalizeEnvelope objBW ∧
     hashEnvelope shaId objAW = hashEnvelope shaId objBW) :=
  ⟨by decide, canonicalization_order_independent shaId objAW objBW (by decide)⟩

end Keystone

namespace Keystone

/-- One operation against the ledger: a commit through the gate, or a
replay run (which emits its result record into the store). -/
inductive LedgerOp where
  | commit (call : CommitCall)
  | invariant (trace_id : String) (include_rejected_attempts : Bool) (generated_at : String)
  | forensic (trace_id : String) (include_rejected_attempts : Bool) (generated_at : String)
  | constrained (baseline_trace_id candidate_trace_id : String) (replay_policy : Json)
      (generated_at : String)

/-- The store after one ledger operation. -/
def stepOp (validators : Validators) (sha : String → String) (store : ArtifactStore) :
    LedgerOp → Except String ArtifactStore
  | .commit c =>
    (commit_action validators sha store c.record_type c.declared_envelope_hash
      c.envelope).map (fun p => p.2)
  | .invariant t inc gen =>
    (invariantReplay validators sha store t inc gen true).map (fun p => p.2)
  | .forensic t inc gen =>
    (forensicReplay validators sha store t inc gen true).map (fun p => p.2)
  | .constrained b c pol gen =>
    (constrainedReplay validators sha store b c pol gen true).map (fun p => p.2.2)

/-- Run a sequence of ledger operations. -/
def runOps (validators : Validators) (sha : String → String) :
    ArtifactStore → List LedgerOp → Except String ArtifactStore
  | store, [] => .ok store
  | store, op :: ops =>
    match stepOp validators sha store op with
    | .error e => .error e
    | .ok store' => runOps validators sha store' ops

def pdEnvW : Json :=
  .obj [("record_type", .str "policy_decision"),
        ("trace", .obj [("trace_id", .str "t1")]),
        ("auth_context_envelope_sha256", .str authCanonW),
        ("ts_ms", .num (.int 6))]

def pdCanonW : String :=
  match canonicalizeEnvelope pdEnvW with
  | .ok c => c
  | .error _ => ""

/-- Reject-then-resubmit call sequence: the policy decision is first
rejected (missing prerequisite), the auth context is accepted, and the same
policy decision is then resubmitted and accepted. -/
def resubmitCallsW : List CommitCall :=
  [⟨"policy_decision", pdCanonW, pdEnvW⟩,
   ⟨"auth_context", authCanonW, authEnvW⟩,
   ⟨"policy_decision", pdCanonW, pdEnvW⟩]

end Keystone

namespace Keystone

theorem mapSet_keys_nodup {α : Type} {m : List (String × α)} (k : String) (v : α)
    (h : (m.map Prod.fst).Nodup) : ((mapSet m k v).map Prod.fst).Nodup := by
  unfold mapSet
  by_cases hf : (m.find? (fun p => p.1 = k)).isSome
  · rw [if_pos hf]
    have : (m.map (fun p => if p.1 = k then (k, v) else p)).map Prod.fst = m.map Prod.fst := by
      rw [List.map_map]
      apply List.map_congr_left
      intro p _
      by_cases hp : p.1 = k
      · simp [hp]
      · simp [hp]
    rw [this]
    exact h
  · rw [if_neg hf]
    rw [List.map_append]
    simp only [List.map_cons, List.map_nil]
    rw [List.nodup_append]
    refine ⟨h, List.nodup_singleton k, ?_⟩
    intro a ha hb
    simp only [List.mem_singleton] at hb
    subst hb
    rw [List.mem_map] at ha
    obtain ⟨p, hp, hpk⟩ := ha
    apply hf
    rw [List.find?_isSome]
    exact ⟨p, hp, by simp [hpk]⟩

theorem persistRejected_shape (store : ArtifactStore) (c k rt : String) (env : Json)
    (canon hsh : String) :
    _persistRejectedAttemptIfRequired store c k rt env canon hsh = store ∨
    _persistRejectedAttemptIfRequired store c k rt env canon hsh =
      store.putRejectedAttempt ⟨hsh, rt, env, canon, c, k⟩ := by
  unfold _persistRejectedAttemptIfRequired
  by_cases h1 : NON_PERSISTENT_FAILURES.contains c
  · rw [if_pos h1]; exact Or.inl rfl
  · rw [if_neg h1]
    by_cases h2 : PERSIST_REJECTED_ATTEMPT.contains c
    · rw [if_pos h2]; exact Or.inr rfl
    · rw [if_neg h2]; exact Or.inl rfl

/-- Any successful `commit_action` leaves the store unchanged or inserts a
single artifact into exactly one namespace. -/
theorem commit_action_store_shape {validators : Validators} {sha : String → String}
    {store : ArtifactStore} {record_type declared : String} {envelope : Json}
    {r : CommitResult} {store' : ArtifactStore}
    (h : commit_action validators sha store record_type declared envelope =
      .ok (r, store')) :
    store' = store ∨ (∃ a, store' = store.putRejectedAttempt a) ∨
    (∃ a, store' = store.putAccepted a) := by
  unfold commit_action at h
  split at h
  · injection h with h'; injection h' with _ hs; exact Or.inl hs.symm
  · split at h
    · injection h with h'; injection h' with _ hs; exact Or.inl hs.symm
    · split at h
      · injection h with h'; injection h' with _ hs; exact Or.inl hs.symm
      · split at h
        · cases h
        · split at h
          · cases h
          · split at h
            · injection h with h'; injection h' with _ hs
              rcases persistRejected_shape store _ _ _ _ _ _ with hp | hp <;> rw [hp] at hs
              · exact Or.inl hs.symm
              · exact Or.inr (Or.inl ⟨_, hs.symm⟩)
            · split at h
              · injection h with h'; injection h' with _ hs
                rcases persistRejected_shape store _ _ _ _ _ _ with hp | hp <;>
                  rw [hp] at hs
                · exact Or.inl hs.symm
                · exact Or.inr (Or.inl ⟨_, hs.symm⟩)
              · split at h
                · injection h with h'; injection h' with _ hs
                  rcases persistRejected_shape store _ _ _ _ _ _ with hp | hp <;>
                    rw [hp] at hs
                  · exact Or.inl hs.symm
                  · exact Or.inr (Or.inl ⟨_, hs.symm⟩)
                · split at h
                  · injection h with h'; injection h' with _ hs
                    rcases persistRejected_shape store _ _ _ _ _ _ with hp | hp <;>
                      rw [hp] at hs
                    · exact Or.inl hs.symm
                    · exact Or.inr (Or.inl ⟨_, hs.symm⟩)
                  · injection h with h'; injection h' with _ hs
                    exact Or.inr (Or.inr ⟨_, hs.symm⟩)

theorem finalizeReplay_shape {sha : String → String} {store : ArtifactStore}
    {record : ReplayRecord} {persist : Bool} {rec' : ReplayRecord} {S' : ArtifactStore}
    (h : finalizeReplay sha store record persist = .ok (rec', S')) :
    rec' = record ∧ S'.accepted = store.accepted ∧
    S'.rejected_attempts = store.rejected_attempts ∧
    ((persist = false ∧ S'.other_artifacts = store.other_artifacts) ∨
     (persist = true ∧ ∃ hh canonical, S'.other_artifacts =
       mapSet store.other_artifacts hh ⟨hh, canonical, record.toJson⟩)) := by
  obtain ⟨S'', hfin, hacc, hrej, hother⟩ := finalizeReplay_frame sha store record persist
  rw [hfin] at h
  injection h with h'
  injection h' with h1 h2
  subst h1 h2
  refine ⟨rfl, hacc, hrej, ?_⟩
  rcases hother with ⟨hp, hS⟩ | ⟨hp, hh, canonical, hS⟩
  · exact Or.inl ⟨hp, by rw [hS]⟩
  · exact Or.inr ⟨hp, hh, canonical, hS⟩

/-- `invariantReplay` never touches the accepted or rejected-attempt
namespaces; with persistence on, its only mutation is inserting the emitted
result record into the replay-result namespace. -/
theorem invariantReplay_frame {validators : Validators} {sha : String → String}
    {store : ArtifactStore} {t : String} {inc : Bool} {gen : String}
    {rec : ReplayRecord} {S' : ArtifactStore}
    (h : invariantReplay validators sha store t inc gen true = .ok (rec, S')) :
    S'.accepted = store.accepted ∧ S'.rejected_attempts = store.rejected_attempts ∧
    ∃ hh canonical, S'.other_artifacts =
      mapSet store.other_artifacts hh ⟨hh, canonical, rec.toJson⟩ := by
  unfold invariantReplay at h
  have finish : ∀ {record : ReplayRecord},
      finalizeReplay sha store record true = .ok (rec, S') →
      S'.accepted = store.accepted ∧ S'.rejected_attempts = store.rejected_attempts ∧
      ∃ hh canonical, S'.other_artifacts =
        mapSet store.other_artifacts hh ⟨hh, canonical, rec.toJson⟩ := by
    intro record hf
    obtain ⟨hrec, hacc, hrej, hother⟩ := finalizeReplay_shape hf
    subst hrec
    rcases hother with ⟨hp, _⟩ | ⟨_, hh, canonical, hS⟩
    · cases hp
    · exact ⟨hacc, hrej, hh, canonical, hS⟩
  split at h
  · exact finish h
  · split at h
    · cases h
    · exact finish h
    · split at h
      · exact finish h
      · exact finish h

/-- `forensicReplay` has the same frame as `invariantReplay`. -/
theorem forensicReplay_frame {validators : Validators} {sha : String → String}
    {store : ArtifactStore} {t : String} {inc : Bool} {gen : String}
    {rec : ReplayRecord} {S' : ArtifactStore}
    (h : forensicReplay validators sha store t inc gen true = .ok (rec, S')) :
    S'.accepted = store.accepted ∧ S'.rejected_attempts = store.rejected_attempts ∧
    ∃ hh canonical, S'.other_artifacts =
      mapSet store.other_artifacts hh ⟨hh, canonical, rec.toJson⟩ := by
  unfold forensicReplay at h
  have finish : ∀ {record : ReplayRecord},
      finalizeReplay sha store record true = .ok (rec, S') →
      S'.accepted = store.accepted ∧ S'.rejected_attempts = store.rejected_attempts ∧
      ∃ hh canonical, S'.other_artifacts =
        mapSet store.other_artifacts hh ⟨hh, canonical, rec.toJson⟩ := by
    intro record hf
    obtain ⟨hrec, hacc, hrej, hother⟩ := finalizeReplay_shape hf
    subst hrec
    rcases hother with ⟨hp, _⟩ | ⟨_, hh, canonical, hS⟩
    · cases hp
    · exact ⟨hacc, hrej, hh, canonical, hS⟩
  split at h
  · exact finish h
  · split at h
    · cases h
    · exact finish h
    · split at h
      · exact finish h
      · exact finish h

theorem finalizeConstrained_shape {sha : String → String} {store : ArtifactStore}
    {record : ReplayRecord} {diag : ConstrainedDiagnostics} {persist : Bool}
    {rec' : ReplayRecord} {diag' : ConstrainedDiagnostics} {S' : ArtifactStore}
    (h : finalizeConstrained sha store record diag persist = .ok (rec', diag', S')) :
    rec' = record ∧ diag' = diag ∧ S'.accepted = store.accepted ∧
    S'.rejected_attempts = store.rejected_attempts ∧
    ((persist = false ∧ S'.other_artifacts = store.other_artifacts) ∨
     (persist = true ∧ ∃ hh canonical, S'.other_artifacts =
       mapSet store.other_artifacts hh ⟨hh, canonical, record.toJson⟩)) := by
  unfold finalizeConstrained at h
  obtain ⟨S'', hfin, hacc, hrej, hother⟩ := finalizeReplay_frame sha store record persist
  rw [hfin] at h
  injection h with h'
  injection h' with h1 h2
  injection h2 with h2 h3
  subst h1 h2 h3
  refine ⟨rfl, rfl, hacc, hrej, ?_⟩
  rcases hother with ⟨hp, hS⟩ | ⟨hp, hh, canonical, hS⟩
  · exact Or.inl ⟨hp, by rw [hS]⟩
  · exact Or.inr ⟨hp, hh, canonical, hS⟩

/-- `constrainedReplay` has the same frame as the other engines. -/
theorem constrainedReplay_frame {validators : Validators} {sha : String → String}
    {store : ArtifactStore} {b c : String} {pol : Json} {gen : String}
    {rec : ReplayRecord} {diag : ConstrainedDiagnostics} {S' : ArtifactStore}
    (h : constrainedReplay validators sha store b c pol gen true =
      .ok (rec, diag, S')) :
    S'.accepted = store.accepted ∧ S'.rejected_attempts = store.rejected_attempts ∧
    ∃ hh canonical, S'.other_artifacts =
      mapSet store.other_artifacts hh ⟨hh, canonical, rec.toJson⟩ := by
  unfold constrainedReplay at h
  have finish : ∀ {record : ReplayRecord} {d : ConstrainedDiagnostics},
      finalizeConstrained sha store record d true = .ok (rec, diag, S') →
      S'.accepted = store.accepted ∧ S'.rejected_attempts = store.rejected_attempts ∧
      ∃ hh canonical, S'.other_artifacts =
        mapSet store.other_artifacts hh ⟨hh, canonical, rec.toJson⟩ := by
    intro record d hf
    obtain ⟨hrec, _, hacc, hrej, hother⟩ := finalizeConstrained_shape hf
    subst hrec
    rcases hother with ⟨hp, _⟩ | ⟨_, hh, canonical, hS⟩
    · cases hp
    · exact ⟨hacc, hrej, hh, canonical, hS⟩
  split at h
  · split at h
    · cases h
    · split at h
      · cases h
      · split at h
        · exact finish h
        · split at h
          · exact finish h
          · dsimp only at h
            split at h
            · exact finish h
            · split at h
              · exact finish h
              · split at h
                · exact finish h
                · exact finish h
  · exact finish h

end Keystone

namespace Keystone

theorem except_map_ok {α β : Type} {x : Except String α} {f : α → β} {y : β}
    (h : x.map f = .ok y) : ∃ a, x = .ok a ∧ f a = y := by
  cases x with
  | ok a => exact ⟨a, rfl, by injection h⟩
  | error e => cases h

set_option maxRecDepth 40000 in
/-- C3 counterexample: from the empty store, committing a policy decision
whose auth prerequisite is missing (rejected `MISSING_PREREQ`, persisted by
computed hash), then its auth context, then resubmitting the same policy
decision (now accepted) leaves the same envelope hash keyed in both the
accepted and the rejected-attempts namespaces simultaneously. -/
theorem store_namespace_overlap_counterexample :
    (runCommits trivialValidators shaId ArtifactStore.empty resubmitCallsW).map
      (fun S => (mapGet S.accepted pdCanonW).isSome &&
        (mapGet S.rejected_attempts pdCanonW).isSome) = .ok true := by
  decide

/-- C3 (amended): in every store reachable from the empty store by
`commit_action` calls and replay-result emissions, each namespace's key
list is duplicate-free — each envelope hash keys at most one record per
namespace.  Across namespaces a hash can recur: a record first rejected as
`MISSING_PREREQ` and later resubmitted and accepted is keyed in both the
rejected-attempts and the accepted namespaces (see the counterexample). -/
theorem store_hash_unique_per_namespace (validators : Validators) (sha : String → String)
    (ops : List LedgerOp) (S : ArtifactStore)
    (h : runOps validators sha ArtifactStore.empty ops = .ok S) :
    (S.accepted.map Prod.fst).Nodup ∧ (S.rejected_attempts.map Prod.fst).Nodup ∧
    (S.other_artifacts.map Prod.fst).Nodup := by
  suffices H : ∀ (S₀ : ArtifactStore), (S₀.accepted.map Prod.fst).Nodup →
      (S₀.rejected_attempts.map Prod.fst).Nodup →
      (S₀.other_artifacts.map Prod.fst).Nodup →
      runOps validators sha S₀ ops = .ok S →
      (S.accepted.map Prod.fst).Nodup ∧ (S.rejected_attempts.map Prod.fst).Nodup ∧
      (S.other_artifacts.map Prod.fst).Nodup by
    exact H ArtifactStore.empty (by simp [ArtifactStore.empty])
      (by simp [ArtifactStore.empty]) (by simp [ArtifactStore.empty]) h
  clear h
  induction ops with
  | nil =>
    intro S₀ h1 h2 h3 h
    unfold runOps at h
    injection h with h
    subst h
    exact ⟨h1, h2, h3⟩
  | cons op ops ih =>
    intro S₀ h1 h2 h3 h
    unfold runOps at h
    cases hstep : stepOp validators sha S₀ op with
    | error e => rw [hstep] at h; cases h
    | ok S₁ =>
      rw [hstep] at h
      refine ih S₁ ?_ ?_ ?_ h
      all_goals {
        cases op with
        | commit c =>
          unfold stepOp at hstep
          obtain ⟨⟨r, S₁'⟩, hc, hS⟩ := except_map_ok hstep
          dsimp only at hS
          subst hS
          rcases commit_action_store_shape hc with hsh | ⟨a, hsh⟩ | ⟨a, hsh⟩ <;>
            subst hsh <;>
            first
              | assumption
              | exact mapSet_keys_nodup _ _ (by assumption)
        | invariant t inc gen =>
          unfold stepOp at hstep
          obtain ⟨⟨rec, S₁'⟩, hc, hS⟩ := except_map_ok hstep
          dsimp only at hS
          subst hS
          obtain ⟨hacc, hrej, hh, canonical, hoth⟩ := invariantReplay_frame hc
          first
            | (rw [hacc]; assumption)
            | (rw [hrej]; assumption)
            | (rw [hoth]; exact mapSet_keys_nodup _ _ (by assumption))
        | forensic t inc gen =>
          unfold stepOp at hstep
          obtain ⟨⟨rec, S₁'⟩, hc, hS⟩ := except_map_ok hstep
          dsimp only at hS
          subst hS
          obtain ⟨hacc, hrej, hh, canonical, hoth⟩ := forensicReplay_frame hc
          first
            | (rw [hacc]; assumption)
            | (rw [hrej]; assumption)
            | (rw [hoth]; exact mapSet_keys_nodup _ _ (by assumption))
        | constrained b c pol gen =>
          unfold stepOp at hstep
          obtain ⟨⟨rec, diag, S₁'⟩, hc, hS⟩ := except_map_ok hstep
          dsimp only at hS
          subst hS
          obtain ⟨hacc, hrej, hh, canonical, hoth⟩ := constrainedReplay_frame hc
          first
            | (rw [hacc]; assumption)
            | (rw [hrej]; assumption)
            | (rw [hoth]; exact mapSet_keys_nodup _ _ (by assumption))
      }

/-- The ledger after the reject-then-resubmit sequence and one invariant
replay run over its trace. -/
def c3StoreW : ArtifactStore :=
  match runOps trivialValidators shaId ArtifactStore.empty
    [.commit ⟨"policy_decision", pdCanonW, pdEnvW⟩,
     .commit ⟨"auth_context", authCanonW, authEnvW⟩,
     .commit ⟨"policy_decision", pdCanonW, pdEnvW⟩,
     .invariant "t1" false epochIso] with
  | .ok S => S
  | .error _ => ArtifactStore.empty

set_option maxRecDepth 100000 in
theorem store_hash_unique_per_namespace_witness :
    (c3StoreW.accepted.map Prod.fst).Nodup ∧
    (c3StoreW.rejected_attempts.map Prod.fst).Nodup ∧
    (c3StoreW.other_artifacts.map Prod.fst).Nodup :=
  store_hash_unique_per_namespace trivialValidators shaId
    [.commit ⟨"policy_decision", pdCanonW, pdEnvW⟩,
     .commit ⟨"auth_context", authCanonW, authEnvW⟩,
     .commit ⟨"policy_decision", pdCanonW, pdEnvW⟩,
     .invariant "t1" false epochIso] c3StoreW (by decide)

/-- C10: running a replay engine (invariant, forensic, or constrained) over
a ledger never adds, removes, or modifies entries of the accepted or
rejected-attempts namespaces; the only mutation is inserting the emitted
result record (content-addressed) into the replay-result namespace. -/
theorem replay_engines_frame_effect (validators : Validators) (sha : String → String)
    (store : ArtifactStore) :
    (∀ t inc gen rec S',
      invariantReplay validators sha store t inc gen true = .ok (rec, S') →
      S'.accepted = store.accepted ∧ S'.rejected_attempts = store.rejected_attempts ∧
      ∃ hh canonical, S'.other_artifacts =
        mapSet store.other_artifacts hh ⟨hh, canonical, rec.toJson⟩) ∧
    (∀ t inc gen rec S',
      forensicReplay validators sha store t inc gen true = .ok (rec, S') →
      S'.accepted = store.accepted ∧ S'.rejected_attempts = store.rejected_attempts ∧
      ∃ hh canonical, S'.other_artifacts =
        mapSet store.other_artifacts hh ⟨hh, canonical, rec.toJson⟩) ∧
    (∀ b c pol gen rec diag S',
      constrainedReplay validators sha store b c pol gen true = .ok (rec, diag, S') →
      S'.accepted = store.accepted ∧ S'.rejected_attempts = store.rejected_attempts ∧
      ∃ hh canonical, S'.other_artifacts =
        mapSet store.other_artifacts hh ⟨hh, canonical, rec.toJson⟩) :=
  ⟨fun _ _ _ _ _ h => invariantReplay_frame h,
   fun _ _ _ _ _ h => forensicReplay_frame h,
   fun _ _ _ _ _ _ _ h => constrainedReplay_frame h⟩

def invFailRecW : ReplayRecord :=
  ⟨"invariant", "t", [], "fail", epochIso, none, some REPLAY_CHAIN_NOT_FOUND⟩

def invFailStoreW : ArtifactStore :=
  match invariantReplay trivialValidators shaId ArtifactStore.empty "t" false epochIso true
    with
  | .ok p => p.2
  | .error _ => ArtifactStore.empty

def forFailRecW : ReplayRecord :=
  ⟨"forensic", "t", [], "fail", epochIso, none, some REPLAY_CHAIN_NOT_FOUND⟩

def forFailStoreW : ArtifactStore :=
  match forensicReplay trivialValidators shaId ArtifactStore.empty "t" false epochIso true
    with
  | .ok p => p.2
  | .error _ => ArtifactStore.empty

def conFailRecW : ReplayRecord :=
  ⟨"constrained", "c", [], "fail", epochIso, some "b", some REPLAY_CHAIN_NOT_FOUND⟩

def conFailStoreW : ArtifactStore :=
  match constrainedReplay trivialValidators shaId ArtifactStore.empty "b" "c" .null
    epochIso true with
  | .ok p => p.2.2
  | .error _ => ArtifactStore.empty

def conFailDiagW : ConstrainedDiagnostics :=
  match constrainedReplay trivialValidators shaId ArtifactStore.empty "b" "c" .null
    epochIso true with
  | .ok p => p.2.1
  | .error _ => ⟨[], none, none⟩

set_option maxRecDepth 40000 in
theorem replay_engines_frame_effect_witness :
    (invFailStoreW.accepted = ArtifactStore.empty.accepted ∧
     invFailStoreW.rejected_attempts = ArtifactStore.empty.rejected_attempts ∧
     ∃ hh canonical, invFailStoreW.other_artifacts =
       mapSet ArtifactStore.empty.other_artifacts hh ⟨hh, canonical, invFailRecW.toJson⟩) ∧
    (forFailStoreW.accepted = ArtifactStore.empty.accepted ∧
     forFailStoreW.rejected_attempts = ArtifactStore.empty.rejected_attempts ∧
     ∃ hh canonical, forFailStoreW.other_artifacts =
       mapSet ArtifactStore.empty.other_artifacts hh ⟨hh, canonical, forFailRecW.toJson⟩) ∧
    (conFailStoreW.accepted = ArtifactStore.empty.accepted ∧
     conFailStoreW.rejected_attempts = ArtifactStore.empty.rejected_attempts ∧
     ∃ hh canonical, conFailStoreW.other_artifacts =
       mapSet ArtifactStore.empty.other_artifacts hh ⟨hh, canonical, conFailRecW.toJson⟩) :=
  ⟨(replay_engines_frame_effect trivialValidators shaId ArtifactStore.empty).1
      "t" false epochIso invFailRecW invFailStoreW (by decide),
   (replay_engines_frame_effect trivialValidators shaId ArtifactStore.empty).2.1
      "t" false epochIso forFailRecW forFailStoreW (by decide),
   (replay_engines_frame_effect trivialValidators shaId ArtifactStore.empty).2.2
      "b" "c" .null epochIso conFailRecW conFailDiagW conFailStoreW (by decide)⟩

end Keystone

namespace Keystone

theorem crossLt_trans {a b c da db dc : Int} (hda : 0 < da) (hdb : 0 < db) (hdc : 0 < dc)
    (h1 : a * db < b * da) (h2 : b * dc < c * db) : a * dc < c * da := by
  have key : a * dc * db < c * da * db := by
    calc a * dc * db = a * db * dc := by ring
      _ < b * da * dc := mul_lt_mul_of_pos_right h1 hdc
      _ = b * dc * da := by ring
      _ < c * db * da := mul_lt_mul_of_pos_right h2 hda
      _ = c * da * db := by ring
  exact lt_of_mul_lt_mul_right key (le_of_lt hdb)

theorem crossLtEq_trans {a b c da db dc : Int} (hdb : 0 < db) (hdc : 0 < dc)
    (h1 : a * db < b * da) (h2 : b * dc = c * db) : a * dc < c * da := by
  have key : a * dc * db < c * da * db := by
    calc a * dc * db = a * db * dc := by ring
      _ < b * da * dc := mul_lt_mul_of_pos_right h1 hdc
      _ = b * dc * da := by ring
      _ = c * db * da := by rw [h2]
      _ = c * da * db := by ring
  exact lt_of_mul_lt_mul_right key (le_of_lt hdb)

theorem crossEqLt_trans {a b c da db dc : Int} (hda : 0 < da) (hdb : 0 < db)
    (h1 : a * db = b * da) (h2 : b * dc < c * db) : a * dc < c * da := by
  have key : a * dc * db < c * da * db := by
    calc a * dc * db = a * db * dc := by ring
      _ = b * da * dc := by rw [h1]
      _ = b * dc * da := by ring
      _ < c * db * da := mul_lt_mul_of_pos_right h2 hda
      _ = c * da * db := by ring
  exact lt_of_mul_lt_mul_right key (le_of_lt hdb)

theorem crossEq_trans {a b c da db dc : Int} (hdb : 0 < db)
    (h1 : a * db = b * da) (h2 : b * dc = c * db) : a * dc = c * da := by
  have key : a * dc * db = c * da * db := by
    calc a * dc * db = a * db * dc := by ring
      _ = b * da * dc := by rw [h1]
      _ = b * dc * da := by ring
      _ = c * db * da := by rw [h2]
      _ = c * da * db := by ring
  exact mul_right_cancel₀ (ne_of_gt hdb) key

theorem jsSubLeZero_fin {x y : JsNum} (hx : x.isFiniteB = true) (hy : y.isFiniteB = true) :
    jsSubLeZero x y = true ↔
      x.ratNum * (y.ratDen : Int) ≤ y.ratNum * (x.ratDen : Int) := by
  cases x <;> cases y <;>
    simp_all [jsSubLeZero, JsNum.isFiniteB, JsNum.ratNum, JsNum.ratDen]

theorem jsNumEqB_fin {x y : JsNum} (hx : x.isFiniteB = true) (hy : y.isFiniteB = true) :
    jsNumEqB x y = true ↔
      x.ratNum * (y.ratDen : Int) = y.ratNum * (x.ratDen : Int) := by
  cases x <;> cases y <;>
    simp_all [jsNumEqB, JsNum.isFiniteB, JsNum.ratNum, JsNum.ratDen]

theorem jsNumEqB_fin_symm {x y : JsNum} (hx : x.isFiniteB = true) (hy : y.isFiniteB = true) :
    jsNumEqB x y = jsNumEqB y x := by
  by_cases h : jsNumEqB x y = true
  · have := ((jsNumEqB_fin hx hy).mp h).symm
    rw [h, ((jsNumEqB_fin hy hx).mpr this).symm]
  · rw [Bool.not_eq_true] at h
    rw [h]
    by_cases h' : jsNumEqB y x = true
    · have := ((jsNumEqB_fin hy hx).mp h').symm
      rw [(jsNumEqB_fin hx hy).mpr this] at h
      cases h
    · rw [Bool.not_eq_true] at h'
      rw [h']

theorem chainLe_total {a b : LedgerEnvelopeArtifact}
    (hfa : (timeKey a).isFiniteB = true) (hda : 0 < (timeKey a).ratDen)
    (hfb : (timeKey b).isFiniteB = true) (hdb : 0 < (timeKey b).ratDen) :
    chainLe a b = true ∨ chainLe b a = true := by
  unfold chainLe
  dsimp only
  by_cases hr : recordRank a.record_type = recordRank b.record_type
  · have hr1 : ¬(recordRank a.record_type ≠ recordRank b.record_type) := by simpa using hr
    have hr2 : ¬(recordRank b.record_type ≠ recordRank a.record_type) := by
      simpa using hr.symm
    rw [if_neg hr1, if_neg hr2]
    by_cases he : jsNumEqB (timeKey a) (timeKey b) = false
    · have he' : jsNumEqB (timeKey b) (timeKey a) = false := by
        rw [jsNumEqB_fin_symm hfb hfa]; exact he
      rw [if_pos he, if_pos he']
      rcases le_total ((timeKey a).ratNum * ((timeKey b).ratDen : Int))
          ((timeKey b).ratNum * ((timeKey a).ratDen : Int)) with hle | hle
      · exact Or.inl ((jsSubLeZero_fin hfa hfb).mpr hle)
      · exact Or.inr ((jsSubLeZero_fin hfb hfa).mpr hle)
    · have he2 : ¬(jsNumEqB (timeKey b) (timeKey a) = false) := by
        rw [jsNumEqB_fin_symm hfb hfa]; exact he
      rw [if_neg he, if_neg he2]
      exact strLeB_total _ _
  · have hr1 : recordRank a.record_type ≠ recordRank b.record_type := hr
    have hr2 : recordRank b.record_type ≠ recordRank a.record_type := Ne.symm hr
    rw [if_pos hr1, if_pos hr2]
    rcases Nat.lt_or_ge (recordRank a.record_type) (recordRank b.record_type) with hlt | hge
    · exact Or.inl (by simpa using hlt)
    · have : recordRank b.record_type < recordRank a.record_type :=
        lt_of_le_of_ne hge (Ne.symm hr)
      exact Or.inr (by simpa using this)

theorem chainLe_trans {a b c : LedgerEnvelopeArtifact}
    (hfa : (timeKey a).isFiniteB = true) (hda : 0 < (timeKey a).ratDen)
    (hfb : (timeKey b).isFiniteB = true) (hdb : 0 < (timeKey b).ratDen)
    (hfc : (timeKey c).isFiniteB = true) (hdc : 0 < (timeKey c).ratDen)
    (hab : chainLe a b = true) (hbc : chainLe b c = true) : chainLe a c = true := by
  have hda' : (0 : Int) < ((timeKey a).ratDen : Int) := by exact_mod_cast hda
  have hdb' : (0 : Int) < ((timeKey b).ratDen : Int) := by exact_mod_cast hdb
  have hdc' : (0 : Int) < ((timeKey c).ratDen : Int) := by exact_mod_cast hdc
  unfold chainLe at hab hbc ⊢
  dsimp only at hab hbc ⊢
  by_cases hr1 : recordRank a.record_type = recordRank b.record_type
  · rw [if_neg (by simpa using hr1)] at hab
    by_cases hr2 : recordRank b.record_type = recordRank c.record_type
    · -- all ranks equal
      rw [if_neg (by simpa using hr2)] at hbc
      have hrac : recordRank a.record_type = recordRank c.record_type := hr1.trans hr2
      rw [if_neg (by simpa using hrac)]
      by_cases he1 : jsNumEqB (timeKey a) (timeKey b) = false
      · rw [if_pos he1] at hab
        have hlt1 : (timeKey a).ratNum * ((timeKey b).ratDen : Int) <
            (timeKey b).ratNum * ((timeKey a).ratDen : Int) := by
          rcases lt_or_eq_of_le ((jsSubLeZero_fin hfa hfb).mp hab) with h | h
          · exact h
          · exact absurd ((jsNumEqB_fin hfa hfb).mpr h) (by rw [he1]; intro hh; cases hh)
        by_cases he2 : jsNumEqB (timeKey b) (timeKey c) = false
        · rw [if_pos he2] at hbc
          have hlt2 : (timeKey b).ratNum * ((timeKey c).ratDen : Int) <
              (timeKey c).ratNum * ((timeKey b).ratDen : Int) := by
            rcases lt_or_eq_of_le ((jsSubLeZero_fin hfb hfc).mp hbc) with h | h
            · exact h
            · exact absurd ((jsNumEqB_fin hfb hfc).mpr h) (by rw [he2]; intro hh; cases hh)
          have hlt : (timeKey a).ratNum * ((timeKey c).ratDen : Int) <
              (timeKey c).ratNum * ((timeKey a).ratDen : Int) :=
            crossLt_trans hda' hdb' hdc' hlt1 hlt2
          have hne : jsNumEqB (timeKey a) (timeKey c) = false := by
            by_cases hq : jsNumEqB (timeKey a) (timeKey c) = true
            · exact absurd ((jsNumEqB_fin hfa hfc).mp hq) (ne_of_lt hlt)
            · exact Bool.not_eq_true _ ▸ (Bool.of_not_eq_true hq)
          rw [if_pos hne]
          exact (jsSubLeZero_fin hfa hfc).mpr (le_of_lt hlt)
        · have he2' : jsNumEqB (timeKey b) (timeKey c) = true :=
            Bool.of_not_eq_false he2
          have heq2 := (jsNumEqB_fin hfb hfc).mp he2'
          have hlt : (timeKey a).ratNum * ((timeKey c).ratDen : Int) <
              (timeKey c).ratNum * ((timeKey a).ratDen : Int) :=
            crossLtEq_trans hdb' hdc' hlt1 heq2
          have hne : jsNumEqB (timeKey a) (timeKey c) = false := by
            by_cases hq : jsNumEqB (timeKey a) (timeKey c) = true
            · exact absurd ((jsNumEqB_fin hfa hfc).mp hq) (ne_of_lt hlt)
            · exact Bool.of_not_eq_true hq
          rw [if_pos hne]
          exact (jsSubLeZero_fin hfa hfc).mpr (le_of_lt hlt)
      · have he1' : jsNumEqB (timeKey a) (timeKey b) = true := Bool.of_not_eq_false he1
        have heq1 := (jsNumEqB_fin hfa hfb).mp he1'
        rw [if_neg (by rw [he1']; intro hh; cases hh)] at hab
        by_cases he2 : jsNumEqB (timeKey b) (timeKey c) = false
        · rw [if_pos he2] at hbc
          have hlt2 : (timeKey b).ratNum * ((timeKey c).ratDen : Int) <
              (timeKey c).ratNum * ((timeKey b).ratDen : Int) := by
            rcases lt_or_eq_of_le ((jsSubLeZero_fin hfb hfc).mp hbc) with h | h
            · exact h
            · exact absurd ((jsNumEqB_fin hfb hfc).mpr h) (by rw [he2]; intro hh; cases hh)
          have hlt : (timeKey a).ratNum * ((timeKey c).ratDen : Int) <
              (timeKey c).ratNum * ((timeKey a).ratDen : Int) :=
            crossEqLt_trans hda' hdb' heq1 hlt2
          have hne : jsNumEqB (timeKey a) (timeKey c) = false := by
            by_cases hq : jsNumEqB (timeKey a) (timeKey c) = true
            · exact absurd ((jsNumEqB_fin hfa hfc).mp hq) (ne_of_lt hlt)
            · exact Bool.of_not_eq_true hq
          rw [if_pos hne]
          exact (jsSubLeZero_fin hfa hfc).mpr (le_of_lt hlt)
        · have he2' : jsNumEqB (timeKey b) (timeKey c) = true := Bool.of_not_eq_false he2
          have heq2 := (jsNumEqB_fin hfb hfc).mp he2'
          rw [if_neg (by rw [he2']; intro hh; cases hh)] at hbc
          have heq : (timeKey a).ratNum * ((timeKey c).ratDen : Int) =
              (timeKey c).ratNum * ((timeKey a).ratDen : Int) :=
            crossEq_trans hdb' heq1 heq2
          have heqb : jsNumEqB (timeKey a) (timeKey c) = true :=
            (jsNumEqB_fin hfa hfc).mpr heq
          rw [if_neg (by rw [heqb]; intro hh; cases hh)]
          exact strLeB_trans hab hbc
    · -- rank a = rank b ≠ rank c
      rw [if_pos (by simpa using hr2)] at hbc
      have hlt2 : recordRank b.record_type < recordRank c.record_type := by simpa using hbc
      have hrac : recordRank a.record_type ≠ recordRank c.record_type := by
        rw [hr1]; exact ne_of_lt hlt2
      rw [if_pos (by simpa using hrac)]
      simpa using hr1 ▸ hlt2
  · rw [if_pos (by simpa using hr1)] at hab
    have hlt1 : recordRank a.record_type < recordRank b.record_type := by simpa using hab
    by_cases hr2 : recordRank b.record_type = recordRank c.record_type
    · have hrac : recordRank a.record_type ≠ recordRank c.record_type := by
        rw [← hr2]; exact ne_of_lt hlt1
      rw [if_pos (by simpa using hrac)]
      simpa using hr2 ▸ hlt1
    · rw [if_pos (by simpa using hr2)] at hbc
      have hlt2 : recordRank b.record_type < recordRank c.record_type := by simpa using hbc
      have hlt : recordRank a.record_type < recordRank c.record_type := hlt1.trans hlt2
      rw [if_pos (by simpa using (ne_of_lt hlt))]
      simpa using hlt

theorem chainLe_cases {a b : LedgerEnvelopeArtifact} (h : chainLe a b = true) :
    recordRank a.record_type < recordRank b.record_type ∨
    (recordRank a.record_type = recordRank b.record_type ∧
      jsNumEqB (timeKey a) (timeKey b) = false ∧
      jsSubLeZero (timeKey a) (timeKey b) = true) ∨
    (recordRank a.record_type = recordRank b.record_type ∧
      jsNumEqB (timeKey a) (timeKey b) = true ∧
      strLeB a.envelope_hash b.envelope_hash = true) := by
  unfold chainLe at h
  dsimp only at h
  by_cases hr : recordRank a.record_type = recordRank b.record_type
  · rw [if_neg (by simpa using hr)] at h
    by_cases he : jsNumEqB (timeKey a) (timeKey b) = false
    · rw [if_pos he] at h
      exact Or.inr (Or.inl ⟨hr, he, h⟩)
    · rw [if_neg he] at h
      exact Or.inr (Or.inr ⟨hr, Bool.of_not_eq_false he, h⟩)
  · rw [if_pos (by simpa using hr)] at h
    exact Or.inl (by simpa using h)

end Keystone

namespace Keystone

/-- C8: `resolveTraceChain` orders a trace's artifacts first by kind class
(auth_context 0 < policy_decision 1 < model_call/tool_call 2), then by time
key (`ts_ms` for auth/policy, `started_at_ms` for evidence, non-numbers as
0, compared as the comparator's JavaScript subtraction), then by envelope
hash as lexicographic tiebreaker; the ordered chain is a permutation of the
trace's bucket, and every call over the same store and trace returns the
identical chain.  Stated for buckets whose time keys are finite (a NaN time
key makes the JavaScript comparator inconsistent). -/
theorem trace_chain_ordering (store : ArtifactStore) (t : String) (inc : Bool)
    (chain : ResolvedTraceChain)
    (h : resolveTraceChain store t inc = some chain)
    (hfin : ∀ x ∈ buildTraceBucket store inc t,
      (timeKey x).isFiniteB = true ∧ 0 < (timeKey x).ratDen) :
    chain.ordered.Pairwise (fun a b =>
      recordRank a.record_type < recordRank b.record_type ∨
      (recordRank a.record_type = recordRank b.record_type ∧
        jsNumEqB (timeKey a) (timeKey b) = false ∧
        jsSubLeZero (timeKey a) (timeKey b) = true) ∨
      (recordRank a.record_type = recordRank b.record_type ∧
        jsNumEqB (timeKey a) (timeKey b) = true ∧
        strLeB a.envelope_hash b.envelope_hash = true)) ∧
    chain.ordered.Perm (buildTraceBucket store inc t) ∧
    (∀ chain', resolveTraceChain store t inc = some chain' → chain' = chain) := by
  unfold resolveTraceChain at h
  dsimp only at h
  by_cases hne : buildTraceBucket store inc t = []
  · rw [if_pos hne] at h
    cases h
  · rw [if_neg hne] at h
    injection h with h
    have hord : chain.ordered = jsSort chainLe (buildTraceBucket store inc t) := by
      rw [← h]
    have hpw : (jsSort chainLe (buildTraceBucket store inc t)).Pairwise
        (fun a b => chainLe a b = true) := by
      apply jsSort_pairwise
      · intro x hx y hy
        exact chainLe_total (hfin x hx).1 (hfin x hx).2 (hfin y hy).1 (hfin y hy).2
      · intro x hx y hy z hz h1 h2
        exact chainLe_trans (hfin x hx).1 (hfin x hx).2 (hfin y hy).1 (hfin y hy).2
          (hfin z hz).1 (hfin z hz).2 h1 h2
    refine ⟨?_, ?_, ?_⟩
    · rw [hord]
      exact hpw.imp (fun hab => chainLe_cases hab)
    · rw [hord]
      exact jsSort_perm _ _
    · intro chain' h'
      unfold resolveTraceChain at h'
      dsimp only at h'
      rw [if_neg hne] at h'
      injection h' with h'
      rw [← h', ← h]

def c8AuthArtW : StoredArtifact :=
  ⟨"hA", "auth_context",
   .obj [("record_type", .str "auth_context"),
         ("trace", .obj [("trace_id", .str "t8")]),
         ("ts_ms", .num (.int 5))], "cA"⟩

def c8PdArtW : StoredArtifact :=
  ⟨"hB", "policy_decision",
   .obj [("record_type", .str "policy_decision"),
         ("trace", .obj [("trace_id", .str "t8")]),
         ("ts_ms", .num (.int 6))], "cB"⟩

def c8StoreW : ArtifactStore :=
  ⟨[("hB", c8PdArtW), ("hA", c8AuthArtW)], [], []⟩

def c8ChainW : ResolvedTraceChain :=
  match resolveTraceChain c8StoreW "t8" false with
  | some c => c
  | none => ⟨"", [], [], [], []⟩

theorem trace_chain_ordering_witness :
    c8ChainW.ordered.Pairwise (fun a b =>
      recordRank a.record_type < recordRank b.record_type ∨
      (recordRank a.record_type = recordRank b.record_type ∧
        jsNumEqB (timeKey a) (timeKey b) = false ∧
        jsSubLeZero (timeKey a) (timeKey b) = true) ∨
      (recordRank a.record_type = recordRank b.record_type ∧
        jsNumEqB (timeKey a) (timeKey b) = true ∧
        strLeB a.envelope_hash b.envelope_hash = true)) ∧
    c8ChainW.ordered.Perm (buildTraceBucket c8StoreW false "t8") ∧
    (∀ chain', resolveTraceChain c8StoreW "t8" false = some chain' → chain' = c8ChainW) :=
  trace_chain_ordering c8StoreW "t8" false c8ChainW (by decide) (by decide)

end Keystone

namespace Keystone

theorem invariantScan_of_forensicScan {validators : Validators} {sha : String → String}
    {l : List LedgerEnvelopeArtifact} (h : forensicScan validators sha l = .ok none) :
    invariantScan validators sha l = .ok none := by
  induction l with
  | nil => rfl
  | cons art rest ih =>
    unfold forensicScan at h
    unfold invariantScan schemaAndHashCheck
    cases hv : validateEnvelope validators art.envelope with
    | err a b => rw [hv] at h; cases h
    | ok w =>
      rw [hv] at h
      dsimp only at h
      cases hc : canonicalizeEnvelope art.envelope with
      | error e => rw [hc] at h; cases h
      | ok canonical =>
        rw [hc] at h
        dsimp only at h
        by_cases hne : canonical ≠ art.canonical_json
        · rw [if_pos hne] at h; cases h
        · rw [if_neg hne] at h
          cases hh : hashEnvelope sha art.envelope with
          | error e => rw [hh] at h; cases h
          | ok hsh =>
            rw [hh] at h
            dsimp only at h
            by_cases hne2 : hsh ≠ art.envelope_hash
            · rw [if_pos hne2] at h; cases h
            · rw [if_neg hne2] at h
              dsimp only
              rw [if_neg hne2]
              exact ih h

/-- C6: forensic-to-invariant refinement — if forensic replay over a store
and trace emits a record with result `pass`, invariant replay over the same
store and trace also emits `pass`.  Forensic replay makes every invariant
check (schema re-validation, hash integrity via bit-exact canonical bytes)
and the identical chain-continuity scan, so its pass implies the weaker
engine's pass. -/
theorem forensic_pass_implies_invariant_pass
    (validators : Validators) (sha : String → String) (store : ArtifactStore)
    (t : String) (inc : Bool) (gen : String) (persist : Bool)
    (rec : ReplayRecord) (S' : ArtifactStore)
    (h : forensicReplay validators sha store t inc gen persist = .ok (rec, S'))
    (hpass : rec.result = "pass") :
    ∃ rec' S'', invariantReplay validators sha store t inc gen persist = .ok (rec', S'') ∧
      rec'.result = "pass" := by
  unfold forensicReplay at h
  cases hres : resolveTraceChain store t inc with
  | none =>
    rw [hres] at h
    have hrec := (finalizeReplay_shape h).1
    rw [hrec] at hpass
    simp at hpass
  | some chain =>
    rw [hres] at h
    dsimp only at h
    cases hscan : forensicScan validators sha chain.ordered with
    | error e => rw [hscan] at h; cases h
    | ok o =>
      cases o with
      | some fc =>
        rw [hscan] at h
        have hrec := (finalizeReplay_shape h).1
        rw [hrec] at hpass
        simp at hpass
      | none =>
        rw [hscan] at h
        cases hchain : invariantChainScan store chain.ordered with
        | some fc =>
          rw [hchain] at h
          have hrec := (finalizeReplay_shape h).1
          rw [hrec] at hpass
          simp at hpass
        | none =>
          obtain ⟨S'', hfin, _⟩ := finalizeReplay_frame sha store
            ⟨"invariant", t, chain.ordered.map (fun x => x.envelope_hash), "pass",
             gen, none, none⟩ persist
          refine ⟨⟨"invariant", t, chain.ordered.map (fun x => x.envelope_hash), "pass",
            gen, none, none⟩, S'', ?_, rfl⟩
          unfold invariantReplay
          rw [hres]
          dsimp only
          rw [invariantScan_of_forensicScan hscan, hchain]
          exact hfin

def c6StoreW : ArtifactStore :=
  match runCommits trivialValidators shaId ArtifactStore.empty
    [⟨"auth_context", authCanonW, authEnvW⟩, ⟨"policy_decision", pdCanonW, pdEnvW⟩] with
  | .ok S => S
  | .error _ => ArtifactStore.empty

def c6RecW : ReplayRecord :=
  match forensicReplay trivialValidators shaId c6StoreW "t1" false epochIso true with
  | .ok p => p.1
  | .error _ => ⟨"", "", [], "", epochIso, none, none⟩

def c6OutStoreW : ArtifactStore :=
  match forensicReplay trivialValidators shaId c6StoreW "t1" false epochIso true with
  | .ok p => p.2
  | .error _ => ArtifactStore.empty

set_option maxRecDepth 100000 in
theorem forensic_pass_implies_invariant_pass_witness :
    ∃ rec' S'',
      invariantReplay trivialValidators shaId c6StoreW "t1" false epochIso true =
        .ok (rec', S'') ∧ rec'.result = "pass" :=
  forensic_pass_implies_invariant_pass trivialValidators shaId c6StoreW "t1" false
    epochIso true c6RecW c6OutStoreW (by decide) (by decide)

end Keystone

namespace Keystone

theorem map_id_of_forall {α : Type} {l : List α} {f : α → α} (h : ∀ a ∈ l, f a = a) :
    l.map f = l := by
  induction l with
  | nil => rfl
  | cons a l ih =>
    rw [List.map_cons, h a (by simp), ih (fun b hb => h b (by simp [hb]))]

theorem mapGet_mem {α : Type} {m : List (String × α)} {k : String} {v : α}
    (h : mapGet m k = some v) : (k, v) ∈ m := by
  unfold mapGet at h
  cases hf : m.find? (fun p => p.1 = k) with
  | none => rw [hf] at h; cases h
  | some p =>
    rw [hf] at h
    injection h with h
    have hm := List.mem_of_find?_eq_some hf
    have hp : p.1 = k := by
      have := List.find?_some hf
      exact of_decide_eq_true this
    have hpv : p = (k, v) := by
      cases p with
      | mk k1 v1 =>
        dsimp at hp h
        rw [hp, h]
    rw [← hpv]
    exact hm

theorem mapGet_of_mem_nodup {α : Type} {m : List (String × α)} {k : String} {v : α}
    (hnd : (m.map Prod.fst).Nodup) (hmem : (k, v) ∈ m) : mapGet m k = some v := by
  induction m with
  | nil => cases hmem
  | cons p m ih =>
    rw [List.mem_cons] at hmem
    rw [List.map_cons, List.nodup_cons] at hnd
    rcases hmem with rfl | hmem
    · rw [mapGet_cons, if_pos rfl]
    · have hz : p.1 ≠ k := by
        intro he
        exact hnd.1 (he ▸ (List.mem_map_of_mem Prod.fst hmem))
      rw [mapGet_cons, if_neg hz]
      exact ih hnd.2 hmem

theorem mapGet_isSome_of_key_mem {α : Type} {m : List (String × α)} {k : String}
    (h : k ∈ m.map Prod.fst) : (mapGet m k).isSome = true := by
  induction m with
  | nil => cases h
  | cons p m ih =>
    rw [List.map_cons, List.mem_cons] at h
    by_cases he : p.1 = k
    · rw [mapGet_cons, if_pos he]; rfl
    · rw [mapGet_cons, if_neg he]
      rcases h with h | h
      · exact absurd h.symm he
      · exact ih h

theorem mapSet_eq_self {α : Type} {m : List (String × α)} {k : String} {v : α}
    (hnd : (m.map Prod.fst).Nodup) (hget : mapGet m k = some v) : mapSet m k v = m := by
  have hs : (m.find? (fun p => p.1 = k)).isSome = true := by
    rw [find?_isSome_eq_mapGet_isSome, hget]; rfl
  unfold mapSet
  rw [if_pos hs]
  apply map_id_of_forall
  intro p hp
  by_cases he : p.1 = k
  · cases p with
    | mk k1 v1 =>
      dsimp at he
      subst he
      have h2 := mapGet_of_mem_nodup hnd hp
      rw [hget] at h2
      injection h2 with h2
      dsimp only
      rw [if_pos rfl, h2]
  · exact if_neg he

theorem mapSet_eq_append {α : Type} {m : List (String × α)} {k : String} (v : α)
    (hget : mapGet m k = none) : mapSet m k v = m ++ [(k, v)] := by
  have hs : ¬((m.find? (fun p => p.1 = k)).isSome = true) := by
    rw [find?_isSome_eq_mapGet_isSome, hget]; simp
  unfold mapSet
  rw [if_neg hs]

theorem invariantChainCheck_eq_of_accepted_eq {S S' : ArtifactStore}
    (h : S'.accepted = S.accepted) (art : LedgerEnvelopeArtifact) :
    invariantChainCheck S' art = invariantChainCheck S art := by
  unfold invariantChainCheck requireAccepted getAcceptedByJson ArtifactStore.getAccepted
  rw [h]

theorem requireAccepted_extend {S : ArtifactStore} {x : Option Json}
    {auth : StoredArtifact} (k : String) (a : StoredArtifact)
    (h : requireAccepted S x = some auth) :
    requireAccepted { S with accepted := S.accepted ++ [(k, a)] } x = some auth := by
  unfold requireAccepted getAcceptedByJson ArtifactStore.getAccepted at h ⊢
  cases x with
  | none => cases h
  | some j =>
    cases j with
    | str s =>
      dsimp only at h ⊢
      rw [mapGet_append_single, h]
    | null => cases h
    | bool b => cases h
    | num v => cases h
    | arr xs => cases h
    | obj ms => cases h
    | undef => cases h

theorem invariantChainCheck_extend {S : ArtifactStore} {art : LedgerEnvelopeArtifact}
    (k : String) (a : StoredArtifact)
    (h : invariantChainCheck S art = none) :
    invariantChainCheck { S with accepted := S.accepted ++ [(k, a)] } art = none := by
  unfold invariantChainCheck at h ⊢
  dsimp only at h ⊢
  by_cases h1 : art.record_type = "auth_context"
  · rw [if_pos h1]
  · rw [if_neg h1] at h ⊢
    by_cases h2 : art.record_type = "policy_decision"
    · rw [if_pos h2] at h ⊢
      cases hq : requireAccepted S (art.envelope.get? "auth_context_envelope_sha256") with
      | none => rw [hq] at h; cases h
      | some auth =>
        rw [hq] at h
        rw [requireAccepted_extend k a hq]
        exact h
    · rw [if_neg h2] at h ⊢
      by_cases h3 : art.record_type = "model_call" ∨ art.record_type = "tool_call"
      · rw [if_pos h3] at h ⊢
        cases hq1 : requireAccepted S (art.envelope.get? "auth_context_envelope_sha256")
          with
        | none => rw [hq1] at h; cases h
        | some auth =>
          rw [hq1] at h
          rw [requireAccepted_extend k a hq1]
          dsimp only at h ⊢
          cases hq2 : requireAccepted S
            (art.envelope.get? "policy_decision_envelope_sha256") with
          | none => rw [hq2] at h; cases h
          | some pd =>
            rw [hq2] at h
            rw [requireAccepted_extend k a hq2]
            exact h
      · rw [if_neg h3]

theorem invariantScan_all {validators : Validators} {sha : String → String}
    {l : List LedgerEnvelopeArtifact}
    (h : ∀ art ∈ l,
      schemaAndHashCheck validators sha art.envelope art.envelope_hash = .ok none) :
    invariantScan validators sha l = .ok none := by
  induction l with
  | nil => rfl
  | cons art rest ih =>
    unfold invariantScan
    rw [h art (by simp)]
    exact ih (fun b hb => h b (by simp [hb]))

theorem invariantChainScan_all {store : ArtifactStore}
    {l : List LedgerEnvelopeArtifact}
    (h : ∀ art ∈ l, invariantChainCheck store art = none) :
    invariantChainScan store l = none := by
  induction l with
  | nil => rfl
  | cons art rest ih =>
    unfold invariantChainScan
    rw [h art (by simp)]
    exact ih (fun b hb => h b (by simp [hb]))

end Keystone

namespace Keystone

theorem chainCheck_of_gate {store : ArtifactStore} {rt : String} {env : Json}
    {prereqs : Prereqs} (hp : _resolvePrereqs store rt env = .ok prereqs)
    (htc : _enforceTraceContinuity rt env prereqs = none)
    (ha : _enforceAuthorization rt prereqs = none)
    (k canonical : String) :
    invariantChainCheck store (toLedgerAccepted k ⟨k, rt, env, canonical⟩) = none := by
  unfold invariantChainCheck toLedgerAccepted
  dsimp only
  by_cases h1 : rt = "auth_context"
  · rw [if_pos h1]
  · rw [if_neg h1]
    unfold _resolvePrereqs at hp
    rw [if_neg h1] at hp
    unfold _enforceTraceContinuity at htc
    rw [if_neg h1] at htc
    by_cases h2 : rt = "policy_decision"
    · rw [if_pos h2] at hp ⊢
      cases hq : getAcceptedByJson store (env.get? "auth_context_envelope_sha256") with
      | none => rw [hq] at hp; cases hp
      | some auth =>
        rw [hq] at hp
        dsimp only at hp
        injection hp with hp'
        unfold requireAccepted
        rw [hq]
        dsimp only
        cases hti : traceIdOfJson env with
        | none => rw [hti] at htc; cases htc
        | some tj =>
          rw [hti] at htc
          cases tj with
          | str tid =>
            dsimp only at htc
            rw [if_pos h2] at htc
            rw [← hp'] at htc
            dsimp only at htc
            have heq : traceIdOfJson auth.envelope = some (.str tid) := by
              by_cases hz : traceIdOfJson auth.envelope = some (.str tid)
              · exact hz
              · rw [if_neg hz] at htc; cases htc
            rw [if_neg (by rw [heq]; exact fun hne => hne rfl)]
          | null => cases htc
          | bool b => cases htc
          | num v => cases htc
          | arr xs => cases htc
          | obj ms => cases htc
          | undef => cases htc
    · rw [if_neg h2] at hp ⊢
      by_cases h3 : rt = "model_call" ∨ rt = "tool_call"
      · rw [if_pos h3] at hp ⊢
        cases hq1 : getAcceptedByJson store (env.get? "auth_context_envelope_sha256") with
        | none => rw [hq1] at hp; cases hp
        | some auth =>
          rw [hq1] at hp
          dsimp only at hp
          cases hq2 : getAcceptedByJson store
            (env.get? "policy_decision_envelope_sha256") with
          | none => rw [hq2] at hp; cases hp
          | some pd =>
            rw [hq2] at hp
            dsimp only at hp
            injection hp with hp'
            unfold requireAccepted
            rw [hq1]
            dsimp only
            rw [hq2]
            dsimp only
            cases hti : traceIdOfJson env with
            | none => rw [hti] at htc; cases htc
            | some tj =>
              rw [hti] at htc
              cases tj with
              | str tid =>
                dsimp only at htc
                rw [if_neg h2, if_pos h3, ← hp'] at htc
                dsimp only at htc
                have heq : traceIdOfJson auth.envelope = some (.str tid) ∧
                    traceIdOfJson pd.envelope = some (.str tid) := by
                  by_cases hz : traceIdOfJson auth.envelope = some (.str tid) ∧
                      traceIdOfJson pd.envelope = some (.str tid)
                  · exact hz
                  · rw [if_neg hz] at htc; cases htc
                have hallow :
                    ((pd.envelope.get? "decision").bind (fun d => d.get? "result")) =
                      some (.str "allow") := by
                  unfold _enforceAuthorization at ha
                  rw [if_neg (by
                    intro hand
                    rcases h3 with h3 | h3
                    · exact hand.1 h3
                    · exact hand.2 h3)] at ha
                  rw [← hp'] at ha
                  dsimp only at ha
                  by_cases hz : ((pd.envelope.get? "decision").bind
                      (fun d => d.get? "result")) = some (.str "allow")
                  · exact hz
                  · rw [if_neg hz] at ha; cases ha
                rw [if_neg (by
                  rw [heq.1, heq.2]
                  intro hor
                  rcases hor with hor | hor
                  · exact hor rfl
                  · exact hor rfl)]
                rw [if_neg (by rw [hallow]; exact fun hne => hne rfl)]
              | null => cases htc
              | bool b => cases htc
              | num v => cases htc
              | arr xs => cases htc
              | obj ms => cases htc
              | undef => cases htc
      · rw [if_neg h3]

theorem commit_action_accept_cases {validators : Validators} {sha : String → String}
    {store : ArtifactStore} {rt dh : String} {env : Json}
    {r : CommitResult} {S' : ArtifactStore}
    (h : commit_action validators sha store rt dh env = .ok (r, S')) :
    S'.accepted = store.accepted ∨
    ∃ canonical k w prereqs,
      validateEnvelope validators env = .ok w ∧
      env.get? "record_type" = some (.str rt) ∧
      canonicalizeEnvelope env = .ok canonical ∧
      hashEnvelope sha env = .ok k ∧
      _resolvePrereqs store rt env = .ok prereqs ∧
      _enforceTraceContinuity rt env prereqs = none ∧
      _enforceAuthorization rt prereqs = none ∧
      S' = store.putAccepted ⟨k, rt, env, canonical⟩ := by
  unfold commit_action at h
  by_cases h0 : RECORD_TYPES.contains rt = false
  · rw [if_pos h0] at h
    injection h with h'
    injection h' with _ hs
    exact Or.inl (by rw [← hs])
  · rw [if_neg h0] at h
    cases hv : validateEnvelope validators env with
    | err a b =>
      rw [hv] at h
      dsimp only at h
      injection h with h'
      injection h' with _ hs
      exact Or.inl (by rw [← hs])
    | ok w =>
      rw [hv] at h
      dsimp only at h
      by_cases hrt : env.get? "record_type" ≠ some (.str rt)
      · rw [if_pos hrt] at h
        injection h with h'
        injection h' with _ hs
        exact Or.inl (by rw [← hs])
      · rw [if_neg hrt] at h
        cases hc : canonicalizeEnvelope env with
        | error e => rw [hc] at h; cases h
        | ok canonical =>
          rw [hc] at h
          dsimp only at h
          cases hh : hashEnvelope sha env with
          | error e => rw [hh] at h; cases h
          | ok k =>
            rw [hh] at h
            dsimp only at h
            by_cases hd : dh ≠ k
            · rw [if_pos hd] at h
              injection h with h'
              injection h' with _ hs
              rcases persistRejected_shape store _ _ _ _ _ _ with hp | hp <;>
                rw [hp] at hs
              · exact Or.inl (by rw [← hs])
              · exact Or.inl (by rw [← hs]; rfl)
            · rw [if_neg hd] at h
              cases hpr : _resolvePrereqs store rt env with
              | fail cl ek =>
                rw [hpr] at h
                dsimp only at h
                injection h with h'
                injection h' with _ hs
                rcases persistRejected_shape store _ _ _ _ _ _ with hp | hp <;>
                  rw [hp] at hs
                · exact Or.inl (by rw [← hs])
                · exact Or.inl (by rw [← hs]; rfl)
              | ok prereqs =>
                rw [hpr] at h
                dsimp only at h
                cases htc : _enforceTraceContinuity rt env prereqs with
                | some pr =>
                  obtain ⟨cl, ek⟩ := pr
                  rw [htc] at h
                  dsimp only at h
                  injection h with h'
                  injection h' with _ hs
                  rcases persistRejected_shape store _ _ _ _ _ _ with hp | hp <;>
                    rw [hp] at hs
                  · exact Or.inl (by rw [← hs])
                  · exact Or.inl (by rw [← hs]; rfl)
                | none =>
                  rw [htc] at h
                  dsimp only at h
                  cases ha : _enforceAuthorization rt prereqs with
                  | some pr =>
                    obtain ⟨cl, ek⟩ := pr
                    rw [ha] at h
                    dsimp only at h
                    injection h with h'
                    injection h' with _ hs
                    rcases persistRejected_shape store _ _ _ _ _ _ with hp | hp <;>
                      rw [hp] at hs
                    · exact Or.inl (by rw [← hs])
                    · exact Or.inl (by rw [← hs]; rfl)
                  | none =>
                    rw [ha] at h
                    dsimp only at h
                    injection h with h'
                    injection h' with _ hs
                    exact Or.inr ⟨canonical, k, w, prereqs, rfl, not_not.mp hrt, rfl,
                      rfl, rfl, htc, ha, hs.symm⟩

end Keystone

namespace Keystone

/-- The inductive invariant of gate-built stores: accepted keys are unique,
and every accepted artifact stems from one of the run's calls, is keyed by
its recomputed hash, re-validates, has matching payload `record_type` and
stored canonical bytes, and satisfies the replay chain-continuity check. -/
def GateInv (validators : Validators) (sha : String → String) (calls : List CommitCall)
    (S : ArtifactStore) : Prop :=
  (S.accepted.map Prod.fst).Nodup ∧
  ∀ p ∈ S.accepted,
    (∃ c ∈ calls, c.envelope = p.2.envelope ∧ c.record_type = p.2.record_type) ∧
    p.2.envelope_hash = p.1 ∧
    (∃ w, validateEnvelope validators p.2.envelope = .ok w) ∧
    p.2.envelope.get? "record_type" = some (.str p.2.record_type) ∧
    canonicalizeEnvelope p.2.envelope = .ok p.2.canonical_json ∧
    hashEnvelope sha p.2.envelope = .ok p.1 ∧
    invariantChainCheck S (toLedgerAccepted p.1 p.2) = none

theorem GateInv_commit {validators : Validators} {sha : String → String}
    {calls : List CommitCall}
    (hcoll : ∀ c1 ∈ calls, ∀ c2 ∈ calls, c1.envelope ≠ c2.envelope →
      hashEnvelope sha c1.envelope ≠ hashEnvelope sha c2.envelope)
    {S : ArtifactStore} (hInv : GateInv validators sha calls S)
    {c : CommitCall} (hc : c ∈ calls) {r : CommitResult} {S' : ArtifactStore}
    (h : commit_action validators sha S c.record_type c.declared_envelope_hash
      c.envelope = .ok (r, S')) :
    GateInv validators sha calls S' := by
  obtain ⟨hnd, hall⟩ := hInv
  rcases commit_action_accept_cases h with hacc |
    ⟨canonical, k, w, prereqs, hv, hrt, hcn, hh, hpr, htc, hau, hS⟩
  · refine ⟨by rw [hacc]; exact hnd, ?_⟩
    intro p hp
    rw [hacc] at hp
    obtain ⟨prov, h1, h2, h3, h4, h5, h6⟩ := hall p hp
    exact ⟨prov, h1, h2, h3, h4, h5,
      by rw [invariantChainCheck_eq_of_accepted_eq hacc]; exact h6⟩
  · cases hq : mapGet S.accepted k with
    | some q =>
      have hqm : (k, q) ∈ S.accepted := mapGet_mem hq
      obtain ⟨⟨c1, hc1, hc1e, hc1r⟩, h1, _, h4, h5, h6, _⟩ := hall (k, q) hqm
      dsimp only at hc1e h1 h4 h5 h6
      have henv : q.envelope = c.envelope := by
        by_contra hne
        have hne1 : c1.envelope ≠ c.envelope := by rw [hc1e]; exact hne
        apply hcoll c1 hc1 c hc hne1
        rw [hc1e, h6, hh]
      have hrteq : q.record_type = c.record_type := by
        have h4' := h4
        rw [henv, hrt] at h4'
        injection h4' with h4'
        injection h4' with h4'
        exact h4'.symm
      have hcaneq : q.canonical_json = canonical := by
        have h5' := h5
        rw [henv, hcn] at h5'
        injection h5' with h5'
        exact h5'.symm
      have hq_eq : q = ⟨k, c.record_type, c.envelope, canonical⟩ := by
        cases q with
        | mk eh rt2 env2 cj =>
          dsimp only at h1 henv hrteq hcaneq
          rw [h1, henv, hrteq, hcaneq]
      have hms : mapSet S.accepted k (⟨k, c.record_type, c.envelope, canonical⟩ :
          StoredArtifact) = S.accepted :=
        mapSet_eq_self hnd (by rw [hq, hq_eq])
      have hS'eq : S' = S := by
        rw [hS]
        unfold ArtifactStore.putAccepted
        dsimp only
        rw [hms]
      rw [hS'eq]
      exact ⟨hnd, hall⟩
    | none =>
      have hms : mapSet S.accepted k (⟨k, c.record_type, c.envelope, canonical⟩ :
          StoredArtifact) =
          S.accepted ++ [(k, ⟨k, c.record_type, c.envelope, canonical⟩)] :=
        mapSet_eq_append _ hq
      have hS'eq : S' = { S with accepted :=
          S.accepted ++ [(k, ⟨k, c.record_type, c.envelope, canonical⟩)] } := by
        rw [hS]
        unfold ArtifactStore.putAccepted
        dsimp only
        rw [hms]
      have hknot : k ∉ S.accepted.map Prod.fst := by
        intro hmem
        have hsome := mapGet_isSome_of_key_mem hmem
        rw [hq] at hsome
        simp at hsome
      constructor
      · rw [hS'eq]
        dsimp only
        rw [List.map_append]
        refine List.Nodup.append hnd (List.nodup_singleton _) ?_
        intro a ha hb
        simp at hb
        rw [hb] at ha
        exact hknot ha
      · intro p hp
        rw [hS'eq] at hp
        dsimp only at hp
        rw [List.mem_append] at hp
        rcases hp with hp | hp
        · obtain ⟨prov, h1, h2, h3, h4, h5, h6⟩ := hall p hp
          refine ⟨prov, h1, h2, h3, h4, h5, ?_⟩
          rw [hS'eq]
          exact invariantChainCheck_extend _ _ h6
        · rw [List.mem_singleton] at hp
          subst hp
          refine ⟨⟨c, hc, rfl, rfl⟩, rfl, ⟨w, hv⟩, hrt, hcn, hh, ?_⟩
          rw [hS'eq]
          exact invariantChainCheck_extend _ _ (chainCheck_of_gate hpr htc hau k canonical)

theorem GateInv_runCommits {validators : Validators} {sha : String → String}
    {calls : List CommitCall}
    (hcoll : ∀ c1 ∈ calls, ∀ c2 ∈ calls, c1.envelope ≠ c2.envelope →
      hashEnvelope sha c1.envelope ≠ hashEnvelope sha c2.envelope) :
    ∀ todo : List CommitCall, (∀ c ∈ todo, c ∈ calls) →
      ∀ S : ArtifactStore, GateInv validators sha calls S →
        ∀ S' : ArtifactStore, runCommits validators sha S todo = .ok S' →
          GateInv validators sha calls S' := by
  intro todo
  induction todo with
  | nil =>
    intro _ S hInv S' h
    unfold runCommits at h
    injection h with h
    rw [← h]
    exact hInv
  | cons c cs ih =>
    intro hsub S hInv S' h
    unfold runCommits at h
    cases hca : commit_action validators sha S c.record_type c.declared_envelope_hash
      c.envelope with
    | error e => rw [hca] at h; cases h
    | ok pr =>
      obtain ⟨r, S₁⟩ := pr
      rw [hca] at h
      exact ih (fun x hx => hsub x (by simp [hx])) S₁
        (GateInv_commit hcoll hInv (hsub c (by simp)) hca) S' h

theorem bucket_false_eq (S : ArtifactStore) (t : String) (ht : t ≠ "") :
    buildTraceBucket S false t =
      (S.accepted.map (fun p => toLedgerAccepted p.1 p.2)).filter
        (fun art => traceIdOfJson art.envelope = some (.str t)) := by
  unfold buildTraceBucket
  rw [if_neg ht]
  rw [if_neg Bool.false_ne_true]
  rw [List.append_nil]

end Keystone

namespace Keystone

/-- C2: a store built from the empty store solely by `commit_action` calls
passes invariant replay on every trace it holds an accepted record for.
Hypotheses: the SHA capability is collision-free across the run's envelopes
(distinct envelopes never hash alike — true of SHA-256 by assumption), and
the trace id is non-empty (the index skips empty trace ids by design, so an
empty id never resolves to a chain). -/
theorem gate_built_store_invariant_pass
    (validators : Validators) (sha : String → String) (calls : List CommitCall)
    (S : ArtifactStore) (t gen : String) (persist : Bool)
    (hcoll : ∀ c1 ∈ calls, ∀ c2 ∈ calls, c1.envelope ≠ c2.envelope →
      hashEnvelope sha c1.envelope ≠ hashEnvelope sha c2.envelope)
    (hrun : runCommits validators sha ArtifactStore.empty calls = .ok S)
    (ht : t ≠ "")
    (hex : ∃ p ∈ S.accepted, traceIdOfJson p.2.envelope = some (.str t)) :
    ∃ rec S', invariantReplay validators sha S t false gen persist = .ok (rec, S') ∧
      rec.result = "pass" := by
  have hInv : GateInv validators sha calls S :=
    GateInv_runCommits hcoll calls (fun c hcm => hcm) ArtifactStore.empty
      ⟨by simp [ArtifactStore.empty], fun p hp => absurd hp (by simp [ArtifactStore.empty])⟩
      S hrun
  obtain ⟨hnd, hall⟩ := hInv
  obtain ⟨p0, hp0, htr0⟩ := hex
  have hbne : buildTraceBucket S false t ≠ [] := by
    rw [bucket_false_eq S t ht]
    intro hnil
    have hmem : toLedgerAccepted p0.1 p0.2 ∈
        (S.accepted.map (fun p => toLedgerAccepted p.1 p.2)).filter
          (fun art => traceIdOfJson art.envelope = some (.str t)) := by
      refine List.mem_filter.mpr ⟨List.mem_map_of_mem _ hp0, ?_⟩
      exact decide_eq_true htr0
    rw [hnil] at hmem
    cases hmem
  unfold invariantReplay
  cases hres : resolveTraceChain S t false with
  | none =>
    unfold resolveTraceChain at hres
    dsimp only at hres
    rw [if_neg hbne] at hres
    cases hres
  | some chain =>
    have hord : chain.ordered = jsSort chainLe (buildTraceBucket S false t) := by
      unfold resolveTraceChain at hres
      dsimp only at hres
      rw [if_neg hbne] at hres
      injection hres with hres
      rw [← hres]
    have hartmem : ∀ art ∈ chain.ordered, ∃ p ∈ S.accepted,
        toLedgerAccepted p.1 p.2 = art := by
      intro art hart
      rw [hord] at hart
      have hart' := mem_jsSort.mp hart
      rw [bucket_false_eq S t ht] at hart'
      exact List.mem_map.mp (List.mem_filter.mp hart').1
    have hscan : invariantScan validators sha chain.ordered = .ok none := by
      apply invariantScan_all
      intro art hart
      obtain ⟨p, hp, hpe⟩ := hartmem art hart
      obtain ⟨_, _, ⟨w, hw⟩, _, _, h6, _⟩ := hall p hp
      rw [← hpe]
      unfold schemaAndHashCheck toLedgerAccepted
      dsimp only
      rw [hw]
      dsimp only
      rw [h6]
      dsimp only
      rw [if_neg (fun hne => hne rfl)]
    have hchain : invariantChainScan S chain.ordered = none := by
      apply invariantChainScan_all
      intro art hart
      obtain ⟨p, hp, hpe⟩ := hartmem art hart
      obtain ⟨_, _, _, _, _, _, h7⟩ := hall p hp
      rw [← hpe]
      exact h7
    obtain ⟨S'', hfin, _⟩ := finalizeReplay_frame sha S
      ⟨"invariant", t, chain.ordered.map (fun x => x.envelope_hash), "pass",
       gen, none, none⟩ persist
    refine ⟨⟨"invariant", t, chain.ordered.map (fun x => x.envelope_hash), "pass",
      gen, none, none⟩, S'', ?_, rfl⟩
    dsimp only
    rw [hscan, hchain]
    exact hfin

set_option maxRecDepth 100000 in
theorem gate_built_store_invariant_pass_witness :
    ∃ rec S', invariantReplay trivialValidators shaId c6StoreW "t1" false epochIso false =
      .ok (rec, S') ∧ rec.result = "pass" :=
  gate_built_store_invariant_pass trivialValidators shaId
    [⟨"auth_context", authCanonW, authEnvW⟩, ⟨"policy_decision", pdCanonW, pdEnvW⟩]
    c6StoreW "t1" epochIso false (by decide) (by decide) (by decide) (by decide)

end Keystone

namespace Keystone

/-- The `allow_response_blobref` flag of the variance policy for a record
kind, read exactly as the enforcement loop reads it (`model_call` uses the
`model_call` entry, anything else the `tool_call` entry); absent or
non-`true` values mean `false`. -/
def allowResponseBlobref (pol : Json) (rt : String) : Bool :=
  if rt = "model_call" then
    ((pol.get? "allow_variance").bind (fun x => x.get? "model_call") |>.bind
      (fun x => x.get? "allow_response_blobref")) = some (.bool true)
  else
    ((pol.get? "allow_variance").bind (fun x => x.get? "tool_call") |>.bind
      (fun x => x.get? "allow_response_blobref")) = some (.bool true)

theorem allowProp_iff (pol : Json) (rt : String) :
    (if rt = "model_call" then
      ((pol.get? "allow_variance").bind (fun x => x.get? "model_call") |>.bind
        (fun x => x.get? "allow_response_blobref")) = some (.bool true)
    else
      ((pol.get? "allow_variance").bind (fun x => x.get? "tool_call") |>.bind
        (fun x => x.get? "allow_response_blobref")) = some (.bool true)) ↔
    allowResponseBlobref pol rt = true := by
  unfold allowResponseBlobref
  by_cases hrt : rt = "model_call"
  · rw [if_pos hrt, if_pos hrt, decide_eq_true_eq]
  · rw [if_neg hrt, if_neg hrt, decide_eq_true_eq]

theorem varianceScan_cons (pol : Json)
    (B C : List (String × LedgerEnvelopeArtifact)) (id : String) (rest : List String) :
    varianceScan pol B C (id :: rest) =
      match mapGet B id with
      | none => varianceScan pol B C rest
      | some b =>
        match mapGet C id with
        | none => varianceScan pol B C rest
        | some c =>
          if blobrefEquals (b.envelope.getU "response") (c.envelope.getU "response") then
            varianceScan pol B C rest
          else
            if (if b.record_type = "model_call" then
                ((pol.get? "allow_variance").bind (fun x => x.get? "model_call") |>.bind
                  (fun x => x.get? "allow_response_blobref")) = some (.bool true)
              else
                ((pol.get? "allow_variance").bind (fun x => x.get? "tool_call") |>.bind
                  (fun x => x.get? "allow_response_blobref")) = some (.bool true)) then
              ((varianceScan pol B C rest).1,
               allowedDiffEntry b.record_type b.envelope_hash c.envelope_hash ::
                 (varianceScan pol B C rest).2)
            else (some REPLAY_VARIANCE_VIOLATION, []) := rfl

theorem varianceScan_cons_miss {pol : Json}
    {B C : List (String × LedgerEnvelopeArtifact)} {id : String} {rest : List String}
    (h : mapGet B id = none ∨ mapGet C id = none) :
    varianceScan pol B C (id :: rest) = varianceScan pol B C rest := by
  rw [varianceScan_cons]
  rcases h with h | h
  · rw [h]
  · cases hb : mapGet B id with
    | none => rfl
    | some bArt => dsimp only; rw [h]

theorem varianceScan_cons_eq {pol : Json}
    {B C : List (String × LedgerEnvelopeArtifact)} {id : String} {rest : List String}
    {bArt cArt : LedgerEnvelopeArtifact}
    (hb : mapGet B id = some bArt) (hc : mapGet C id = some cArt)
    (he : blobrefEquals (bArt.envelope.getU "response") (cArt.envelope.getU "response") =
      true) :
    varianceScan pol B C (id :: rest) = varianceScan pol B C rest := by
  rw [varianceScan_cons]
  rw [hb]
  dsimp only
  rw [hc]
  dsimp only
  rw [if_pos he]

theorem varianceScan_cons_allow {pol : Json}
    {B C : List (String × LedgerEnvelopeArtifact)} {id : String} {rest : List String}
    {bArt cArt : LedgerEnvelopeArtifact}
    (hb : mapGet B id = some bArt) (hc : mapGet C id = some cArt)
    (he : blobrefEquals (bArt.envelope.getU "response") (cArt.envelope.getU "response") =
      false)
    (ha : allowResponseBlobref pol bArt.record_type = true) :
    varianceScan pol B C (id :: rest) =
      ((varianceScan pol B C rest).1,
       allowedDiffEntry bArt.record_type bArt.envelope_hash cArt.envelope_hash ::
         (varianceScan pol B C rest).2) := by
  rw [varianceScan_cons]
  rw [hb]
  dsimp only
  rw [hc]
  dsimp only
  rw [if_neg (by rw [he]; exact Bool.false_ne_true)]
  rw [if_pos ((allowProp_iff pol bArt.record_type).mpr ha)]

theorem varianceScan_cons_viol {pol : Json}
    {B C : List (String × LedgerEnvelopeArtifact)} {id : String} {rest : List String}
    {bArt cArt : LedgerEnvelopeArtifact}
    (hb : mapGet B id = some bArt) (hc : mapGet C id = some cArt)
    (he : blobrefEquals (bArt.envelope.getU "response") (cArt.envelope.getU "response") =
      false)
    (ha : allowResponseBlobref pol bArt.record_type = false) :
    varianceScan pol B C (id :: rest) = (some REPLAY_VARIANCE_VIOLATION, []) := by
  rw [varianceScan_cons]
  rw [hb]
  dsimp only
  rw [hc]
  dsimp only
  rw [if_neg (by rw [he]; exact Bool.false_ne_true)]
  rw [if_neg (fun hp => by
    rw [(allowProp_iff pol bArt.record_type).mp hp] at ha
    cases ha)]

theorem varianceScan_exhaust (pol : Json)
    (B C : List (String × LedgerEnvelopeArtifact)) :
    ∀ ids : List String, (varianceScan pol B C ids).1 = none ∨
      (varianceScan pol B C ids).1 = some REPLAY_VARIANCE_VIOLATION := by
  intro ids
  induction ids with
  | nil => exact Or.inl rfl
  | cons id rest ih =>
    cases hb : mapGet B id with
    | none => rw [varianceScan_cons_miss (Or.inl hb)]; exact ih
    | some bArt =>
      cases hc : mapGet C id with
      | none => rw [varianceScan_cons_miss (Or.inr hc)]; exact ih
      | some cArt =>
        cases he : blobrefEquals (bArt.envelope.getU "response")
            (cArt.envelope.getU "response") with
        | true => rw [varianceScan_cons_eq hb hc he]; exact ih
        | false =>
          cases ha : allowResponseBlobref pol bArt.record_type with
          | true =>
            rw [varianceScan_cons_allow hb hc he ha]
            exact ih
          | false =>
            rw [varianceScan_cons_viol hb hc he ha]
            exact Or.inr rfl

theorem varianceScan_viol_iff (pol : Json)
    (B C : List (String × LedgerEnvelopeArtifact)) :
    ∀ ids : List String,
      ((varianceScan pol B C ids).1 = some REPLAY_VARIANCE_VIOLATION ↔
        ∃ id ∈ ids, ∃ bArt cArt, mapGet B id = some bArt ∧ mapGet C id = some cArt ∧
          blobrefEquals (bArt.envelope.getU "response") (cArt.envelope.getU "response") =
            false ∧
          allowResponseBlobref pol bArt.record_type = false) := by
  intro ids
  induction ids with
  | nil =>
    constructor
    · intro h; cases h
    · intro ⟨id, hid, _⟩; cases hid
  | cons id rest ih =>
    cases hb : mapGet B id with
    | none =>
      rw [varianceScan_cons_miss (Or.inl hb)]
      constructor
      · intro h
        obtain ⟨id0, hid0, w⟩ := ih.mp h
        exact ⟨id0, List.mem_cons_of_mem id hid0, w⟩
      · intro ⟨id0, hid0, bArt, cArt, hbg, hcg, w⟩
        rw [List.mem_cons] at hid0
        rcases hid0 with rfl | hid0
        · rw [hb] at hbg; cases hbg
        · exact ih.mpr ⟨id0, hid0, bArt, cArt, hbg, hcg, w⟩
    | some bArt0 =>
      cases hc : mapGet C id with
      | none =>
        rw [varianceScan_cons_miss (Or.inr hc)]
        constructor
        · intro h
          obtain ⟨id0, hid0, w⟩ := ih.mp h
          exact ⟨id0, List.mem_cons_of_mem id hid0, w⟩
        · intro ⟨id0, hid0, bArt, cArt, hbg, hcg, w⟩
          rw [List.mem_cons] at hid0
          rcases hid0 with rfl | hid0
          · rw [hc] at hcg; cases hcg
          · exact ih.mpr ⟨id0, hid0, bArt, cArt, hbg, hcg, w⟩
      | some cArt0 =>
        cases he : blobrefEquals (bArt0.envelope.getU "response")
            (cArt0.envelope.getU "response") with
        | true =>
          rw [varianceScan_cons_eq hb hc he]
          constructor
          · intro h
            obtain ⟨id0, hid0, w⟩ := ih.mp h
            exact ⟨id0, List.mem_cons_of_mem id hid0, w⟩
          · intro ⟨id0, hid0, bArt, cArt, hbg, hcg, hbl, haf⟩
            rw [List.mem_cons] at hid0
            rcases hid0 with rfl | hid0
            · rw [hb] at hbg
              injection hbg with hbg
              rw [hc] at hcg
              injection hcg with hcg
              rw [← hbg, ← hcg, he] at hbl
              cases hbl
            · exact ih.mpr ⟨id0, hid0, bArt, cArt, hbg, hcg, hbl, haf⟩
        | false =>
          cases ha : allowResponseBlobref pol bArt0.record_type with
          | true =>
            rw [varianceScan_cons_allow hb hc he ha]
            constructor
            · intro h
              obtain ⟨id0, hid0, w⟩ := ih.mp h
              exact ⟨id0, List.mem_cons_of_mem id hid0, w⟩
            · intro ⟨id0, hid0, bArt, cArt, hbg, hcg, hbl, haf⟩
              rw [List.mem_cons] at hid0
              rcases hid0 with rfl | hid0
              · rw [hb] at hbg
                injection hbg with hbg
                rw [← hbg, ha] at haf
                cases haf
              · exact ih.mpr ⟨id0, hid0, bArt, cArt, hbg, hcg, hbl, haf⟩
          | false =>
            rw [varianceScan_cons_viol hb hc he ha]
            constructor
            · intro _
              exact ⟨id, List.mem_cons_self id rest, bArt0, cArt0, hb, hc, he, ha⟩
            · intro _
              rfl

theorem varianceScan_none_diag (pol : Json)
    (B C : List (String × LedgerEnvelopeArtifact)) :
    ∀ ids : List String, (varianceScan pol B C ids).1 = none →
      ∀ id ∈ ids, ∀ bArt cArt, mapGet B id = some bArt → mapGet C id = some cArt →
        blobrefEquals (bArt.envelope.getU "response") (cArt.envelope.getU "response") =
          false →
        allowResponseBlobref pol bArt.record_type = true ∧
        allowedDiffEntry bArt.record_type bArt.envelope_hash cArt.envelope_hash ∈
          (varianceScan pol B C ids).2 := by
  intro ids
  induction ids with
  | nil => intro _ id hid; cases hid
  | cons id rest ih =>
    intro hnone id0 hid0 bArt cArt hbg hcg hbl
    rw [List.mem_cons] at hid0
    cases hb : mapGet B id with
    | none =>
      rw [varianceScan_cons_miss (Or.inl hb)] at hnone ⊢
      rcases hid0 with rfl | hid0
      · rw [hb] at hbg; cases hbg
      · exact ih hnone id0 hid0 bArt cArt hbg hcg hbl
    | some bArt0 =>
      cases hc : mapGet C id with
      | none =>
        rw [varianceScan_cons_miss (Or.inr hc)] at hnone ⊢
        rcases hid0 with rfl | hid0
        · rw [hc] at hcg; cases hcg
        · exact ih hnone id0 hid0 bArt cArt hbg hcg hbl
      | some cArt0 =>
        cases he : blobrefEquals (bArt0.envelope.getU "response")
            (cArt0.envelope.getU "response") with
        | true =>
          rw [varianceScan_cons_eq hb hc he] at hnone ⊢
          rcases hid0 with rfl | hid0
          · rw [hb] at hbg
            injection hbg with hbg
            rw [hc] at hcg
            injection hcg with hcg
            rw [← hbg, ← hcg, he] at hbl
            cases hbl
          · exact ih hnone id0 hid0 bArt cArt hbg hcg hbl
        | false =>
          cases ha : allowResponseBlobref pol bArt0.record_type with
          | true =>
            rw [varianceScan_cons_allow hb hc he ha] at hnone ⊢
            dsimp only at hnone ⊢
            rcases hid0 with rfl | hid0
            · rw [hb] at hbg
              injection hbg with hbg
              rw [hc] at hcg
              injection hcg with hcg
              subst hbg
              subst hcg
              exact ⟨ha, List.mem_cons_self _ _⟩
            · obtain ⟨h1, h2⟩ := ih hnone id0 hid0 bArt cArt hbg hcg hbl
              exact ⟨h1, List.mem_cons_of_mem _ h2⟩
          | false =>
            rw [varianceScan_cons_viol hb hc he ha] at hnone
            cases hnone

end Keystone

namespace Keystone

/-- The sorted policy-signature path of a trace, as computed by constrained
replay. -/
def policyPath (chain : ResolvedTraceChain) : List Json :=
  jsSort (fun a b => strLeB (stableJson a) (stableJson b))
    (chain.policy_decision.map (fun x => policySignature x.envelope))

/-- The sorted evidence-identity list of a trace, as computed by constrained
replay. -/
def evidenceIds (store : ArtifactStore) (chain : ResolvedTraceChain) : List String :=
  jsSort strLeB ((buildEvidenceMap store chain.evidence).map (fun p => p.1))

theorem finalizeConstrained_ok (sha : String → String) (store : ArtifactStore)
    (record : ReplayRecord) (diag : ConstrainedDiagnostics) (persist : Bool) :
    ∃ S', finalizeConstrained sha store record diag persist = .ok (record, diag, S') := by
  obtain ⟨S'', hfin, _⟩ := finalizeReplay_frame sha store record persist
  refine ⟨S'', ?_⟩
  unfold finalizeConstrained
  rw [hfin]

/-- C9: variance enforcement in constrained replay.  When both traces pass
invariant replay and their policy paths and evidence-identity sets match:
a matched evidence pair with differing response references and an
`allow_response_blobref` flag that is not explicitly `true` for the
baseline record's kind makes the run fail with
`REPLAY_VARIANCE_VIOLATION`; when every differing pair's kind has the flag
set `true`, the run passes and each approved difference is enumerated in
the diagnostics. -/
theorem constrained_variance_enforcement
    (validators : Validators) (sha : String → String) (store : ArtifactStore)
    (b c : String) (pol : Json) (gen : String) (persist : Bool)
    (baseline candidate : ResolvedTraceChain) (invBase invCand : ReplayRecord)
    (Sb Sc : ArtifactStore)
    (hrb : resolveTraceChain store b false = some baseline)
    (hrc : resolveTraceChain store c false = some candidate)
    (hib : invariantReplay validators sha store b false epochIso false = .ok (invBase, Sb))
    (hic : invariantReplay validators sha store c false epochIso false = .ok (invCand, Sc))
    (hbp : invBase.result = "pass") (hcp : invCand.result = "pass")
    (hpath : (policyPath baseline).length = (policyPath candidate).length ∧
      (policyPath baseline).map stableJson = (policyPath candidate).map stableJson)
    (hids : stableJson (.arr ((evidenceIds store baseline).map .str)) =
      stableJson (.arr ((evidenceIds store candidate).map .str))) :
    ((∃ id ∈ evidenceIds store baseline, ∃ bArt cArt,
        mapGet (buildEvidenceMap store baseline.evidence) id = some bArt ∧
        mapGet (buildEvidenceMap store candidate.evidence) id = some cArt ∧
        blobrefEquals (bArt.envelope.getU "response") (cArt.envelope.getU "response") =
          false ∧
        allowResponseBlobref pol bArt.record_type = false) →
      ∃ rec diag S', constrainedReplay validators sha store b c pol gen persist =
          .ok (rec, diag, S') ∧
        rec.result = "fail" ∧ rec.failure_class = some REPLAY_VARIANCE_VIOLATION) ∧
    ((∀ id ∈ evidenceIds store baseline, ∀ bArt cArt,
        mapGet (buildEvidenceMap store baseline.evidence) id = some bArt →
        mapGet (buildEvidenceMap store candidate.evidence) id = some cArt →
        blobrefEquals (bArt.envelope.getU "response") (cArt.envelope.getU "response") =
          false →
        allowResponseBlobref pol bArt.record_type = true) →
      ∃ rec diag S', constrainedReplay validators sha store b c pol gen persist =
          .ok (rec, diag, S') ∧
        rec.result = "pass" ∧ rec.failure_class = none ∧
        ∀ id ∈ evidenceIds store baseline, ∀ bArt cArt,
          mapGet (buildEvidenceMap store baseline.evidence) id = some bArt →
          mapGet (buildEvidenceMap store candidate.evidence) id = some cArt →
          blobrefEquals (bArt.envelope.getU "response") (cArt.envelope.getU "response") =
            false →
          allowedDiffEntry bArt.record_type bArt.envelope_hash cArt.envelope_hash ∈
            diag.allowed_hash_differences) := by
  unfold policyPath at hpath
  unfold evidenceIds at hids
  have hreduce : constrainedReplay validators sha store b c pol gen persist =
      (match varianceScan pol (buildEvidenceMap store baseline.evidence)
          (buildEvidenceMap store candidate.evidence) (evidenceIds store baseline) with
       | (some fc, ds) =>
         finalizeConstrained sha store
           ⟨"constrained", c, baseline.ordered.map (fun x => x.envelope_hash) ++
             candidate.ordered.map (fun x => x.envelope_hash), "fail", gen, some b,
             some fc⟩
           ⟨ds, some (policyPath baseline), some (policyPath candidate)⟩ persist
       | (none, ds) =>
         finalizeConstrained sha store
           ⟨"constrained", c, baseline.ordered.map (fun x => x.envelope_hash) ++
             candidate.ordered.map (fun x => x.envelope_hash), "pass", gen, some b,
             none⟩
           ⟨ds, some (policyPath baseline), some (policyPath candidate)⟩ persist) := by
    unfold constrainedReplay
    rw [hrb, hrc]
    dsimp only
    rw [hib]
    dsimp only
    rw [hic]
    dsimp only
    rw [if_neg (by rw [hbp]; exact fun hne => hne rfl)]
    rw [if_neg (by rw [hcp]; exact fun hne => hne rfl)]
    rw [if_neg (fun hor => hor.elim (fun h2 => h2 hpath.1) (fun h2 => h2 hpath.2))]
    rw [if_neg (fun hne => hne hids)]
    rfl
  constructor
  · intro hex
    have hviol : (varianceScan pol (buildEvidenceMap store baseline.evidence)
        (buildEvidenceMap store candidate.evidence) (evidenceIds store baseline)).1 =
        some REPLAY_VARIANCE_VIOLATION :=
      (varianceScan_viol_iff pol _ _ _).mpr hex
    cases hscan : varianceScan pol (buildEvidenceMap store baseline.evidence)
        (buildEvidenceMap store candidate.evidence) (evidenceIds store baseline) with
    | mk f ds =>
      rw [hscan] at hviol
      dsimp only at hviol
      subst hviol
      obtain ⟨S', hfin⟩ := finalizeConstrained_ok sha store
        ⟨"constrained", c, baseline.ordered.map (fun x => x.envelope_hash) ++
          candidate.ordered.map (fun x => x.envelope_hash), "fail", gen, some b,
          some REPLAY_VARIANCE_VIOLATION⟩
        ⟨ds, some (policyPath baseline), some (policyPath candidate)⟩ persist
      refine ⟨⟨"constrained", c, baseline.ordered.map (fun x => x.envelope_hash) ++
        candidate.ordered.map (fun x => x.envelope_hash), "fail", gen, some b,
        some REPLAY_VARIANCE_VIOLATION⟩,
        ⟨ds, some (policyPath baseline), some (policyPath candidate)⟩, S', ?_, rfl, rfl⟩
      rw [hreduce, hscan]
      exact hfin
  · intro hall
    have hnone : (varianceScan pol (buildEvidenceMap store baseline.evidence)
        (buildEvidenceMap store candidate.evidence) (evidenceIds store baseline)).1 =
        none := by
      rcases varianceScan_exhaust pol (buildEvidenceMap store baseline.evidence)
          (buildEvidenceMap store candidate.evidence) (evidenceIds store baseline) with
        h | h
      · exact h
      · obtain ⟨id, hid, bArt, cArt, hbg, hcg, hbl, haf⟩ :=
          (varianceScan_viol_iff pol _ _ _).mp h
        rw [hall id hid bArt cArt hbg hcg hbl] at haf
        cases haf
    cases hscan : varianceScan pol (buildEvidenceMap store baseline.evidence)
        (buildEvidenceMap store candidate.evidence) (evidenceIds store baseline) with
    | mk f ds =>
      rw [hscan] at hnone
      dsimp only at hnone
      subst hnone
      obtain ⟨S', hfin⟩ := finalizeConstrained_ok sha store
        ⟨"constrained", c, baseline.ordered.map (fun x => x.envelope_hash) ++
          candidate.ordered.map (fun x => x.envelope_hash), "pass", gen, some b, none⟩
        ⟨ds, some (policyPath baseline), some (policyPath candidate)⟩ persist
      refine ⟨⟨"constrained", c, baseline.ordered.map (fun x => x.envelope_hash) ++
        candidate.ordered.map (fun x => x.envelope_hash), "pass", gen, some b, none⟩,
        ⟨ds, some (policyPath baseline), some (policyPath candidate)⟩, S', ?_, rfl, rfl, ?_⟩
      · rw [hreduce, hscan]
        exact hfin
      · intro id hid bArt cArt hbg hcg hbl
        have hd := varianceScan_none_diag pol (buildEvidenceMap store baseline.evidence)
          (buildEvidenceMap store candidate.evidence) (evidenceIds store baseline)
          (by rw [hscan]) id hid bArt cArt hbg hcg hbl
        obtain ⟨_, hmem⟩ := hd
        rw [hscan] at hmem
        exact hmem

end Keystone

namespace Keystone

def authB9 : Json :=
  .obj [("record_type", .str "auth_context"),
        ("trace", .obj [("trace_id", .str "tb")]),
        ("ts_ms", .num (.int 1))]

def authB9Canon : String :=
  match canonicalizeEnvelope authB9 with
  | .ok s => s
  | .error _ => ""

def authC9 : Json :=
  .obj [("record_type", .str "auth_context"),
        ("trace", .obj [("trace_id", .str "tc")]),
        ("ts_ms", .num (.int 1))]

def authC9Canon : String :=
  match canonicalizeEnvelope authC9 with
  | .ok s => s
  | .error _ => ""

def pdB9 : Json :=
  .obj [("record_type", .str "policy_decision"),
        ("trace", .obj [("trace_id", .str "tb")]),
        ("auth_context_envelope_sha256", .str authB9Canon),
        ("ts_ms", .num (.int 2)),
        ("policy", .obj [("policy_id", .str "p1"), ("policy_version", .str "1"),
                         ("policy_sha256", .str "ps")]),
        ("request", .obj [("action", .str "a"), ("resource", .str "r")]),
        ("decision", .obj [("result", .str "allow")])]

def pdB9Canon : String :=
  match canonicalizeEnvelope pdB9 with
  | .ok s => s
  | .error _ => ""

def pdC9 : Json :=
  .obj [("record_type", .str "policy_decision"),
        ("trace", .obj [("trace_id", .str "tc")]),
        ("auth_context_envelope_sha256", .str authC9Canon),
        ("ts_ms", .num (.int 2)),
        ("policy", .obj [("policy_id", .str "p1"), ("policy_version", .str "1"),
                         ("policy_sha256", .str "ps")]),
        ("request", .obj [("action", .str "a"), ("resource", .str "r")]),
        ("decision", .obj [("result", .str "allow")])]

def pdC9Canon : String :=
  match canonicalizeEnvelope pdC9 with
  | .ok s => s
  | .error _ => ""

def mcB9 : Json :=
  .obj [("record_type", .str "model_call"),
        ("trace", .obj [("trace_id", .str "tb")]),
        ("auth_context_envelope_sha256", .str authB9Canon),
        ("policy_decision_envelope_sha256", .str pdB9Canon),
        ("started_at_ms", .num (.int 3)),
        ("model", .obj [("provider", .str "pr"), ("model", .str "m")]),
        ("request", .obj [("prompt", .str "q")]),
        ("response", .obj [("sha256", .str "x"), ("size_bytes", .num (.int 1)),
                           ("content_type", .str "ct")])]

def mcB9Canon : String :=
  match canonicalizeEnvelope mcB9 with
  | .ok s => s
  | .error _ => ""

def mcC9 : Json :=
  .obj [("record_type", .str "model_call"),
        ("trace", .obj [("trace_id", .str "tc")]),
        ("auth_context_envelope_sha256", .str authC9Canon),
        ("policy_decision_envelope_sha256", .str pdC9Canon),
        ("started_at_ms", .num (.int 3)),
        ("model", .obj [("provider", .str "pr"), ("model", .str "m")]),
        ("request", .obj [("prompt", .str "q")]),
        ("response", .obj [("sha256", .str "y"), ("size_bytes", .num (.int 1)),
                           ("content_type", .str "ct")])]

def mcC9Canon : String :=
  match canonicalizeEnvelope mcC9 with
  | .ok s => s
  | .error _ => ""

def c9StoreW : ArtifactStore :=
  match runCommits trivialValidators shaId ArtifactStore.empty
    [⟨"auth_context", authB9Canon, authB9⟩, ⟨"policy_decision", pdB9Canon, pdB9⟩,
     ⟨"model_call", mcB9Canon, mcB9⟩,
     ⟨"auth_context", authC9Canon, authC9⟩, ⟨"policy_decision", pdC9Canon, pdC9⟩,
     ⟨"model_call", mcC9Canon, mcC9⟩] with
  | .ok S => S
  | .error _ => ArtifactStore.empty

/-- A variance policy explicitly allowing `model_call` response BlobRef
variance. -/
def c9PolW : Json :=
  .obj [("allow_variance",
         .obj [("model_call", .obj [("allow_response_blobref", .bool true)])])]

def c9BaseChainW : ResolvedTraceChain :=
  match resolveTraceChain c9StoreW "tb" false with
  | some ch => ch
  | none => ⟨"", [], [], [], []⟩

def c9CandChainW : ResolvedTraceChain :=
  match resolveTraceChain c9StoreW "tc" false with
  | some ch => ch
  | none => ⟨"", [], [], [], []⟩

def c9InvBW : ReplayRecord :=
  match invariantReplay trivialValidators shaId c9StoreW "tb" false epochIso false with
  | .ok p => p.1
  | .error _ => ⟨"", "", [], "", epochIso, none, none⟩

def c9InvBSW : ArtifactStore :=
  match invariantReplay trivialValidators shaId c9StoreW "tb" false epochIso false with
  | .ok p => p.2
  | .error _ => ArtifactStore.empty

def c9InvCW : ReplayRecord :=
  match invariantReplay trivialValidators shaId c9StoreW "tc" false epochIso false with
  | .ok p => p.1
  | .error _ => ⟨"", "", [], "", epochIso, none, none⟩

def c9InvCSW : ArtifactStore :=
  match invariantReplay trivialValidators shaId c9StoreW "tc" false epochIso false with
  | .ok p => p.2
  | .error _ => ArtifactStore.empty

set_option maxRecDepth 400000 in
set_option maxHeartbeats 2000000 in
theorem constrained_variance_enforcement_witness :
    ((∃ id ∈ evidenceIds c9StoreW c9BaseChainW, ∃ bArt cArt,
        mapGet (buildEvidenceMap c9StoreW c9BaseChainW.evidence) id = some bArt ∧
        mapGet (buildEvidenceMap c9StoreW c9CandChainW.evidence) id = some cArt ∧
        blobrefEquals (bArt.envelope.getU "response") (cArt.envelope.getU "response") =
          false ∧
        allowResponseBlobref c9PolW bArt.record_type = false) →
      ∃ rec diag S',
        constrainedReplay trivialValidators shaId c9StoreW "tb" "tc" c9PolW epochIso
          false = .ok (rec, diag, S') ∧
        rec.result = "fail" ∧ rec.failure_class = some REPLAY_VARIANCE_VIOLATION) ∧
    ((∀ id ∈ evidenceIds c9StoreW c9BaseChainW, ∀ bArt cArt,
        mapGet (buildEvidenceMap c9StoreW c9BaseChainW.evidence) id = some bArt →
        mapGet (buildEvidenceMap c9StoreW c9CandChainW.evidence) id = some cArt →
        blobrefEquals (bArt.envelope.getU "response") (cArt.envelope.getU "response") =
          false →
        allowResponseBlobref c9PolW bArt.record_type = true) →
      ∃ rec diag S',
        constrainedReplay trivialValidators shaId c9StoreW "tb" "tc" c9PolW epochIso
          false = .ok (rec, diag, S') ∧
        rec.result = "pass" ∧ rec.failure_class = none ∧
        ∀ id ∈ evidenceIds c9StoreW c9BaseChainW, ∀ bArt cArt,
          mapGet (buildEvidenceMap c9StoreW c9BaseChainW.evidence) id = some bArt →
          mapGet (buildEvidenceMap c9StoreW c9CandChainW.evidence) id = some cArt →
          blobrefEquals (bArt.envelope.getU "response") (cArt.envelope.getU "response") =
            false →
          allowedDiffEntry bArt.record_type bArt.envelope_hash cArt.envelope_hash ∈
            diag.allowed_hash_differences) :=
  constrained_variance_enforcement trivialValidators shaId c9StoreW "tb" "tc" c9PolW
    epochIso false c9BaseChainW c9CandChainW c9InvBW c9InvCW c9InvBSW c9InvCSW
    (by decide) (by decide) (by decide) (by decide) (by decide) (by decide)
    (by decide) (by decide)

end Keystone
